import Mathlib

/-!
# Guitar looper: loop engine and persistence codec

A shallow embedding of `main.cpp` of the looper pedal.

* C `int` globals are mathematical integers (`Int`); every counter of the
  program stays far below `2^31`, and the only arithmetic hazard of the engine,
  the remainder `pos %= mod` with `mod == 0`, is made explicit: `NextSamples`
  returns `none` there.
* `float` samples are exact rationals (`ℚ`); the cast of a float to an integer
  is truncation toward zero. The two float products whose value is cast to an
  integer, `s * 32767.0f` of the raw export and `0.9f * sample_count` of the
  raw import, are rounded to binary32 before the cast (`fl32`), because the
  rounding can change the integer; all other float arithmetic is exact.
* The sample buffer `buf` is a function from cell index to sample; the cells
  of the C array are the indices `0 .. MAX_SIZE - 1`.
* LED writes and delays have no effect on the modelled state and are left out.
* Files on the card are byte lists by name. What the storage medium does
  during one operation (whether an open, a write or a read succeeds) is a
  parameter, `Medium`. Display messages, WAV-writer calls and file creations
  are appended to a log, in call order.
* The audio callback and the main loop are taken one step at a time: an
  operation runs to its end before the next one starts.
-/

namespace GuitarLooper

/-! ## Build-time configuration -/

/-- `#define MAX_SIZE (48000 * 60 * 5)`: five minutes of samples at 48 kHz. -/
def MAX_SIZE : Int := 48000 * 60 * 5

/-! ## Looper state (the globals of `main.cpp`) -/

/-- The global looper variables. `rec_` is the C global `rec`. -/
structure Looper where
  /-- still capturing initial loop length -/
  first : Bool
  /-- recording/overdubbing (`rec` in the source) -/
  rec_ : Bool
  /-- playback -/
  play : Bool
  /-- read/write head -/
  pos : Int
  /-- loop length modulo -/
  mod : Int
  /-- provisional length during first take -/
  len : Int
  /-- sample storage -/
  buf : Int → ℚ
  /-- dry/wet mix, 0 = fully dry, 1 = fully wet -/
  drywet : ℚ
  /-- WAV index -/
  file_counter : Int
  /-- BIN index -/
  file_counterb : Int

/-- The state of the globals at program start, before `main` calls
`ResetBuffer`. -/
def boot : Looper :=
  { first := true, rec_ := false, play := false, pos := 0, mod := MAX_SIZE, len := 0,
    buf := fun _ => 0, drywet := 0, file_counter := 1, file_counterb := 1 }

/-- `ResetBuffer`: clear the transport state and zero the cells
`0 .. MAX_SIZE - 1` of the buffer. -/
def ResetBuffer (s : Looper) : Looper :=
  { s with
    play := false, rec_ := false, first := true, pos := 0, len := 0, mod := MAX_SIZE,
    buf := fun i => if 0 ≤ i ∧ i < MAX_SIZE then 0 else s.buf i }

/-- The two-sided hard clamp `if (v > 1) v = 1; if (v < -1) v = -1;`. -/
def clamp1 (v : ℚ) : ℚ :=
  let v1 := if v > 1 then 1 else v
  if v1 < -1 then -1 else v1

/-- `WriteBuffer`: overdub the input sample `x` into the cell under the head,
clamp it, and count the sample during the first take. -/
def WriteBuffer (s : Looper) (x : ℚ) : Looper :=
  { s with
    buf := Function.update s.buf s.pos (clamp1 (s.buf s.pos + x)),
    len := if s.first then s.len + 1 else s.len }

/-- `NextSamples`: one audio tick with input sample `x`. The result is the new
state and the output sample, or `none` when the tick executes `pos %= mod`
with `mod == 0` (integer division by zero). -/
def NextSamples (s : Looper) (x : ℚ) : Option (Looper × ℚ) :=
  let s1 := if s.rec_ then WriteBuffer s x else s
  let dry_signal := x
  let loop_signal := if s1.play then s1.buf s1.pos * (s1.drywet * (3 / 2)) else 0
  let output := clamp1 (dry_signal + loop_signal)
  -- Finalize first take if we ever ran the buffer full
  let s2 := if s1.len ≥ MAX_SIZE then { s1 with first := false, mod := MAX_SIZE, len := 0 } else s1
  if s2.play then
    if s2.mod = 0 then none
    else some ({ s2 with pos := Int.tmod (s2.pos + 1) s2.mod }, output)
  else some (s2, output)

/-- The button readings consumed by one call of `UpdateButtons`. -/
structure Buttons where
  /-- `pod.button1.RisingEdge()` (play/pause) -/
  b1_rising : Bool
  /-- `pod.button2.RisingEdge()` (record/overdub) -/
  b2_rising : Bool
  /-- `pod.button1.TimeHeldMs()` -/
  b1_held_ms : Nat
  /-- `pod.button2.TimeHeldMs()` -/
  b2_held_ms : Nat

/-- `UpdateButtons`: record toggle, hold-reset gesture, play toggle, in the
order of the source. -/
def UpdateButtons (b : Buttons) (s : Looper) : Looper :=
  -- Button2: toggle REC/OD; auto-start PLAY on first press
  let s1 :=
    if b.b2_rising then
      let t := if s.first && s.rec_ then { s with first := false, mod := s.len, len := 0 } else s
      { t with play := true, rec_ := !t.rec_ }
    else s
  -- Hold both buttons (>= 1s) to reset loop
  let s2 :=
    if b.b1_held_ms ≥ 1000 ∧ b.b2_held_ms ≥ 1000 ∧ s1.play = true then ResetBuffer s1 else s1
  -- Button1: Play/Pause (disabled if first && !rec to avoid empty play)
  if b.b1_rising && !(s2.first && !s2.rec_) then
    { s2 with play := !s2.play, rec_ := false }
  else s2

/-- A rising edge on button 2 only (record/overdub press). -/
def recordPress : Buttons :=
  { b1_rising := false, b2_rising := true, b1_held_ms := 0, b2_held_ms := 0 }

/-- A rising edge on button 1 only (play/pause press). -/
def playPress : Buttons :=
  { b1_rising := true, b2_rising := false, b1_held_ms := 0, b2_held_ms := 0 }

/-- Run audio ticks on the successive input samples `inp 0, inp 1, ...`,
`n` of them starting at sample number `k`; `none` as soon as one tick fails. -/
def ticks (inp : Nat → ℚ) : Nat → Nat → Looper → Option Looper
  | _, 0, s => some s
  | k, n + 1, s =>
    match NextSamples s (inp k) with
    | none => none
    | some (s1, _) => ticks inp (k + 1) n s1

/-! ## Persistence: storage medium, display log and raw 16-bit PCM codec -/

/-- `#define WAV_TRANSFER_SIZE 8192`: writer buffer chunk. -/
def WAV_TRANSFER_SIZE : Int := 8192

/-- Calls made by the persistence and menu code on the display, on the WAV
writer and on the file system, in call order. -/
inductive Ev where
  /-- `oledManager.ShowMessage(message, duration_ms)` -/
  | ShowMessage (message : String) (duration_ms : Nat)
  /-- `wav_writer.OpenFile(name)` -/
  | OpenFile (name : String)
  /-- `wav_writer.Write()` -/
  | Write
  /-- `wav_writer.Sample(&s)` -/
  | Sample (s : ℚ)
  /-- `wav_writer.SaveFile()` -/
  | SaveFile
  /-- a successful `f_open(name, FA_WRITE | FA_CREATE_ALWAYS)` -/
  | f_create (name : String)
  /-- `DrawMenu()`: the menu is rendered -/
  | DrawMenu
  deriving DecidableEq

/-- What the storage medium does on one `f_read` call. -/
inductive ReadBehaviour where
  /-- `FR_OK`, delivering the requested bytes as far as the file has them -/
  | ok
  /-- a result other than `FR_OK` -/
  | error
  /-- `FR_OK` with `bytesRead == 0` -/
  | zero
  deriving DecidableEq

/-- The behaviour of the storage medium during one persistence operation. -/
structure Medium where
  /-- whether `f_open` of this name returns `FR_OK` -/
  open_ok : String → Bool
  /-- whether the `f_write` of the chunk starting at this sample index returns `FR_OK` -/
  write_ok : Int → Bool
  /-- what the `f_read` issued after this many samples have been read does -/
  read : Int → ReadBehaviour

/-- A medium that stores and returns bytes faithfully. -/
def faithful : Medium :=
  { open_ok := fun _ => true, write_ok := fun _ => true, read := fun _ => ReadBehaviour.ok }

/-- The whole modelled system: looper globals, the files on the card (as byte
lists) and the log of display / writer / file-creation calls. -/
structure Sys where
  /-- the looper globals -/
  lp : Looper
  /-- file contents by name; `none` when the file does not exist -/
  disk : String → Option (List Nat)
  /-- calls made so far, oldest first -/
  log : List Ev

/-- The float-to-integer conversion of a C cast: truncation toward zero. -/
def f2i (q : ℚ) : Int := if 0 ≤ q then ⌊q⌋ else ⌈q⌉

/-- Rounding to the nearest integer, a tie going to the even neighbour. -/
def roundEven (x : ℚ) : Int :=
  if x - ⌊x⌋ < 1 / 2 then ⌊x⌋
  else if x - ⌊x⌋ > 1 / 2 then ⌊x⌋ + 1
  else if ⌊x⌋ % 2 = 0 then ⌊x⌋ else ⌊x⌋ + 1

/-- The binary32 exponent of a value: `e` with `2^e <= |q| < 2^(e+1)`, and
-126 in the subnormal range (and for 0). -/
def fexp (q : ℚ) : Int := max (Int.log 2 |q|) (-126)

/-- The binary32 (`float`) value that an arithmetic operation with the exact
result `q` delivers: `q` rounded to the nearest multiple of the spacing
`2^(e - 23)` of its binade (24-bit significand), ties to even. Magnitudes of
`2^128` and more, which overflow, do not occur where the model uses it. -/
def fl32 (q : ℚ) : ℚ := roundEven (q / 2 ^ (fexp q - 23)) * 2 ^ (fexp q - 23)

/-- The quantizer of `SaveBufferToBinary`:
`if (s > 1) s = 1; if (s < -1) s = -1; (int16_t)(s * 32767.0f)`, the cast
applied to the float product. -/
def quantize (s : ℚ) : Int := f2i (fl32 (clamp1 s * 32767))

/-- The two bytes of an `int16_t` in memory (little-endian two-complement). -/
def encode16 (v : Int) : List Nat := [(v % 256).toNat, ((v / 256) % 256).toNat]

/-- The `int16_t` held by two bytes in memory (little-endian two-complement). -/
def decode16 (lo hi : Nat) : Int :=
  let u : Int := lo + 256 * hi
  if u < 32768 then u else u - 65536

/-- The byte image of `binary_buffer[0 .. n)`. -/
def encodeChunk (binary_buffer : Nat → Int) : Nat → List Nat
  | 0 => []
  | n + 1 => encodeChunk binary_buffer n ++ encode16 (binary_buffer n)

/-- The `int16_t` number `i` of a byte sequence. -/
def sampleAt (bytes : List Nat) (i : Nat) : Int :=
  decode16 (bytes.getD (2 * i) 0) (bytes.getD (2 * i + 1) 0)

/-- The chunk loop of `SaveBufferToBinary`, from sample index `i`, with
`content` the bytes written to the file so far. Returns whether every write
returned `FR_OK`, the file content and the log. -/
def saveBinLoop (m : Medium) (buf : Int → ℚ) (mod : Int) (i : Int) (content : List Nat)
    (log : List Ev) : Bool × List Nat × List Ev :=
  if i < mod then
    let n : Int := if i + 1024 ≤ mod then 1024 else mod - i
    let binary_buffer : Nat → Int := fun j => quantize (buf (i + j))
    if m.write_ok i then
      let pct := Int.tdiv ((i + n) * 100) mod
      saveBinLoop m buf mod (i + 1024) (content ++ encodeChunk binary_buffer n.toNat)
        (log ++ [Ev.ShowMessage ("Writing: " ++ toString pct ++ "%") 30])
    else (false, content, log ++ [Ev.ShowMessage "Write error" 1200])
  else (true, content, log)
termination_by (mod - i).toNat
decreasing_by omega

/-- `SaveBufferToBinary`: save the loop as raw 16-bit PCM `LOOP<n>.BIN`. -/
def SaveBufferToBinary (m : Medium) (s : Sys) : Sys :=
  if s.lp.file_counterb > 10 then
    { s with log := s.log ++ [Ev.ShowMessage "Max files (10)" 1500] }
  else if s.lp.mod ≤ 0 then
    { s with log := s.log ++ [Ev.ShowMessage "No data" 1000] }
  else
    let file_name := "LOOP" ++ toString s.lp.file_counterb ++ ".BIN"
    let log1 := s.log ++ [Ev.ShowMessage "Creating BIN..." 800]
    if m.open_ok file_name then
      let r := saveBinLoop m s.lp.buf s.lp.mod 0 [] (log1 ++ [Ev.f_create file_name])
      let disk1 := fun name => if name = file_name then some r.2.1 else s.disk name
      if r.1 then
        { lp := { s.lp with file_counterb := s.lp.file_counterb + 1 },
          disk := disk1,
          log := r.2.2 ++ [Ev.ShowMessage ("Saved " ++ file_name) 1500] }
      else { s with disk := disk1, log := r.2.2 }
    else { s with log := log1 ++ [Ev.ShowMessage "Create failed" 1200] }

/-- The sample loop of `SaveBufferToWav`, from sample index `i`. -/
def saveWavLoop (buf : Int → ℚ) (mod : Int) (i : Int) (log : List Ev) : List Ev :=
  if i < mod then
    let log1 := if Int.tmod i (Int.tdiv WAV_TRANSFER_SIZE 4) = 0 then log ++ [Ev.Write] else log
    let log2 := log1 ++ [Ev.Sample (buf i)]
    let log3 :=
      if Int.tmod i 4096 = 0 then
        log2 ++ [Ev.ShowMessage ("Writing: " ++ toString (Int.tdiv (i * 100) mod) ++ "%") 30]
      else log2
    saveWavLoop buf mod (i + 1) log3
  else log
termination_by (mod - i).toNat
decreasing_by omega

/-- `SaveBufferToWav`: save the loop through the WAV writer as `LOOP<n>.WAV`. -/
def SaveBufferToWav (s : Sys) : Sys :=
  if s.lp.file_counter > 10 then
    { s with log := s.log ++ [Ev.ShowMessage "Max files (10)" 1500] }
  else if s.lp.mod ≤ 0 then
    { s with log := s.log ++ [Ev.ShowMessage "No data" 1000] }
  else
    let file_name := "LOOP" ++ toString s.lp.file_counter ++ ".WAV"
    let log1 := s.log ++ [Ev.ShowMessage "Creating WAV..." 800, Ev.OpenFile file_name,
      Ev.ShowMessage "Writing..." 500]
    let log2 := saveWavLoop s.lp.buf s.lp.mod 0 log1
    { s with
      lp := { s.lp with file_counter := s.lp.file_counter + 1 },
      log := log2 ++ [Ev.Write, Ev.ShowMessage "Finalizing..." 800, Ev.SaveFile,
        Ev.ShowMessage ("Saved " ++ file_name) 1500] }

/-- `f_read` of `btr` bytes at file offset `fptr`: `none` for a result other
than `FR_OK`, otherwise the bytes delivered. -/
def f_read (b : ReadBehaviour) (data : List Nat) (fptr : Nat) (btr : Nat) : Option (List Nat) :=
  match b with
  | ReadBehaviour.error => none
  | ReadBehaviour.zero => some []
  | ReadBehaviour.ok => some ((data.drop fptr).take btr)

/-- The copy loop of `LoadBinaryFile`:
`for (i = 0; i < got && total_read + i < MAX_SIZE; i++)
   buf[total_read + i] = (float)read_buffer[i] / 32767.0f;`
(once the bound `total_read + i < MAX_SIZE` fails it fails for every later
`i`, so skipping the store is the same as leaving the loop). -/
def storeChunk (read_buffer : Nat → Int) (total_read : Int) : Nat → (Int → ℚ) → (Int → ℚ)
  | 0, buf => buf
  | got + 1, buf =>
    let b := storeChunk read_buffer total_read got buf
    if total_read + got < MAX_SIZE then
      Function.update b (total_read + got) ((read_buffer got : ℚ) / 32767)
    else b

/-- The threshold `(int)(0.9f * sample_count)` of the progress report: the
float constant `0.9f`, the count converted to `float`, their float product,
and the cast. -/
def near_complete (sample_count : Int) : Int :=
  f2i (fl32 (fl32 (9 / 10) * fl32 sample_count))

set_option linter.unusedVariables false in
/-- The read loop of `LoadBinaryFile`. Returns `total_read`, the buffer and
the log. -/
def loadLoop (m : Medium) (data : List Nat) (sample_count : Int) (fptr : Nat) (total_read : Int)
    (buf : Int → ℚ) (log : List Ev) : Int × (Int → ℚ) × List Ev :=
  if total_read < sample_count then
    let to_read : Int := if sample_count - total_read > 256 then 256 else sample_count - total_read
    match h : f_read (m.read total_read) data fptr (to_read * 2).toNat with
    | none => (total_read, buf, log)
    | some bytes =>
      if hb : bytes.length = 0 then (total_read, buf, log)
      else
        let got : Nat := bytes.length / 2
        let buf1 := storeChunk (sampleAt bytes) total_read got buf
        let total1 : Int := total_read + got
        let log1 :=
          if Int.tmod total1 1024 = 0 ∨ total1 ≥ near_complete sample_count then
            log ++ [Ev.ShowMessage
              ("Load: " ++ toString (Int.tdiv (total1 * 100) sample_count) ++ "%") 10]
          else log
        loadLoop m data sample_count (fptr + bytes.length) total1 buf1 log1
  else (total_read, buf, log)
termination_by data.length - fptr
decreasing_by
  have hlen : bytes.length ≤ data.length - fptr := by
    unfold f_read at h
    split at h
    · cases h
    · cases h; simp
    · cases h; simp [List.length_take]
  omega

/-- `LoadBinaryFile`: load raw 16-bit PCM into the loop buffer. -/
def LoadBinaryFile (m : Medium) (filename : String) (s : Sys) : Sys :=
  match (if m.open_ok filename then s.disk filename else none) with
  | none => { s with log := s.log ++ [Ev.ShowMessage "Open failed" 1200] }
  | some data =>
    let file_size : Nat := data.length
    let sample_count0 : Int := ((file_size / 2 : Nat) : Int)
    let sample_count := if sample_count0 > MAX_SIZE then MAX_SIZE else sample_count0
    let log1 :=
      if sample_count0 > MAX_SIZE then s.log ++ [Ev.ShowMessage "Truncated" 800] else s.log
    let lp1 := ResetBuffer s.lp
    let r := loadLoop m data sample_count 0 0 lp1.buf log1
    let total_read := r.1
    let lp2 := { lp1 with buf := r.2.1, first := false, mod := total_read, len := 0 }
    { s with
      lp := if total_read > 0 then { lp2 with play := true } else lp2,
      log := r.2.2 ++ [Ev.ShowMessage ("Loaded " ++ toString total_read ++ " smp") 1500] }

/-- The clamp in the words of the specification: `clamp(v, lo, hi)`, the value
of `[lo, hi]` nearest to `v`. -/
def clampSpec (v lo hi : ℚ) : ℚ := max lo (min hi v)

/-- Every cell of the C array `buf[0 .. MAX_SIZE)` holds a sample in `[-1, 1]`. -/
def bounded (buf : Int → ℚ) : Prop := ∀ i, 0 ≤ i → i < MAX_SIZE → -1 ≤ buf i ∧ buf i ≤ 1

/-- A card holding a single file `EMPTY.BIN` of zero bytes, with the looper
freshly reset. -/
def emptyFileSys : Sys :=
  { lp := ResetBuffer boot,
    disk := fun name => if name = "EMPTY.BIN" then some [] else none,
    log := [] }

/-- Rounding to the nearest integer with halves away from zero, the `round`
of the specification's `round(clamp(sample) * 32767)`. -/
def roundNearest (q : ℚ) : Int := if 0 ≤ q then ⌊q + 1 / 2⌋ else ⌈q - 1 / 2⌉

/-- The quantizer in the words of the specification:
`round(clamp(s, -1, 1) * 32767)`. -/
def quantizeSpec (s : ℚ) : Int := roundNearest (clampSpec s (-1) 1 * 32767)

/-- The sample count `LoadBinaryFile` sets out to read from a file of these
bytes: `size / 2`, cut to `MAX_SIZE`. -/
def importCount (data : List Nat) : Int :=
  if ((data.length / 2 : Nat) : Int) > MAX_SIZE then MAX_SIZE else ((data.length / 2 : Nat) : Int)

/-- The file name `SaveBufferToBinary` formats from the BIN index:
`snprintf(file_name, sizeof(file_name), "LOOP%d.BIN", file_counterb)`. -/
def binName (n : Int) : String := "LOOP" ++ toString n ++ ".BIN"

/-- The file name `SaveBufferToWav` formats from the WAV index:
`snprintf(file_name, sizeof(file_name), "LOOP%d.WAV", file_counter)`. -/
def wavName (n : Int) : String := "LOOP" ++ toString n ++ ".WAV"

/-- The truncation notice of `LoadBinaryFile`. -/
def truncationNotice : Ev := Ev.ShowMessage "Truncated" 800

/-- A medium on which every read fails. -/
def failingReads : Medium :=
  { open_ok := fun _ => true, write_ok := fun _ => true, read := fun _ => ReadBehaviour.error }

/-- A card with one file `A.BIN` holding the two samples 1 and 2. -/
def twoSampleSys : Sys :=
  { lp := boot,
    disk := fun name => if name = "A.BIN" then some [1, 0, 2, 0] else none,
    log := [] }

/-- A card with one file `BIG.BIN` of `MAX_SIZE + 1` samples. -/
def bigFileSys : Sys :=
  { lp := boot,
    disk := fun name => if name = "BIG.BIN" then some (List.replicate 28800002 0) else none,
    log := [] }

/-- A finalized loop of two samples, 1/2 and 1/2, on an empty card. -/
def halfLoopSys : Sys :=
  { lp := { boot with first := false, mod := 2, buf := fun _ => 1 / 2 },
    disk := fun _ => none,
    log := [] }

/-- One save request: the format (`true` for WAV, `false` for BIN), what the
medium does during it, and the loop engine (transport and buffer) as it is
at that moment. -/
structure SaveRequest where
  /-- `true`: `SaveBufferToWav`; `false`: `SaveBufferToBinary` -/
  wav : Bool
  /-- behaviour of the storage medium during this save -/
  medium : Medium
  /-- the looper globals when the save is requested; its two file indices are
  ignored, those of the running session are kept -/
  engine : Looper

/-- Carry out one save request on the session. Nothing but the save functions
themselves writes `file_counter` and `file_counterb`. -/
def saveRequest (r : SaveRequest) (s : Sys) : Sys :=
  let s1 : Sys :=
    { s with lp := { r.engine with file_counter := s.lp.file_counter,
                                   file_counterb := s.lp.file_counterb } }
  if r.wav then SaveBufferToWav s1 else SaveBufferToBinary r.medium s1

/-- Carry out save requests in order. -/
def saveRequests : List SaveRequest → Sys → Sys
  | [], s => s
  | r :: rs, s => saveRequests rs (saveRequest r s)

/-- The name of the file a logged call creates through the WAV writer. -/
def wavCreated : Ev → Option String
  | Ev.OpenFile name => some name
  | _ => none

/-- The name of the file a logged call creates through `f_open`. -/
def binCreated : Ev → Option String
  | Ev.f_create name => some name
  | _ => none

/-- The names `f 1, f 2, ..., f k`. -/
def names (f : Int → String) (k : Nat) : List String :=
  (List.range k).map (fun (j : Nat) => f ((j : Int) + 1))

/-- The system after boot and the `ResetBuffer` of `main`, on a card with the
given files. -/
def session (disk : String → Option (List Nat)) : Sys :=
  { lp := ResetBuffer boot, disk := disk, log := [] }

/-- The "Max files (10)" notice of the save functions. -/
def maxFilesNotice : Ev := Ev.ShowMessage "Max files (10)" 1500

/-- The "No data" notice of the save functions. -/
def noDataNotice : Ev := Ev.ShowMessage "No data" 1000

/-- The bookkeeping of the file indices against the files created so far in
the session: each index is between 1 and 11, the WAV files created are exactly
`LOOP1.WAV .. LOOP<file_counter - 1>.WAV` in this order, and every BIN file
created is a `LOOP<n>.BIN` with `1 <= n <= 10`. -/
def capInv (s : Sys) : Prop :=
  1 ≤ s.lp.file_counter ∧ s.lp.file_counter ≤ 11
  ∧ s.log.filterMap wavCreated = names wavName (s.lp.file_counter - 1).toNat
  ∧ 1 ≤ s.lp.file_counterb ∧ s.lp.file_counterb ≤ 11
  ∧ ∀ name ∈ s.log.filterMap binCreated, ∃ n : Int, 1 ≤ n ∧ n ≤ 10 ∧ name = binName n

/-- A session whose WAV index has passed the cap: ten WAV files were saved. -/
def cappedSys : Sys :=
  { lp := { ResetBuffer boot with file_counter := 11, mod := 4, first := false },
    disk := fun _ => none,
    log := [] }

/-- The looper globals that the program can reach: from the `ResetBuffer` of
`main`, by button polls (record and play presses, the hold-reset gesture),
audio ticks that do not divide by zero, raw imports and saves, with any
behaviour of the storage medium and any card content. -/
inductive Reachable : Looper → Prop where
  | start : Reachable (ResetBuffer boot)
  | buttons (b : Buttons) (s : Looper) : Reachable s → Reachable (UpdateButtons b s)
  | reset (s : Looper) : Reachable s → Reachable (ResetBuffer s)
  | tick (s s1 : Looper) (x out : ℚ) :
      Reachable s → NextSamples s x = some (s1, out) → Reachable s1
  | load (m : Medium) (filename : String) (disk : String → Option (List Nat))
      (log : List Ev) (s : Looper) :
      Reachable s → Reachable (LoadBinaryFile m filename { lp := s, disk := disk, log := log }).lp
  | saveWav (disk : String → Option (List Nat)) (log : List Ev) (s : Looper) :
      Reachable s → Reachable (SaveBufferToWav { lp := s, disk := disk, log := log }).lp
  | saveBin (m : Medium) (disk : String → Option (List Nat)) (log : List Ev) (s : Looper) :
      Reachable s → Reachable (SaveBufferToBinary m { lp := s, disk := disk, log := log }).lp

/-- A first take of three samples that was paused with the play button. -/
def pausedTake : Looper :=
  { boot with first := true, rec_ := false, play := false, pos := 3, len := 3 }

/-- A first take of three samples that is being recorded. -/
def runningTake : Looper :=
  { boot with first := true, rec_ := true, play := true, pos := 3, len := 3 }

/-! ## Menu (`OledManager`) and file catalog -/

/-- The value an `int32_t` holds after an addition whose exact result is `x`
(two-complement wraparound); it is `x` itself whenever `x` fits 32 bits. -/
def wrap32 (x : Int) : Int := (x + 2147483648) % 4294967296 - 2147483648

/-- `static constexpr int menu_count = 3`. -/
def menu_count : Int := 3

/-- `static constexpr int sub_menu_count = 3`. -/
def sub_menu_count : Int := 3

/-- `static constexpr int max_files = 10`. -/
def max_files : Int := 10

/-- The menu fields of `class OledManager`. The catalog is the cells
`0 .. file_count - 1` of `file_list`; the C array has the cells `0 .. 9`. -/
structure OledManager where
  /-- selected entry of the main menu -/
  current_menu_index : Int
  /-- the sub-menu for Save/Recall is shown -/
  in_submenu : Bool
  /-- selected entry of the sub-menu -/
  current_submenu_index : Int
  /-- are we selecting a file? -/
  in_file_selection : Bool
  /-- stored file names -/
  file_list : Int → String
  /-- number of found files -/
  file_count : Int
  /-- index of selected file -/
  selected_file_index : Int

/-- The menu fields as the class initializes them. -/
def menuInit : OledManager :=
  { current_menu_index := 0, in_submenu := false, current_submenu_index := 0,
    in_file_selection := false, file_list := fun _ => "", file_count := 0,
    selected_file_index := 0 }

/-- `strstr(hay, needle) != NULL`: `needle` occurs in `hay`. -/
def strstr : List Char → List Char → Bool
  | [], needle => needle.isEmpty
  | c :: rest, needle => needle.isPrefixOf (c :: rest) || strstr rest needle

/-- The test of `ListBinaryFiles` on a directory entry name:
`strstr(fno.fname, ".bin") || strstr(fno.fname, ".BIN")`. -/
def isBinName (fname : String) : Bool :=
  strstr fname.toList ".bin".toList || strstr fname.toList ".BIN".toList

/-- The string left by `strncpy(dst, src, 63); dst[63] = 0`, and likewise by
`snprintf(dst, 64, "%s", src)`: the first 63 characters of the name. -/
def strncpy63 (fname : String) : String := String.mk (fname.toList.take 63)

/-- The scan loop of `ListBinaryFiles` over the names that the successive
`f_readdir` calls deliver; the list ends where `f_readdir` fails, and an empty
name marks the end of the directory. -/
def scanDir : List String → (Int → String) → Int → (Int → String) × Int
  | [], file_list, file_count => (file_list, file_count)
  | fname :: rest, file_list, file_count =>
    if fname.toList ≠ [] ∧ file_count < max_files then
      if isBinName fname then
        scanDir rest (Function.update file_list file_count (strncpy63 fname)) (file_count + 1)
      else scanDir rest file_list file_count
    else (file_list, file_count)

/-- `ListBinaryFiles`: rebuild the catalog from the root directory. `dir` is
`none` when `f_opendir` fails, and otherwise the names delivered by
`f_readdir`. -/
def ListBinaryFiles (dir : Option (List String)) (m : OledManager) : OledManager :=
  match dir with
  | none => { m with file_count := 0 }
  | some entries =>
    { m with file_list := (scanDir entries m.file_list 0).1,
             file_count := (scanDir entries m.file_list 0).2 }

/-- What the card does during one menu poll: the medium for the save or the
load that the poll may start, and the root directory for a rescan. -/
structure MenuEnv where
  /-- behaviour of the storage medium -/
  medium : Medium
  /-- the root directory as `ListBinaryFiles` reads it -/
  dir : Option (List String)

/-- The menu together with the system it acts on. -/
structure App where
  /-- the menu fields of the `OledManager` object -/
  ui : OledManager
  /-- looper globals, card and call log -/
  sys : Sys

/-- `ShowMessage(message, duration_ms)` called from the menu. -/
def ShowMessage (message : String) (duration_ms : Nat) (a : App) : App :=
  { a with sys := { a.sys with log := a.sys.log ++ [Ev.ShowMessage message duration_ms] } }

/-- A call of `DrawMenu()`, recorded in the log. -/
def logDrawMenu (a : App) : App :=
  { a with sys := { a.sys with log := a.sys.log ++ [Ev.DrawMenu] } }

/-- The cyclic index update `(index + inc + count) % count` in `int`
arithmetic. -/
def rotate (index inc count : Int) : Int :=
  Int.tmod (wrap32 (wrap32 (index + inc) + count)) count

/-- `HandleMenu(inc, pressed)`: one poll of the menu with the encoder
increment and the encoder press. -/
def HandleMenu (env : MenuEnv) (inc : Int) (pressed : Bool) (a : App) : App :=
  if !a.ui.in_submenu then
    let a1 :=
      if inc ≠ 0 then
        logDrawMenu { a with ui := { a.ui with
          current_menu_index := rotate a.ui.current_menu_index inc menu_count } }
      else a
    if pressed then
      if a1.ui.current_menu_index = 0 then -- "Save/Recall" selected
        logDrawMenu { a1 with ui := { a1.ui with in_submenu := true, current_submenu_index := 0 } }
      else a1
    else a1
  else if !a.ui.in_file_selection then
    let a1 :=
      if inc ≠ 0 then
        logDrawMenu { a with ui := { a.ui with
          current_submenu_index := rotate a.ui.current_submenu_index inc sub_menu_count } }
      else a
    if pressed then
      let a2 :=
        if a1.ui.current_submenu_index = 0 then -- "Save" selected
          let b1 := ShowMessage "Saving..." 1000 a1
          let b2 := { b1 with sys := SaveBufferToWav b1.sys }
          let b3 := { b2 with sys := SaveBufferToBinary env.medium b2.sys }
          let b4 := ShowMessage "Save Complete" 1500 b3
          { b4 with ui := { b4.ui with in_submenu := false } }
        else if a1.ui.current_submenu_index = 1 then -- "Recall" selected
          let b1 := { a1 with ui := ListBinaryFiles env.dir a1.ui }
          if b1.ui.file_count > 0 then
            { b1 with ui := { b1.ui with in_file_selection := true, selected_file_index := 0 } }
          else
            let b2 := ShowMessage "No Binary Files Found" 1500 b1
            { b2 with ui := { b2.ui with in_submenu := false } }
        else if a1.ui.current_submenu_index = 2 then -- "Exit" selected
          let b1 := ShowMessage "Exiting Menu" 1000 a1
          { b1 with ui := { b1.ui with in_submenu := false, in_file_selection := false } }
        else a1
      logDrawMenu a2
    else a1
  else
    if a.ui.file_count > 0 then
      let a1 :=
        if inc ≠ 0 then
          logDrawMenu { a with ui := { a.ui with
            selected_file_index := rotate a.ui.selected_file_index inc a.ui.file_count } }
        else a
      if pressed then
        let b1 := ShowMessage "Loading..." 1000 a1
        let selectedFile := strncpy63 (b1.ui.file_list b1.ui.selected_file_index)
        let b2 := { b1 with sys := LoadBinaryFile env.medium selectedFile b1.sys }
        let b3 := ShowMessage "Loaded!" 1000 b2
        logDrawMenu { b3 with ui := { b3.ui with in_file_selection := false, in_submenu := false } }
      else a1
    else a

/-- The number of `DrawMenu()` calls in a log. -/
def drawCount (log : List Ev) : Nat := log.count Ev.DrawMenu

/-- The index a menu level holds after the poll's delta: rotated when the
delta is not zero, untouched otherwise. -/
def afterDelta (index inc count : Int) : Int :=
  if inc ≠ 0 then rotate index inc count else index

/-- The menu as constructed, on a freshly reset looper and an empty card. -/
def appInit : App :=
  { ui := menuInit, sys := session (fun _ => none) }

/-- A card that fails to open its root directory, on a faithful medium. -/
def noDirEnv : MenuEnv := { medium := faithful, dir := none }

/-- The log right after the delta part of a poll: a non-zero delta has
rendered the menu once. -/
def logAfterDelta (inc : Int) (log : List Ev) : List Ev :=
  if inc ≠ 0 then log ++ [Ev.DrawMenu] else log

/-- The catalog: the names in the cells `0 .. file_count - 1`. -/
def catalog (m : OledManager) : List String :=
  (List.range m.file_count.toNat).map (fun (k : Nat) => m.file_list k)

/-- A card whose root directory holds two raw files and a text file. -/
def twoFilesEnv : MenuEnv :=
  { medium := faithful, dir := some ["LOOP1.BIN", "NOTES.TXT", "LOOP2.BIN"] }

/-- The menu in the sub-menu with "Recall" selected. -/
def recallApp : App :=
  { ui := { menuInit with in_submenu := true, current_submenu_index := 1 },
    sys := session (fun _ => none) }

/-- The menu in the file selection over a catalog of two names, the second
one selected. -/
def fileSelectApp : App :=
  { ui := { current_menu_index := 0, in_submenu := true, current_submenu_index := 1,
            in_file_selection := true,
            file_list := fun k => if k = 0 then "LOOP1.BIN" else "LOOP2.BIN",
            file_count := 2, selected_file_index := 1 },
    sys := session (fun _ => none) }

/-- The name cells and the count that `ListBinaryFiles` leaves, from the
directory and the name cells it starts with. -/
def scanResult (dir : Option (List String)) (file_list : Int → String) : (Int → String) × Int :=
  match dir with
  | none => (file_list, 0)
  | some entries => scanDir entries file_list 0

/-- The number of renders a poll is due for its delta: one when the delta is
not zero. -/
def deltaDraws (inc : Int) : Nat := if inc ≠ 0 then 1 else 0

/-- The number of `DrawMenu()` calls of one poll: one for a non-zero delta
that the level processes, plus one for a press that the level acts on (in the
main menu, a press with "Save/Recall" selected after the delta; in the
sub-menu, every press; in the file selection over a non-empty catalog, every
press). -/
def expectedDraws (inc : Int) (pressed : Bool) (a : App) : Nat :=
  if !a.ui.in_submenu then
    deltaDraws inc
      + (if pressed = true ∧ afterDelta a.ui.current_menu_index inc menu_count = 0 then 1 else 0)
  else if !a.ui.in_file_selection then
    deltaDraws inc + (if pressed = true then 1 else 0)
  else if a.ui.file_count > 0 then
    deltaDraws inc + (if pressed = true then 1 else 0)
  else 0

/-- The main menu with its second entry selected. -/
def secondEntryApp : App :=
  { ui := { menuInit with current_menu_index := 1 }, sys := session (fun _ => none) }

/-! ## Menu rendering (`DrawMenu`) -/

/-- `const int max_visible_files = 3`. -/
def max_visible_files : Int := 3

/-- `menu_entries`. -/
def menu_entries : Nat → String
  | 0 => "Save/Recall"
  | 1 => "Loop/Playback"
  | _ => "Settings"

/-- `sub_menu_entries`. -/
def sub_menu_entries : Nat → String
  | 0 => "Save"
  | 1 => "Recall"
  | _ => "Exit"

/-- One text row written by `DrawMenu`: `SetCursor(5, y_position)` followed by
`WriteString(text, Font_7x10, !selected)`; the selected row is the one drawn
inverted on a filled rectangle. -/
structure Row where
  /-- vertical position of the row -/
  y_position : Int
  /-- the entry text -/
  text : String
  /-- the row is the selected one -/
  selected : Bool
  deriving DecidableEq

/-- `scroll_start` as `DrawMenu` computes it for the file selection screen. -/
def scroll_start (selected_file_index file_count : Int) : Int :=
  let s0 := selected_file_index - Int.tdiv max_visible_files 2
  let s1 := if s0 < 0 then 0 else s0
  let s2 := if s1 > file_count - max_visible_files then file_count - max_visible_files else s1
  if file_count < max_visible_files then 0 else s2

/-- The file indices drawn by the row loop of the file selection screen,
`for (i = 0; i < max_visible_files; i++) { file_index = scroll_start + i;
if (file_index >= file_count) break; ... }`, from row `i` on with `n` rows
left. -/
def fileRowLoop (start file_count : Int) : Nat → Int → List Int
  | 0, _ => []
  | n + 1, i =>
    let file_index := start + i
    if file_index ≥ file_count then []
    else file_index :: fileRowLoop start file_count n (i + 1)

/-- The file indices that `DrawMenu` draws in the file selection screen. -/
def drawnFiles (selected_file_index file_count : Int) : List Int :=
  fileRowLoop (scroll_start selected_file_index file_count) file_count
    max_visible_files.toNat 0

/-- `DrawMenu`: the text rows of the screen for the current menu level. -/
def DrawMenu (m : OledManager) : List Row :=
  if !m.in_submenu then
    (List.range menu_count.toNat).map (fun (i : Nat) =>
      { y_position := 10 + (i : Int) * 15, text := menu_entries i,
        selected := decide ((i : Int) = m.current_menu_index) })
  else if !m.in_file_selection then
    (List.range sub_menu_count.toNat).map (fun (i : Nat) =>
      { y_position := 10 + (i : Int) * 15, text := sub_menu_entries i,
        selected := decide ((i : Int) = m.current_submenu_index) })
  else
    (drawnFiles m.selected_file_index m.file_count).map (fun file_index =>
      { y_position := 10 + (file_index - scroll_start m.selected_file_index m.file_count) * 12,
        text := m.file_list file_index,
        selected := decide (file_index = m.selected_file_index) })

/-- The window start in the words of the specification:
`clamp(s - W/2, 0, max(file_count - W, 0))` with `W = 3`. -/
def windowStartSpec (s file_count : Int) : Int :=
  max 0 (min (max (file_count - 3) 0) (s - 3 / 2))

/-- The entries of a directory scan that `ListBinaryFiles` looks at: those
before the first empty name, which marks the end of the directory. -/
def listing (entries : List String) : List String :=
  entries.takeWhile (fun (fname : String) => decide (fname.toList ≠ []))

/-- The match predicate in the words of the specification: the name ends
with ".bin", compared without regard to case. -/
def endsWithBinSpec (fname : String) : Bool :=
  ".bin".toList.isSuffixOf (fname.toList.map Char.toLower)

/-! ## Controls (encoder 2 sets the dry/wet mix) -/

/-- The state `Controls` works on: its static `enc_accum` and the looper
globals. -/
structure Panel where
  /-- `static int32_t enc_accum` -/
  enc_accum : Int
  /-- the looper globals -/
  lp : Looper

/-- The panel at program start, after the `ResetBuffer` of `main`. -/
def panelInit : Panel := { enc_accum := 0, lp := ResetBuffer boot }

/-- `Controls`: accumulate the increment of encoder 2, clamp it to
`0 .. 100`, set `drywet = enc_accum / 100.0f` and poll the buttons. -/
def Controls (increment : Int) (b : Buttons) (c : Panel) : Panel :=
  let e0 := wrap32 (c.enc_accum + increment)
  let e1 := if e0 < 0 then 0 else e0
  let e2 := if e1 > 100 then 100 else e1
  { enc_accum := e2, lp := UpdateButtons b { c.lp with drywet := (e2 : ℚ) / 100 } }

/-- Run `Controls` on successive encoder increments and button readings. -/
def runControls : List (Int × Buttons) → Panel → Panel
  | [], c => c
  | (increment, b) :: rest, c => runControls rest (Controls increment b c)

/-- The mix coefficient `wetGain = drywet * 1.5`. -/
def wetGain (s : Looper) : ℚ := s.drywet * (3 / 2)

/-- The loop signal of a tick in the words of the specification: the sample
under the head, read after the overdub write of this tick and before the head
advances, times `wetGain` while playing, and 0 otherwise. -/
def loopSignalSpec (s : Looper) (x : ℚ) : ℚ :=
  if s.play then (if s.rec_ then (WriteBuffer s x).buf s.pos else s.buf s.pos) * wetGain s
  else 0

/-- A paused finalized loop of four samples with the mix fully wet. -/
def wetLoop : Looper :=
  { boot with first := false, mod := 4, drywet := 1, buf := fun _ => 1 / 2 }

/-- The value `NextSamples` assigns to `output`: the statements of the
function up to the clamp of `output`, which come before the capacity test and
before the head advances. -/
def outputSample (s : Looper) (x : ℚ) : ℚ :=
  let s1 := if s.rec_ then WriteBuffer s x else s
  let dry_signal := x
  let loop_signal := if s1.play then s1.buf s1.pos * (s1.drywet * (3 / 2)) else 0
  clamp1 (dry_signal + loop_signal)

/-! ## Invariants of the transport and of the menu -/

/-- The readings of a poll with both hold times taken as zero: the same poll
without the hold-reset gesture. -/
def withoutHold (b : Buttons) : Buttons :=
  { b with b1_held_ms := 0, b2_held_ms := 0 }

/-- A poll with no rising edge, button 1 held for `t1` ms and button 2 for
`t2` ms. -/
def holdBoth (t1 t2 : Nat) : Buttons :=
  { b1_rising := false, b2_rising := false, b1_held_ms := t1, b2_held_ms := t2 }

/-- The bookkeeping of the transport between two operations: the head is a
cell of the buffer and does not lie past the loop length, the loop length does
not exceed the buffer, recording implies playing, a finalized loop has
provisional length 0, and during the first take `play == rec`, the head is at
the provisional length, which is below `MAX_SIZE`, and `mod` is `MAX_SIZE`. -/
def engineInv (s : Looper) : Prop :=
  0 ≤ s.pos ∧ s.pos < MAX_SIZE ∧ s.pos ≤ s.mod ∧ s.mod ≤ MAX_SIZE
  ∧ (s.rec_ = true → s.play = true)
  ∧ (s.first = false → s.len = 0)
  ∧ (s.first = true → s.play = s.rec_ ∧ s.pos = s.len ∧ s.len < MAX_SIZE ∧ s.mod = MAX_SIZE)

/-- The menu states that the program can reach: the menu as constructed, on
any system; polls of `HandleMenu` with an encoder delta of -1, 0 or +1, any
press value and any behaviour of the card; and, between polls, any change of
the rest of the system (looper globals, card, log). -/
inductive MenuReachable : App → Prop where
  | init (sys : Sys) : MenuReachable { ui := menuInit, sys := sys }
  | poll (env : MenuEnv) (inc : Int) (pressed : Bool) (a : App) :
      MenuReachable a → -1 ≤ inc → inc ≤ 1 → MenuReachable (HandleMenu env inc pressed a)
  | other (a : App) (sys : Sys) : MenuReachable a → MenuReachable { a with sys := sys }

/-- The main menu is shown: neither flag is set. -/
def isMain (m : OledManager) : Prop := m.in_submenu = false ∧ m.in_file_selection = false

/-- The sub-menu is shown: `in_submenu` alone is set. -/
def isSubmenu (m : OledManager) : Prop := m.in_submenu = true ∧ m.in_file_selection = false

/-- The file selection is shown: both flags are set. -/
def isFileSelect (m : OledManager) : Prop := m.in_submenu = true ∧ m.in_file_selection = true

/-- The bookkeeping of the menu between two polls: both menu indices are
inside their three entries, the catalog holds at most `max_files` names, and
the file-selection flag is set only inside the sub-menu, over a non-empty
catalog, with the selected file index inside the catalog. -/
def menuInv (m : OledManager) : Prop :=
  0 ≤ m.current_menu_index ∧ m.current_menu_index < menu_count
  ∧ 0 ≤ m.current_submenu_index ∧ m.current_submenu_index < sub_menu_count
  ∧ 0 ≤ m.file_count ∧ m.file_count ≤ max_files
  ∧ (m.in_file_selection = true →
      m.in_submenu = true ∧ 0 < m.file_count
      ∧ 0 ≤ m.selected_file_index ∧ m.selected_file_index < m.file_count)

/-! ## Theorems -/

theorem MAX_SIZE_pos : 0 < MAX_SIZE := by decide

/-- A run of ticks from a reachable state ends in a reachable state. -/
theorem ticks_reachable (inp : Nat → ℚ) (n : Nat) :
    ∀ (k : Nat) (s s1 : Looper), Reachable s → ticks inp k n s = some s1 → Reachable s1 := by
  induction n with
  | zero =>
    intro k s s1 hs h
    simp only [ticks, Option.some.injEq] at h
    rw [← h]; exact hs
  | succ n ih =>
    intro k s s1 hs h
    rw [ticks] at h
    cases hstep : NextSamples s (inp k) with
    | none => rw [hstep] at h; cases h
    | some r =>
      obtain ⟨s2, o⟩ := r
      rw [hstep] at h
      exact ih (k + 1) s2 s1 (Reachable.tick s s2 _ o hs hstep) h

/-- C1: the modulus of `pos %= mod` can be 0 in a reachable state with `play`
set. After
`ResetBuffer`, two record presses with no tick in between finalize a first take
of zero samples (`mod = 0`, `play` set) and the next tick divides by zero; and
importing a file of zero bytes leaves `mod = 0`, after which a play press sets
`play` and the next tick divides by zero. -/
theorem C1_tick_divides_by_zero :
    (UpdateButtons recordPress (UpdateButtons recordPress (ResetBuffer boot))).mod = 0
    ∧ (UpdateButtons recordPress (UpdateButtons recordPress (ResetBuffer boot))).play = true
    ∧ (∀ x, NextSamples (UpdateButtons recordPress (UpdateButtons recordPress (ResetBuffer boot))) x
        = none)
    ∧ (LoadBinaryFile faithful "EMPTY.BIN" emptyFileSys).lp.mod = 0
    ∧ (UpdateButtons playPress (LoadBinaryFile faithful "EMPTY.BIN" emptyFileSys).lp).play = true
    ∧ (∀ x, NextSamples
        (UpdateButtons playPress (LoadBinaryFile faithful "EMPTY.BIN" emptyFileSys).lp) x
        = none)
    ∧ Reachable (UpdateButtons recordPress (UpdateButtons recordPress (ResetBuffer boot)))
    ∧ Reachable (UpdateButtons playPress (LoadBinaryFile faithful "EMPTY.BIN" emptyFileSys).lp)
    := by
  have hreach1 : Reachable (UpdateButtons recordPress
      (UpdateButtons recordPress (ResetBuffer boot))) :=
    Reachable.buttons _ _ (Reachable.buttons _ _ Reachable.start)
  have hreach2 : Reachable
      (UpdateButtons playPress (LoadBinaryFile faithful "EMPTY.BIN" emptyFileSys).lp) :=
    Reachable.buttons _ _ (Reachable.load faithful "EMPTY.BIN" _ [] _ Reachable.start)
  have hload : (LoadBinaryFile faithful "EMPTY.BIN" emptyFileSys).lp
      = { ResetBuffer (ResetBuffer boot) with first := false, mod := 0, len := 0 } := by
    have h0 : ∀ m b l, loadLoop m [] 0 0 0 b l = (0, b, l) := by
      intro m b l
      rw [loadLoop]
      simp
    have hM : ¬ MAX_SIZE < 0 := not_lt.mpr MAX_SIZE_pos.le
    simp [LoadBinaryFile, emptyFileSys, faithful, h0, hM]
  refine ⟨?_, ?_, ?_, ?_, ?_, ?_, hreach1, hreach2⟩
  · simp [UpdateButtons, recordPress, ResetBuffer, boot]
  · simp [UpdateButtons, recordPress, ResetBuffer, boot]
  · intro x
    simp [NextSamples, UpdateButtons, recordPress, ResetBuffer, boot, MAX_SIZE]
  · rw [hload]
  · rw [hload]; simp [UpdateButtons, playPress, ResetBuffer, boot]
  · intro x
    rw [hload]
    simp [NextSamples, UpdateButtons, playPress, ResetBuffer, boot, MAX_SIZE]

/-! ### Loop engine: one tick -/

/-- A tick of a finalized loop with a non-zero modulus succeeds, keeps the
transport flags and lengths, and moves the head only while playing. -/
theorem NextSamples_looping (s : Looper) (x : ℚ) (hf : s.first = false)
    (hlen : s.len < MAX_SIZE) (hm : s.mod ≠ 0) :
    ∃ s' out, NextSamples s x = some (s', out) ∧ s'.first = false ∧ s'.mod = s.mod
      ∧ s'.len = s.len ∧ s'.play = s.play ∧ s'.rec_ = s.rec_
      ∧ s'.pos = if s.play then Int.tmod (s.pos + 1) s.mod else s.pos := by
  have hl : ¬ MAX_SIZE ≤ s.len := not_le.mpr hlen
  cases hr : s.rec_ <;> cases hp : s.play <;>
    simp [NextSamples, WriteBuffer, hf, hr, hp, hl, hm]

/-- The `n`-tick run splits into `n` ticks followed by one more. -/
theorem ticks_succ (inp : Nat → ℚ) (n : Nat) : ∀ (k : Nat) (s : Looper),
    ticks inp k (n + 1) s
      = (ticks inp k n s).bind (fun s1 => (NextSamples s1 (inp (k + n))).map Prod.fst) := by
  induction n with
  | zero =>
    intro k s
    simp only [ticks]
    cases h : NextSamples s (inp k) <;> simp [h]
  | succ n ih =>
    intro k s
    rw [ticks]
    cases h : NextSamples s (inp k) with
    | none => simp [ticks, h]
    | some r =>
      obtain ⟨s1, o⟩ := r
      simp only
      rw [ih (k + 1) s1]
      conv_rhs => rw [ticks]
      simp only [h]
      have : k + 1 + n = k + (n + 1) := by omega
      rw [this]

/-- While playing a finalized loop of length `L > 0` with the head inside the
loop, `n` ticks succeed and move the head to `(pos + n) mod L`. -/
theorem ticks_looping (inp : Nat → ℚ) (L : Int) (hL : 0 < L) (n : Nat) :
    ∀ (k : Nat) (s : Looper), s.first = false → s.len < MAX_SIZE → s.mod = L → s.play = true →
      0 ≤ s.pos → s.pos < L →
      ∃ s', ticks inp k n s = some s' ∧ s'.first = false ∧ s'.len = s.len ∧ s'.mod = L
        ∧ s'.play = true ∧ s'.pos = (s.pos + n) % L := by
  induction n with
  | zero =>
    intro k s hf hlen hm hp h0 h1
    exact ⟨s, rfl, hf, rfl, hm, hp, by simp [Int.emod_eq_of_lt h0 h1]⟩
  | succ n ih =>
    intro k s hf hlen hm hp h0 h1
    obtain ⟨s1, hs1, hf1, hl1, hm1, hp1, hpos1⟩ := ih k s hf hlen hm hp h0 h1
    have hm1' : s1.mod ≠ 0 := by rw [hm1]; exact ne_of_gt hL
    obtain ⟨s2, o, hs2, hf2, hm2, hl2, hp2, _, hpos2⟩ :=
      NextSamples_looping s1 (inp (k + n)) hf1 (by rw [hl1]; exact hlen) hm1'
    refine ⟨s2, ?_, hf2, by rw [hl2, hl1], by rw [hm2, hm1], by rw [hp2, hp1], ?_⟩
    · rw [ticks_succ, hs1]
      simp [hs2]
    · have hnn : 0 ≤ s1.pos := by rw [hpos1]; exact Int.emod_nonneg _ (ne_of_gt hL)
      rw [hpos2, hp1, hm1]
      simp only [if_true]
      rw [Int.tmod_eq_emod (by omega) hL.le, hpos1, Int.emod_add_cancel_right 1 |>.mpr
        (Int.emod_emod _ _)]
      push_cast
      ring_nf

/-- One tick of a first take that does not yet fill the buffer. -/
theorem NextSamples_first_take (s : Looper) (x : ℚ) (hf : s.first = true) (hr : s.rec_ = true)
    (hp : s.play = true) (hm : s.mod = MAX_SIZE) (hpos : s.pos = s.len) (h0 : 0 ≤ s.len)
    (hlt : s.len + 1 < MAX_SIZE) :
    ∃ s' out, NextSamples s x = some (s', out) ∧ s'.first = true ∧ s'.rec_ = true
      ∧ s'.play = true ∧ s'.mod = MAX_SIZE ∧ s'.pos = s.len + 1 ∧ s'.len = s.len + 1 := by
  have hl : ¬ MAX_SIZE ≤ s.len + 1 := not_le.mpr hlt
  have hM : MAX_SIZE ≠ 0 := ne_of_gt MAX_SIZE_pos
  have ht : Int.tmod (s.len + 1) MAX_SIZE = s.len + 1 := by
    rw [Int.tmod_eq_emod (by omega) MAX_SIZE_pos.le, Int.emod_eq_of_lt (by omega) hlt]
  simp [NextSamples, WriteBuffer, hf, hr, hp, hl, hm, hM, hpos, ht]

/-- The tick of a first take that fills the buffer finalizes the loop. -/
theorem NextSamples_fill (s : Looper) (x : ℚ) (hf : s.first = true) (hr : s.rec_ = true)
    (hp : s.play = true) (hpos : s.pos = s.len) (hfull : s.len + 1 = MAX_SIZE) :
    ∃ s' out, NextSamples s x = some (s', out) ∧ s'.first = false ∧ s'.rec_ = true
      ∧ s'.play = true ∧ s'.mod = MAX_SIZE ∧ s'.pos = 0 ∧ s'.len = 0 := by
  have hM : MAX_SIZE ≠ 0 := ne_of_gt MAX_SIZE_pos
  simp [NextSamples, WriteBuffer, hf, hr, hp, hM, hpos, hfull]

/-- A run of `n` ticks of a first take that stays below the capacity. -/
theorem ticks_first_take (inp : Nat → ℚ) (n : Nat) :
    ∀ (k : Nat) (s : Looper), s.first = true → s.rec_ = true → s.play = true →
      s.mod = MAX_SIZE → s.pos = s.len → 0 ≤ s.len → s.len + n < MAX_SIZE →
      ∃ s', ticks inp k n s = some s' ∧ s'.first = true ∧ s'.rec_ = true ∧ s'.play = true
        ∧ s'.mod = MAX_SIZE ∧ s'.pos = s.len + n ∧ s'.len = s.len + n := by
  induction n with
  | zero =>
    intro k s hf hr hp hm hpos _ _
    exact ⟨s, rfl, hf, hr, hp, hm, by simpa using hpos, by simp⟩
  | succ n ih =>
    intro k s hf hr hp hm hpos h0 hlt
    push_cast at hlt
    obtain ⟨s1, hs1, hf1, hr1, hp1, hm1, hpos1, hl1⟩ :=
      ih k s hf hr hp hm hpos h0 (by omega)
    obtain ⟨s2, o, hs2, hf2, hr2, hp2, hm2, hpos2, hl2⟩ :=
      NextSamples_first_take s1 (inp (k + n)) hf1 hr1 hp1 hm1 (by rw [hpos1, hl1])
        (by omega) (by omega)
    refine ⟨s2, ?_, hf2, hr2, hp2, hm2, ?_, ?_⟩
    · rw [ticks_succ, hs1]
      simp [hs2]
    · rw [hpos2, hl1]; push_cast; ring
    · rw [hl2, hl1]; push_cast; ring

/-- The state right after `ResetBuffer` and one record press. -/
theorem recordPress_after_reset (s0 : Looper) :
    (UpdateButtons recordPress (ResetBuffer s0)).first = true
    ∧ (UpdateButtons recordPress (ResetBuffer s0)).rec_ = true
    ∧ (UpdateButtons recordPress (ResetBuffer s0)).play = true
    ∧ (UpdateButtons recordPress (ResetBuffer s0)).mod = MAX_SIZE
    ∧ (UpdateButtons recordPress (ResetBuffer s0)).pos = 0
    ∧ (UpdateButtons recordPress (ResetBuffer s0)).len = 0 := by
  simp [UpdateButtons, recordPress, ResetBuffer]

/-! ### Properties of the loop engine -/

/-- C2: the head is not below the loop length right after the record button
finalizes a first take. After `ResetBuffer`, a record press, three ticks and a
second record press the loop is finalized with `mod = 3` and the head is at
`pos = 3`, outside `0 .. mod - 1`; the following tick plays cell 3 and moves
the head to 1, so cell 0 is skipped on the first pass. -/
theorem C2_head_at_length_after_finalize :
    ∃ s3, ticks (fun _ => 0) 0 3 (UpdateButtons recordPress (ResetBuffer boot)) = some s3
      ∧ (UpdateButtons recordPress s3).first = false
      ∧ (UpdateButtons recordPress s3).mod = 3
      ∧ (UpdateButtons recordPress s3).pos = 3
      ∧ ¬ ((UpdateButtons recordPress s3).pos < (UpdateButtons recordPress s3).mod)
      ∧ Reachable (UpdateButtons recordPress s3)
      ∧ ∃ s4 out, NextSamples (UpdateButtons recordPress s3) 0 = some (s4, out) ∧ s4.pos = 1 := by
  obtain ⟨hf, hr, hp, hm, hpos, hl⟩ := recordPress_after_reset boot
  obtain ⟨s3, hs3, hf3, hr3, hp3, hm3, hpos3, hl3⟩ :=
    ticks_first_take (fun _ => 0) 3 0 _ hf hr hp hm (by rw [hpos, hl]) (by rw [hl])
      (by rw [hl]; decide)
  rw [hl] at hpos3 hl3
  have hM : ¬ MAX_SIZE ≤ 0 := by decide
  have hreach : Reachable (UpdateButtons recordPress s3) :=
    Reachable.buttons _ _ (ticks_reachable _ 3 0 _ s3
      (Reachable.buttons _ _ Reachable.start) hs3)
  refine ⟨s3, hs3, ?_, ?_, ?_, ?_, hreach, ?_⟩
  · simp [UpdateButtons, recordPress, hf3, hr3]
  · simp [UpdateButtons, recordPress, hf3, hr3, hl3]
  · simp [UpdateButtons, recordPress, hf3, hr3, hpos3]
  · simp [UpdateButtons, recordPress, hf3, hr3, hpos3, hl3]
  · simp [NextSamples, UpdateButtons, recordPress, hf3, hr3, hpos3, hl3, hM]
    decide

/-- C3 (wraparound): in a finalized loop of length `L > 0` (`first == false`,
`mod == L`, provisional length below the capacity, as it is in every finalized
state where it is 0) with the head inside `0 .. L - 1`: a tick with `play` set
succeeds and leaves `pos == (pos + 1) mod L`, which is inside `0 .. L - 1`,
never `L`, and 0 after `pos == L - 1`; `L` consecutive ticks return the head
to where it started; a tick with `play` clear leaves the head in place. -/
theorem C3_wraparound (s : Looper) (L : Int) (hL : 0 < L) (hf : s.first = false)
    (hm : s.mod = L) (hlen : s.len < MAX_SIZE) (h0 : 0 ≤ s.pos) (h1 : s.pos < L) :
    (s.play = true → ∀ x, ∃ s' out, NextSamples s x = some (s', out)
        ∧ s'.pos = (s.pos + 1) % L ∧ 0 ≤ s'.pos ∧ s'.pos < L ∧ s'.pos ≠ L
        ∧ (s.pos = L - 1 → s'.pos = 0) ∧ s'.first = false ∧ s'.mod = L)
    ∧ (s.play = true → ∀ (inp : Nat → ℚ) (k : Nat),
        ∃ s', ticks inp k L.toNat s = some s' ∧ s'.pos = s.pos)
    ∧ (s.play = false → ∀ x, ∃ s' out, NextSamples s x = some (s', out) ∧ s'.pos = s.pos) := by
  have hm0 : s.mod ≠ 0 := by rw [hm]; exact ne_of_gt hL
  refine ⟨?_, ?_, ?_⟩
  · intro hp x
    obtain ⟨s', o, hs, hf', hm', _, _, _, hpos⟩ := NextSamples_looping s x hf hlen hm0
    rw [hp, hm] at hpos
    simp only [if_true] at hpos
    rw [Int.tmod_eq_emod (by omega) hL.le] at hpos
    have hlt : s'.pos < L := by rw [hpos]; exact Int.emod_lt_of_pos _ hL
    refine ⟨s', o, hs, hpos, ?_, hlt, ne_of_lt hlt, ?_, hf', by rw [hm', hm]⟩
    · rw [hpos]; exact Int.emod_nonneg _ (ne_of_gt hL)
    · intro he
      rw [hpos, he]
      simp
  · intro hp inp k
    obtain ⟨s', hs, _, _, _, _, hpos⟩ := ticks_looping inp L hL L.toNat k s hf hlen hm hp h0 h1
    refine ⟨s', hs, ?_⟩
    rw [hpos, Int.toNat_of_nonneg hL.le, Int.add_emod_self, Int.emod_eq_of_lt h0 h1]
  · intro hp x
    obtain ⟨s', o, hs, _, _, _, _, _, hpos⟩ := NextSamples_looping s x hf hlen hm0
    refine ⟨s', o, hs, ?_⟩
    rw [hpos, hp]
    simp

/-- C3 at a paused-then-playing loop of length 4 with the head on the last
cell: the tick wraps the head to 0. -/
theorem C3_wraparound_witness :
    ∃ s' out, NextSamples { boot with first := false, mod := 4, pos := 3, play := true } 0
        = some (s', out)
      ∧ s'.pos = (3 + 1) % 4 ∧ 0 ≤ s'.pos ∧ s'.pos < 4 ∧ s'.pos ≠ 4
      ∧ ((3 : Int) = 4 - 1 → s'.pos = 0) ∧ s'.first = false ∧ s'.mod = 4 :=
  (C3_wraparound { boot with first := false, mod := 4, pos := 3, play := true } 4
    (by decide) rfl rfl (by decide) (by decide) (by decide)).1 rfl 0

/-- The clamp in the words of the specification: `clamp(v, lo, hi)`. -/
theorem clamp1_eq_clampSpec (v : ℚ) : clamp1 v = clampSpec v (-1) 1 := by
  unfold clamp1 clampSpec
  by_cases h : v > 1
  · have h2 : ¬ ((1 : ℚ) < -1) := by norm_num
    simp [h, h2, min_eq_left (le_of_lt h)]
  · have h' : v ≤ 1 := not_lt.mp h
    simp only [h, if_false, min_eq_right h']
    by_cases h3 : v < -1
    · simp [h3, max_eq_left (le_of_lt h3)]
    · simp [h3, max_eq_right (not_lt.mp h3)]

theorem clamp1_bounds (v : ℚ) : -1 ≤ clamp1 v ∧ clamp1 v ≤ 1 := by
  rw [clamp1_eq_clampSpec]
  unfold clampSpec
  exact ⟨le_max_left _ _, max_le (by norm_num) (min_le_left _ _)⟩

/-- Every cell of the C array holds a sample in `[-1, 1]`. -/
theorem WriteBuffer_bounded (s : Looper) (x : ℚ) (h : bounded s.buf) :
    bounded (WriteBuffer s x).buf := by
  intro i hi0 hi1
  by_cases hi : i = s.pos
  · simp only [WriteBuffer, hi, Function.update_same]
    exact clamp1_bounds _
  · simp only [WriteBuffer, Function.update_noteq hi]
    exact h i hi0 hi1

/-- A tick keeps the stored samples in `[-1, 1]`. -/
theorem NextSamples_bounded (s s' : Looper) (x out : ℚ) (h : bounded s.buf)
    (hs : NextSamples s x = some (s', out)) : bounded s'.buf := by
  have hw := WriteBuffer_bounded s x h
  unfold NextSamples at hs
  cases hr : s.rec_ <;> simp only [hr, if_true, if_false, Bool.false_eq_true] at hs <;>
    split at hs <;> split at hs
  all_goals first
    | (split at hs
       · cases hs
       · cases hs; first | exact h | exact hw)
    | (cases hs; first | exact h | exact hw)

/-- From a state whose modulus is the capacity, any number of ticks succeed,
keep that modulus and keep the stored samples in `[-1, 1]`. -/
theorem ticks_bounded (inp : Nat → ℚ) (n : Nat) :
    ∀ (k : Nat) (s : Looper), s.mod = MAX_SIZE → bounded s.buf →
      ∃ s', ticks inp k n s = some s' ∧ s'.mod = MAX_SIZE ∧ bounded s'.buf := by
  have hM : MAX_SIZE ≠ 0 := ne_of_gt MAX_SIZE_pos
  induction n with
  | zero =>
    intro k s hm hb
    exact ⟨s, rfl, hm, hb⟩
  | succ n ih =>
    intro k s hm hb
    obtain ⟨s1, hs1, hm1, hb1⟩ := ih k s hm hb
    have hstep : ∃ s2 o, NextSamples s1 (inp (k + n)) = some (s2, o) ∧ s2.mod = MAX_SIZE := by
      cases hr : s1.rec_ <;> cases hp : s1.play <;>
        by_cases hl : MAX_SIZE ≤ s1.len <;> by_cases hl1 : MAX_SIZE ≤ s1.len + 1 <;>
        by_cases hf : s1.first = true <;>
        simp [NextSamples, WriteBuffer, hr, hp, hl, hl1, hf, hm1, hM]
    obtain ⟨s2, o, hs2, hm2⟩ := hstep
    refine ⟨s2, ?_, hm2, NextSamples_bounded s1 s2 _ o hb1 hs2⟩
    rw [ticks_succ, hs1]
    simp [hs2]

/-- C4 (overdub clamp): `WriteBuffer` keeps every stored sample in `[-1, 1]`
when they were so before, stores `clamp(old + input, -1, 1)` in the cell under
the head and changes no other cell; hence from `ResetBuffer` and a record
press every run of ticks succeeds and leaves every stored sample in
`[-1, 1]`. -/
theorem C4_overdub_clamp (s : Looper) (x : ℚ) :
    (bounded s.buf → bounded (WriteBuffer s x).buf)
    ∧ (WriteBuffer s x).buf s.pos = clampSpec (s.buf s.pos + x) (-1) 1
    ∧ (-1 ≤ (WriteBuffer s x).buf s.pos ∧ (WriteBuffer s x).buf s.pos ≤ 1)
    ∧ (∀ i, i ≠ s.pos → (WriteBuffer s x).buf i = s.buf i)
    ∧ bounded (ResetBuffer s).buf
    ∧ (∀ (inp : Nat → ℚ) (n : Nat),
        ∃ s', ticks inp 0 n (UpdateButtons recordPress (ResetBuffer s)) = some s'
          ∧ bounded s'.buf) := by
  have hwr : (WriteBuffer s x).buf s.pos = clamp1 (s.buf s.pos + x) := by
    simp [WriteBuffer]
  have hreset : bounded (ResetBuffer s).buf := by
    intro i hi0 hi1
    simp [ResetBuffer, hi0, hi1]
  refine ⟨WriteBuffer_bounded s x, ?_, ?_, ?_, hreset, ?_⟩
  · rw [hwr, clamp1_eq_clampSpec]
  · rw [hwr]; exact clamp1_bounds _
  · intro i hi
    simp [WriteBuffer, Function.update_noteq hi]
  · intro inp n
    have hb : bounded (UpdateButtons recordPress (ResetBuffer s)).buf := by
      have : (UpdateButtons recordPress (ResetBuffer s)).buf = (ResetBuffer s).buf := by
        simp [UpdateButtons, recordPress, ResetBuffer]
      rw [this]; exact hreset
    obtain ⟨s', hs', _, hb'⟩ :=
      ticks_bounded inp n 0 _ (recordPress_after_reset s).2.2.2.1 hb
    exact ⟨s', hs', hb'⟩

/-- C4 at the boot state: a buffer of zeros stays in `[-1, 1]` under an
overdub write of 5/2. -/
theorem C4_overdub_clamp_witness : bounded (WriteBuffer boot (5 / 2)).buf :=
  (C4_overdub_clamp boot (5 / 2)).1 (by intro i _ _; simp [boot])

/-- C5 (capacity-exhaustion finalize): from `ResetBuffer`, one record press
and then ticks with no other control event: after any number `n < MAX_SIZE`
of ticks the engine is still capturing (`first == true`) with `len == pos ==
n`; after `MAX_SIZE` ticks it is looping (`first == false`) with `mod ==
MAX_SIZE`, `len == 0` and the head back at 0. -/
theorem C5_capacity_finalize (s0 : Looper) (inp : Nat → ℚ) :
    (∀ n : Nat, (n : Int) < MAX_SIZE →
        ∃ s', ticks inp 0 n (UpdateButtons recordPress (ResetBuffer s0)) = some s'
          ∧ s'.first = true ∧ s'.len = n ∧ s'.pos = n)
    ∧ (∃ s', ticks inp 0 MAX_SIZE.toNat (UpdateButtons recordPress (ResetBuffer s0)) = some s'
          ∧ s'.first = false ∧ s'.mod = MAX_SIZE ∧ s'.len = 0 ∧ s'.pos = 0
          ∧ s'.play = true ∧ s'.rec_ = true) := by
  obtain ⟨hf, hr, hp, hm, hpos, hl⟩ := recordPress_after_reset s0
  have hrun : ∀ n : Nat, (n : Int) < MAX_SIZE →
      ∃ s', ticks inp 0 n (UpdateButtons recordPress (ResetBuffer s0)) = some s'
        ∧ s'.first = true ∧ s'.rec_ = true ∧ s'.play = true ∧ s'.pos = n ∧ s'.len = n := by
    intro n hn
    obtain ⟨s', hs', hf', hr', hp', _, hpos', hl'⟩ :=
      ticks_first_take inp n 0 _ hf hr hp hm (by rw [hpos, hl]) (by rw [hl])
        (by rw [hl]; omega)
    rw [hl] at hpos' hl'
    exact ⟨s', hs', hf', hr', hp', by simpa using hpos', by simpa using hl'⟩
  refine ⟨?_, ?_⟩
  · intro n hn
    obtain ⟨s', hs', hf', _, _, hpos', hl'⟩ := hrun n hn
    exact ⟨s', hs', hf', hl', hpos'⟩
  · have hN : MAX_SIZE.toNat = (MAX_SIZE.toNat - 1) + 1 := by decide
    have hlast : ((MAX_SIZE.toNat - 1 : Nat) : Int) + 1 = MAX_SIZE := by decide
    obtain ⟨s1, hs1, hf1, hr1, hp1, hpos1, hl1⟩ := hrun (MAX_SIZE.toNat - 1) (by omega)
    obtain ⟨s2, o, hs2, hf2, hr2, hp2, hm2, hpos2, hl2⟩ :=
      NextSamples_fill s1 (inp (0 + (MAX_SIZE.toNat - 1))) hf1 hr1 hp1 (by rw [hpos1, hl1])
        (by rw [hl1]; exact hlast)
    refine ⟨s2, ?_, hf2, hm2, hl2, hpos2, hp2, hr2⟩
    rw [hN, ticks_succ, hs1]
    simp only [Option.some_bind, hs2, Option.map_some']

/-- C5 after five ticks of a first take from the boot state: still capturing. -/
theorem C5_capacity_finalize_witness :
    ∃ s', ticks (fun _ => 0) 0 5 (UpdateButtons recordPress (ResetBuffer boot)) = some s'
      ∧ s'.first = true ∧ s'.len = (5 : Nat) ∧ s'.pos = (5 : Nat) :=
  (C5_capacity_finalize boot (fun _ => 0)).1 5 (by decide)

/-! ### Raw codec: quantizer and byte image -/

theorem f2i_nonneg (q : ℚ) (h : 0 ≤ q) : 0 ≤ f2i q ∧ (f2i q : ℚ) ≤ q ∧ q < f2i q + 1 := by
  unfold f2i
  rw [if_pos h]
  exact ⟨Int.floor_nonneg.mpr h, Int.floor_le q, Int.lt_floor_add_one q⟩

theorem f2i_neg (q : ℚ) (h : q < 0) : f2i q ≤ 0 ∧ q ≤ (f2i q : ℚ) ∧ (f2i q : ℚ) < q + 1 := by
  unfold f2i
  rw [if_neg (not_le.mpr h)]
  refine ⟨?_, Int.le_ceil q, Int.ceil_lt_add_one q⟩
  exact Int.ceil_le.mpr (by simpa using h.le)

/-- The C cast is odd: truncation toward zero commutes with negation. -/
theorem f2i_neg_eq (q : ℚ) : f2i (-q) = - f2i q := by
  unfold f2i
  rcases lt_trichotomy q 0 with h | h | h
  · rw [if_pos (by linarith), if_neg (not_le.mpr h), Int.floor_neg]
  · subst h; simp
  · rw [if_neg (by linarith), if_pos h.le, Int.ceil_neg]

/-- The C cast moves its argument by less than one, toward zero. -/
theorem f2i_abs (q : ℚ) : |q - f2i q| < 1 ∧ |(f2i q : ℚ)| ≤ |q| := by
  rcases lt_or_le q 0 with h | h
  · obtain ⟨h1, h2, h3⟩ := f2i_neg q h
    have h1' : (f2i q : ℚ) ≤ 0 := by exact_mod_cast h1
    constructor
    · rw [abs_lt]; constructor <;> linarith
    · rw [abs_of_nonpos h1', abs_of_neg h]; linarith
  · obtain ⟨h1, h2, h3⟩ := f2i_nonneg q h
    have h1' : (0 : ℚ) ≤ f2i q := by exact_mod_cast h1
    constructor
    · rw [abs_lt]; constructor <;> linarith
    · rw [abs_of_nonneg h1', abs_of_nonneg h]; exact h2

/-- The rounded value is one of the two integers next to the argument. -/
theorem roundEven_between (x : ℚ) : ⌊x⌋ ≤ roundEven x ∧ roundEven x ≤ ⌈x⌉ := by
  have hfc : ⌊x⌋ ≤ ⌈x⌉ := Int.floor_le_ceil x
  unfold roundEven
  by_cases h1 : x - ⌊x⌋ < 1 / 2
  · rw [if_pos h1]; exact ⟨le_refl _, hfc⟩
  · have hlt : (⌊x⌋ : ℚ) < x := by linarith
    have hc : ⌊x⌋ + 1 ≤ ⌈x⌉ := Int.add_one_le_iff.mpr (Int.lt_ceil.mpr hlt)
    rw [if_neg h1]
    split_ifs <;> constructor <;> omega

/-- Rounding moves the argument by at most one half. -/
theorem roundEven_error (x : ℚ) : |(roundEven x : ℚ) - x| ≤ 1 / 2 := by
  have h0 := Int.floor_le x
  have h1 := Int.lt_floor_add_one x
  unfold roundEven
  rw [abs_le]
  split_ifs with a b c <;> push_cast <;> constructor <;> linarith

theorem roundEven_of_lt (x : ℚ) (n : Int) (h1 : (n : ℚ) ≤ x) (h2 : x - n < 1 / 2) :
    roundEven x = n := by
  have hf : ⌊x⌋ = n := by
    rw [Int.floor_eq_iff]
    constructor <;> linarith
  unfold roundEven
  rw [hf, if_pos h2]

theorem roundEven_of_gt (x : ℚ) (n : Int) (h1 : x < n) (h2 : (n : ℚ) - x < 1 / 2) :
    roundEven x = n := by
  have hf : ⌊x⌋ = n - 1 := by
    rw [Int.floor_eq_iff]
    push_cast
    constructor <;> linarith
  unfold roundEven
  rw [hf]
  push_cast
  rw [if_neg (by linarith), if_pos (by linarith)]
  ring

/-- Rounding with ties to even is odd. -/
theorem roundEven_neg (x : ℚ) : roundEven (-x) = - roundEven x := by
  have h0 := Int.floor_le x
  have h1 := Int.lt_floor_add_one x
  by_cases hint : (⌊x⌋ : ℚ) = x
  · have e : roundEven x = ⌊x⌋ := roundEven_of_lt x _ h0 (by linarith)
    have e2 : roundEven (-x) = -⌊x⌋ := roundEven_of_lt (-x) _ (by push_cast; linarith)
      (by push_cast; linarith)
    rw [e, e2]
  · have hlt : (⌊x⌋ : ℚ) < x := lt_of_le_of_ne h0 hint
    have hf : ⌊-x⌋ = -⌊x⌋ - 1 := by
      rw [Int.floor_eq_iff]
      push_cast
      constructor <;> linarith
    unfold roundEven
    rw [hf]
    push_cast
    by_cases a : x - ⌊x⌋ < 1 / 2
    · rw [if_pos a, if_neg (by linarith), if_pos (by linarith)]
      ring
    · by_cases b : x - ⌊x⌋ > 1 / 2
      · rw [if_neg a, if_pos b, if_pos (by linarith)]
        ring
      · rw [if_neg a, if_neg b, if_neg (by linarith), if_neg (by linarith)]
        by_cases c : ⌊x⌋ % 2 = 0
        · rw [if_pos c, if_neg (by omega)]
          ring
        · rw [if_neg c, if_pos (by omega)]
          ring

theorem fexp_neg (q : ℚ) : fexp (-q) = fexp q := by
  unfold fexp
  rw [abs_neg]

theorem fexp_le (q : ℚ) (e : Int) (he : 0 ≤ e) (h : |q| < (2 : ℚ) ^ (e + 1)) : fexp q ≤ e := by
  unfold fexp
  by_cases h0 : q = 0
  · subst h0
    simp [Int.log_zero_right]
    omega
  · have hpos : 0 < |q| := abs_pos.mpr h0
    have := (Int.lt_zpow_iff_log_lt (by norm_num : 1 < 2) hpos).mp (by exact_mod_cast h)
    omega

/-- The exponent of a value inside a normal binade. -/
theorem fexp_eq (q : ℚ) (e : Int) (he : -126 ≤ e) (h1 : (2 : ℚ) ^ e ≤ |q|)
    (h2 : |q| < (2 : ℚ) ^ (e + 1)) : fexp q = e := by
  have hpos : 0 < |q| := lt_of_lt_of_le (by positivity) h1
  have a := (Int.zpow_le_iff_le_log (by norm_num : 1 < 2) hpos).mp (by exact_mod_cast h1)
  have b := (Int.lt_zpow_iff_log_lt (by norm_num : 1 < 2) hpos).mp (by exact_mod_cast h2)
  unfold fexp
  omega

/-- The float rounding is odd. -/
theorem fl32_neg (q : ℚ) : fl32 (-q) = - fl32 q := by
  unfold fl32
  rw [fexp_neg, neg_div, roundEven_neg]
  push_cast
  ring

/-- The float rounding moves a value by at most half the spacing of its
binade. -/
theorem fl32_error (q : ℚ) : |fl32 q - q| ≤ 2 ^ (fexp q - 24) := by
  have hu : (0 : ℚ) < 2 ^ (fexp q - 23) := by positivity
  have h := roundEven_error (q / 2 ^ (fexp q - 23))
  unfold fl32
  have e : (roundEven (q / 2 ^ (fexp q - 23)) : ℚ) * 2 ^ (fexp q - 23) - q
      = ((roundEven (q / 2 ^ (fexp q - 23)) : ℚ) - q / 2 ^ (fexp q - 23)) * 2 ^ (fexp q - 23) := by
    field_simp
  rw [e, abs_mul, abs_of_pos hu]
  have e2 : (2 : ℚ) ^ (fexp q - 24) = 1 / 2 * 2 ^ (fexp q - 23) := by
    rw [show fexp q - 23 = (fexp q - 24) + 1 by ring, zpow_add₀ (by norm_num), zpow_one]
    ring
  rw [e2]
  exact mul_le_mul_of_nonneg_right h hu.le

/-- Below `2^24` the spacing of the floats divides 1, so the float rounding
of a value stays between the two integers next to it. -/
theorem fl32_between (q : ℚ) (h : fexp q ≤ 23) : (⌊q⌋ : ℚ) ≤ fl32 q ∧ fl32 q ≤ (⌈q⌉ : ℚ) := by
  obtain ⟨k, hk⟩ : ∃ k : Nat, fexp q - 23 = -(k : Int) := ⟨(23 - fexp q).toNat, by omega⟩
  have hu : (2 : ℚ) ^ (fexp q - 23) = 1 / 2 ^ k := by
    rw [hk, zpow_neg, zpow_natCast, one_div]
  have hpos : (0 : ℚ) < 2 ^ k := by positivity
  obtain ⟨r0, r1⟩ := roundEven_between (q / 2 ^ (fexp q - 23))
  unfold fl32
  rw [hu] at r0 r1 ⊢
  have hx : q / (1 / 2 ^ k) = q * 2 ^ k := by field_simp
  rw [hx] at r0 r1 ⊢
  have a : ⌊q⌋ * 2 ^ k ≤ ⌊q * 2 ^ k⌋ := by
    rw [Int.le_floor]
    push_cast
    exact mul_le_mul_of_nonneg_right (Int.floor_le q) hpos.le
  have b : ⌈q * 2 ^ k⌉ ≤ ⌈q⌉ * 2 ^ k := by
    rw [Int.ceil_le]
    push_cast
    exact mul_le_mul_of_nonneg_right (Int.le_ceil q) hpos.le
  have a' : ((⌊q⌋ * 2 ^ k : Int) : ℚ) ≤ (roundEven (q * 2 ^ k) : ℚ) := by
    exact_mod_cast le_trans a r0
  have b' : (roundEven (q * 2 ^ k) : ℚ) ≤ ((⌈q⌉ * 2 ^ k : Int) : ℚ) := by
    exact_mod_cast le_trans r1 b
  push_cast at a' b'
  constructor
  · rw [mul_one_div, le_div_iff₀ hpos]
    exact a'
  · rw [mul_one_div, div_le_iff₀ hpos]
    exact b'

/-- For a magnitude below `2^24` the cast of the rounded value is one of the
two integers next to the exact value. -/
theorem f2i_fl32_between (q : ℚ) (h : |q| < 2 ^ 24) :
    ⌊q⌋ ≤ f2i (fl32 q) ∧ f2i (fl32 q) ≤ ⌈q⌉ := by
  obtain ⟨a, b⟩ := fl32_between q (fexp_le q 23 (by norm_num) (by norm_num; exact h))
  have hfc : ⌊q⌋ ≤ ⌈q⌉ := Int.floor_le_ceil q
  unfold f2i
  split
  · exact ⟨Int.le_floor.mpr a, le_trans (Int.floor_le_ceil _) (Int.ceil_le.mpr b)⟩
  · exact ⟨le_trans (Int.le_floor.mpr a) (Int.floor_le_ceil _), Int.ceil_le.mpr b⟩

theorem f2i_fl32_error (q : ℚ) (h : |q| < 2 ^ 24) : |q - f2i (fl32 q)| < 1 := by
  obtain ⟨a, b⟩ := f2i_fl32_between q h
  have a' : ((⌊q⌋ : Int) : ℚ) ≤ (f2i (fl32 q) : ℚ) := by exact_mod_cast a
  have b' : (f2i (fl32 q) : ℚ) ≤ ((⌈q⌉ : Int) : ℚ) := by exact_mod_cast b
  have h0 := Int.lt_floor_add_one q
  have h1 := Int.ceil_lt_add_one q
  rw [abs_lt]
  constructor <;> linarith

/-- The float rounding of a value whose binade and rounded significand are
known. -/
theorem fl32_eval (q : ℚ) (e n : Int) (he : -126 ≤ e) (h1 : (2 : ℚ) ^ e ≤ |q|)
    (h2 : |q| < (2 : ℚ) ^ (e + 1)) (hn : roundEven (q / 2 ^ (e - 23)) = n) :
    fl32 q = n * 2 ^ (e - 23) := by
  unfold fl32
  rw [fexp_eq q e he h1 h2, hn]

/-- The scaled clamped sample is at most 32767 in magnitude. -/
theorem scaled_abs (s : ℚ) : |clamp1 s * 32767| ≤ 32767 := by
  obtain ⟨hlo, hhi⟩ := clamp1_bounds s
  rw [abs_le]
  constructor <;> linarith

theorem clamp1_neg (s : ℚ) : clamp1 (-s) = - clamp1 s := by
  unfold clamp1
  simp only []
  split_ifs <;> linarith

theorem clamp1_of_bounded (s : ℚ) (h0 : -1 ≤ s) (h1 : s ≤ 1) : clamp1 s = s := by
  unfold clamp1
  rw [if_neg (not_lt.mpr h1)]
  exact if_neg (not_lt.mpr h0)

/-- The quantized value fits 16 bits with room to spare. -/
theorem quantize_range (s : ℚ) : -32767 ≤ quantize s ∧ quantize s ≤ 32767 := by
  unfold quantize
  obtain ⟨hlo, hhi⟩ := clamp1_bounds s
  obtain ⟨a, b⟩ := f2i_fl32_between (clamp1 s * 32767)
    (lt_of_le_of_lt (scaled_abs s) (by norm_num))
  have h0 : (-32767 : Int) ≤ ⌊clamp1 s * 32767⌋ := by
    rw [Int.le_floor]; push_cast; linarith
  have h1 : ⌈clamp1 s * 32767⌉ ≤ (32767 : Int) := by
    rw [Int.ceil_le]; push_cast; linarith
  omega

/-- Decoding the two bytes of a 16-bit value gives the value back. -/
theorem decode16_encode16 (v : Int) (h0 : -32768 ≤ v) (h1 : v ≤ 32767) :
    decode16 (v % 256).toNat ((v / 256) % 256).toNat = v := by
  unfold decode16
  have ha : ((v % 256).toNat : Int) = v % 256 :=
    Int.toNat_of_nonneg (Int.emod_nonneg _ (by decide))
  have hb : (((v / 256) % 256).toNat : Int) = (v / 256) % 256 :=
    Int.toNat_of_nonneg (Int.emod_nonneg _ (by decide))
  simp only [ha, hb]
  split <;> omega

theorem encodeChunk_length (bb : Nat → Int) (n : Nat) : (encodeChunk bb n).length = 2 * n := by
  induction n with
  | zero => rfl
  | succ n ih => simp [encodeChunk, encode16, ih]; omega

/-- Sample `j` of the byte image of a chunk appended to `2 * c` earlier bytes
is sample `c + j` of the whole. -/
theorem sampleAt_append_encodeChunk (content : List Nat) (c : Nat) (hc : content.length = 2 * c)
    (bb : Nat → Int) (hbb : ∀ j, -32768 ≤ bb j ∧ bb j ≤ 32767) (n : Nat) :
    (∀ k, k < c → sampleAt (content ++ encodeChunk bb n) k = sampleAt content k)
    ∧ (∀ j, j < n → sampleAt (content ++ encodeChunk bb n) (c + j) = bb j) := by
  constructor
  · intro k hk
    unfold sampleAt
    rw [List.getD_append _ _ _ _ (by omega), List.getD_append _ _ _ _ (by omega)]
  · induction n with
    | zero => intro j hj; omega
    | succ n ih =>
      intro j hj
      have hlen : (content ++ encodeChunk bb n).length = 2 * (c + n) := by
        simp [encodeChunk_length, hc]; omega
      by_cases hjn : j < n
      · have := ih j hjn
        unfold sampleAt at this ⊢
        simp only [encodeChunk]
        rw [← List.append_assoc,
          List.getD_append (content ++ encodeChunk bb n) _ _ (2 * (c + j)) (by rw [hlen]; omega),
          List.getD_append (content ++ encodeChunk bb n) _ _ (2 * (c + j) + 1)
            (by rw [hlen]; omega)]
        exact this
      · have hj' : j = n := by omega
        subst hj'
        unfold sampleAt
        simp only [encodeChunk]
        rw [← List.append_assoc,
          List.getD_append_right (content ++ encodeChunk bb j) _ _ (2 * (c + j)) (by rw [hlen]),
          List.getD_append_right (content ++ encodeChunk bb j) _ _ (2 * (c + j) + 1)
            (by rw [hlen]; omega), hlen]
        have e1 : 2 * (c + j) - 2 * (c + j) = 0 := by omega
        have e2 : 2 * (c + j) + 1 - 2 * (c + j) = 1 := by omega
        rw [e1, e2]
        simp only [encode16, List.getD_cons_zero, List.getD_cons_succ]
        exact decode16_encode16 _ (hbb j).1 (hbb j).2

/-- C7 fails as stated: the sample 2/3 scales to 21844.67, whose nearest
integer is 21845, but `SaveBufferToBinary` writes 21844; and the sample 1/2,
which is a float, scales to 16383.5 exactly, which the specification's `round`
takes to 16384, but `SaveBufferToBinary` writes 16383. -/
theorem C7_not_round_to_nearest :
    quantize (2 / 3) = 21844 ∧ quantizeSpec (2 / 3) = 21845
      ∧ quantize (2 / 3) ≠ quantizeSpec (2 / 3)
      ∧ quantize (1 / 2) = 16383 ∧ quantizeSpec (1 / 2) = 16384 := by
  have h1 : quantize (2 / 3) = 21844 := by
    have hc : clamp1 (2 / 3) = 2 / 3 := clamp1_of_bounded _ (by norm_num) (by norm_num)
    have habs : |(2 / 3 : ℚ) * 32767| = 2 / 3 * 32767 := abs_of_pos (by norm_num)
    have hf : fl32 ((2 / 3 : ℚ) * 32767) = (11184469 : Int) * 2 ^ ((14 : Int) - 23) :=
      fl32_eval _ 14 11184469 (by norm_num) (by rw [habs]; norm_num) (by rw [habs]; norm_num)
        (roundEven_of_lt _ _ (by norm_num) (by norm_num))
    unfold quantize f2i
    rw [hc, hf, if_pos (by norm_num), Int.floor_eq_iff]
    constructor <;> norm_num
  have h2 : quantizeSpec (2 / 3) = 21845 := by
    have hc : clampSpec (2 / 3) (-1) 1 = 2 / 3 := by
      rw [← clamp1_eq_clampSpec]
      exact clamp1_of_bounded _ (by norm_num) (by norm_num)
    unfold quantizeSpec roundNearest
    rw [hc, if_pos (by norm_num), Int.floor_eq_iff]
    constructor <;> norm_num
  have h3 : quantize (1 / 2) = 16383 := by
    have hc : clamp1 (1 / 2) = 1 / 2 := clamp1_of_bounded _ (by norm_num) (by norm_num)
    have habs : |(1 / 2 : ℚ) * 32767| = 1 / 2 * 32767 := abs_of_pos (by norm_num)
    have hf : fl32 ((1 / 2 : ℚ) * 32767) = (16776704 : Int) * 2 ^ ((13 : Int) - 23) :=
      fl32_eval _ 13 16776704 (by norm_num) (by rw [habs]; norm_num) (by rw [habs]; norm_num)
        (roundEven_of_lt _ _ (by norm_num) (by norm_num))
    unfold quantize f2i
    rw [hc, hf, if_pos (by norm_num), Int.floor_eq_iff]
    constructor <;> norm_num
  have h4 : quantizeSpec (1 / 2) = 16384 := by
    have hc : clampSpec (1 / 2) (-1) 1 = 1 / 2 := by
      rw [← clamp1_eq_clampSpec]
      exact clamp1_of_bounded _ (by norm_num) (by norm_num)
    unfold quantizeSpec roundNearest
    rw [hc, if_pos (by norm_num), Int.floor_eq_iff]
    constructor <;> norm_num
  refine ⟨h1, h2, ?_, h3, h4⟩
  rw [h1, h2]
  decide

/-- C7 as amended: the 16-bit value written by `SaveBufferToBinary` is the
float product `clamp(s, -1, 1) * 32767.0f`, which is the exact product rounded
to the nearest float and lies within 1/1024 of it, truncated toward zero by
the cast (the floor of a non-negative product, the ceiling of a negative one).
The value is one of the two integers next to the exact scaled sample, so it
is within less than 1 of it (not always the nearest integer), it is not larger
in magnitude than the float product, the quantizer is symmetric about zero,
and the value lies in `[-32767, 32767]`. It can be larger in magnitude than
the exact scaled sample: for `s = 32769 / 2^30`, the float that an import
stores for the 16-bit value 1, the exact product is below 1 and the value
written is 1. -/
theorem C7_quantize_truncates (s : ℚ) :
    quantize s = (if 0 ≤ fl32 (clampSpec s (-1) 1 * 32767)
        then ⌊fl32 (clampSpec s (-1) 1 * 32767)⌋ else ⌈fl32 (clampSpec s (-1) 1 * 32767)⌉)
    ∧ |fl32 (clampSpec s (-1) 1 * 32767) - clampSpec s (-1) 1 * 32767| ≤ 1 / 1024
    ∧ (⌊clampSpec s (-1) 1 * 32767⌋ ≤ quantize s ∧ quantize s ≤ ⌈clampSpec s (-1) 1 * 32767⌉)
    ∧ |clampSpec s (-1) 1 * 32767 - quantize s| < 1
    ∧ |(quantize s : ℚ)| ≤ |fl32 (clampSpec s (-1) 1 * 32767)|
    ∧ quantize (-s) = - quantize s
    ∧ (-32767 ≤ quantize s ∧ quantize s ≤ 32767)
    ∧ (quantize (32769 / 2 ^ 30) = 1 ∧ ⌊(32769 / 2 ^ 30 : ℚ) * 32767⌋ = 0) := by
  have hlt : |clamp1 s * 32767| < 2 ^ 24 := lt_of_le_of_lt (scaled_abs s) (by norm_num)
  rw [← clamp1_eq_clampSpec]
  refine ⟨rfl, ?_, f2i_fl32_between _ hlt, f2i_fl32_error _ hlt, (f2i_abs _).2, ?_,
    quantize_range s, ?_, ?_⟩
  · have he : fexp (clamp1 s * 32767) ≤ 14 :=
      fexp_le _ 14 (by norm_num) (lt_of_le_of_lt (scaled_abs s) (by norm_num))
    refine le_trans (fl32_error _) ?_
    have hm : (2 : ℚ) ^ (fexp (clamp1 s * 32767) - 24) ≤ 2 ^ ((14 : Int) - 24) :=
      zpow_le_zpow_right₀ (by norm_num) (by omega)
    refine le_trans hm ?_
    norm_num
  · unfold quantize
    rw [clamp1_neg, neg_mul, fl32_neg, f2i_neg_eq]
  · have hc : clamp1 (32769 / 2 ^ 30) = 32769 / 2 ^ 30 :=
      clamp1_of_bounded _ (by norm_num) (by norm_num)
    have habs : |(32769 / 2 ^ 30 : ℚ) * 32767| = 32769 / 2 ^ 30 * 32767 :=
      abs_of_pos (by norm_num)
    have hf : fl32 ((32769 / 2 ^ 30 : ℚ) * 32767) = (16777216 : Int) * 2 ^ ((-1 : Int) - 23) :=
      fl32_eval _ (-1) 16777216 (by norm_num) (by rw [habs]; norm_num) (by rw [habs]; norm_num)
        (roundEven_of_gt _ _ (by norm_num) (by norm_num))
    unfold quantize f2i
    rw [hc, hf, if_pos (by norm_num), Int.floor_eq_iff]
    constructor <;> norm_num
  · rw [Int.floor_eq_iff]
    constructor <;> norm_num

/-! ### Raw export -/

/-- On a medium whose writes succeed, the chunk loop of `SaveBufferToBinary`
completes and leaves in the file the quantized samples `0 .. mod - 1`, two
bytes each. -/
theorem saveBinLoop_faithful (m : Medium) (hw : ∀ i, m.write_ok i = true) (buf : Int → ℚ)
    (mod : Int) : ∀ (d : Nat) (i : Int) (content : List Nat) (log : List Ev),
      (mod - i).toNat = d → 0 ≤ i → i ≤ mod → content.length = 2 * i.toNat →
      (∀ k : Nat, k < i.toNat → sampleAt content k = quantize (buf k)) →
      (saveBinLoop m buf mod i content log).1 = true
      ∧ (saveBinLoop m buf mod i content log).2.1.length = 2 * mod.toNat
      ∧ (∀ k : Nat, k < mod.toNat →
          sampleAt (saveBinLoop m buf mod i content log).2.1 k = quantize (buf k)) := by
  intro d
  induction d using Nat.strong_induction_on with
  | _ d ih =>
    intro i content log hd hi0 hi1 hlen hs
    rw [saveBinLoop]
    by_cases hlt : i < mod
    · simp only [hlt, if_true, hw]
      have hbb : ∀ j : Nat, -32768 ≤ quantize (buf (i + j)) ∧ quantize (buf (i + j)) ≤ 32767 := by
        intro j
        have := quantize_range (buf (i + j))
        omega
      by_cases hch : i + 1024 ≤ mod
      · simp only [hch, if_true]
        obtain ⟨hold, hnew⟩ := sampleAt_append_encodeChunk content i.toNat hlen
          (fun j => quantize (buf (i + j))) hbb (1024 : Int).toNat
        have h1024 : (1024 : Int).toNat = 1024 := rfl
        rw [h1024] at hold hnew ⊢
        refine ih (mod - (i + 1024)).toNat (by omega) (i + 1024) _ _ rfl (by omega) hch ?_ ?_
        · rw [List.length_append, encodeChunk_length, hlen]; omega
        · intro k hk
          by_cases hk' : k < i.toNat
          · rw [hold k hk']; exact hs k hk'
          · have hkj : k = i.toNat + (k - i.toNat) := by omega
            rw [hkj, hnew _ (by omega)]
            congr 2
            push_cast
            omega
      · simp only [hch, if_false]
        have hn : ((mod - i).toNat : Int) = mod - i := Int.toNat_of_nonneg (by omega)
        obtain ⟨hold, hnew⟩ := sampleAt_append_encodeChunk content i.toNat hlen
          (fun j => quantize (buf (i + j))) hbb (mod - i).toNat
        rw [saveBinLoop]
        have hge : ¬ (i + 1024 < mod) := by omega
        simp only [hge, if_false]
        refine ⟨trivial, ?_, ?_⟩
        · rw [List.length_append, encodeChunk_length, hlen]; omega
        · intro k hk
          by_cases hk' : k < i.toNat
          · rw [hold k hk']; exact hs k hk'
          · have hkj : k = i.toNat + (k - i.toNat) := by omega
            rw [hkj, hnew _ (by omega)]
            congr 2
            push_cast
            omega
    · have him : i = mod := by omega
      simp only [hlt, if_false]
      refine ⟨trivial, by rw [hlen, him], ?_⟩
      intro k hk
      exact hs k (by rw [him]; exact hk)

/-! ### Raw import -/

theorem getD_take_drop (data : List Nat) (f n k : Nat) (hk : k < n) :
    ((data.drop f).take n).getD k 0 = data.getD (f + k) 0 := by
  simp only [List.getD_eq_getElem?_getD, List.getElem?_take, hk, if_true, List.getElem?_drop]

/-- Sample `i` of a chunk of `r` samples read at byte offset `2 * c` is sample
`c + i` of the file. -/
theorem sampleAt_take_drop (data : List Nat) (c r i : Nat) (hi : i < r) :
    sampleAt ((data.drop (2 * c)).take (2 * r)) i = sampleAt data (c + i) := by
  unfold sampleAt
  rw [getD_take_drop _ _ _ _ (by omega), getD_take_drop _ _ _ _ (by omega)]
  have e1 : 2 * c + 2 * i = 2 * (c + i) := by omega
  have e2 : 2 * c + (2 * i + 1) = 2 * (c + i) + 1 := by omega
  rw [e1, e2]

/-- The copy loop stores the chunk into the cells `total_read ..
total_read + got - 1` that lie below `MAX_SIZE`, and nothing else. -/
theorem storeChunk_apply (rb : Nat → Int) (t : Int) (got : Nat) (buf : Int → ℚ) (j : Int) :
    storeChunk rb t got buf j
      = if t ≤ j ∧ j < t + got ∧ j < MAX_SIZE then (rb (j - t).toNat : ℚ) / 32767 else buf j := by
  induction got with
  | zero =>
    have : ¬ (t ≤ j ∧ j < t + ((0 : Nat) : Int) ∧ j < MAX_SIZE) := by
      intro h; have := h.1; have := h.2.1; omega
    rw [if_neg this]; rfl
  | succ got ih =>
    simp only [storeChunk]
    by_cases hlt : t + got < MAX_SIZE
    · simp only [hlt, if_true]
      by_cases hj : j = t + got
      · subst hj
        rw [Function.update_same]
        have : t ≤ t + (got : Int) ∧ t + (got : Int) < t + ((got + 1 : Nat) : Int)
            ∧ t + (got : Int) < MAX_SIZE := ⟨by omega, by push_cast; omega, hlt⟩
        rw [if_pos this]
        have e : (t + (got : Int) - t).toNat = got := by simp
        rw [e]
      · rw [Function.update_noteq hj, ih]
        by_cases hc : t ≤ j ∧ j < t + got ∧ j < MAX_SIZE
        · rw [if_pos hc, if_pos ⟨hc.1, by push_cast; omega, hc.2.2⟩]
        · rw [if_neg hc, if_neg]
          intro h
          apply hc
          refine ⟨h.1, ?_, h.2.2⟩
          have := h.2.1
          push_cast at this
          omega
    · simp only [hlt, if_false]
      rw [ih]
      by_cases hc : t ≤ j ∧ j < t + got ∧ j < MAX_SIZE
      · rw [if_pos hc, if_pos ⟨hc.1, by push_cast; omega, hc.2.2⟩]
      · rw [if_neg hc, if_neg]
        intro h
        apply hc
        refine ⟨h.1, ?_, h.2.2⟩
        have := h.2.1
        have := h.2.2
        push_cast at *
        omega

/-- The read loop of `LoadBinaryFile`, started with `t` samples read and the
file pointer at byte `2 * t`: it stops with a total `T` between `t` and
`sample_count`; `T` is `sample_count` unless the read issued at `T` failed or
delivered nothing; every chunk read before `T` succeeded; the cells `t .. T - 1`
hold the file's samples over 32767 and no other cell changed; only progress
messages were logged. -/
theorem loadLoop_spec (m : Medium) (data : List Nat) (sc : Int)
    (hsc : 2 * sc ≤ data.length) (hcap : sc ≤ MAX_SIZE) :
    ∀ (d : Nat) (fptr : Nat) (t : Int) (buf : Int → ℚ) (log : List Ev),
      (sc - t).toNat = d → 0 ≤ t → t ≤ sc → (fptr : Int) = 2 * t →
      t ≤ (loadLoop m data sc fptr t buf log).1
      ∧ (loadLoop m data sc fptr t buf log).1 ≤ sc
      ∧ ((loadLoop m data sc fptr t buf log).1 = sc
          ∨ m.read (loadLoop m data sc fptr t buf log).1 ≠ ReadBehaviour.ok)
      ∧ (∀ u, t ≤ u → u < (loadLoop m data sc fptr t buf log).1 → (u - t) % 256 = 0 →
          m.read u = ReadBehaviour.ok)
      ∧ ((loadLoop m data sc fptr t buf log).1 < sc →
          ((loadLoop m data sc fptr t buf log).1 - t) % 256 = 0)
      ∧ (∀ j, t ≤ j → j < (loadLoop m data sc fptr t buf log).1 →
          (loadLoop m data sc fptr t buf log).2.1 j = (sampleAt data j.toNat : ℚ) / 32767)
      ∧ (∀ j, (j < t ∨ (loadLoop m data sc fptr t buf log).1 ≤ j) →
          (loadLoop m data sc fptr t buf log).2.1 j = buf j)
      ∧ (∃ ext, (loadLoop m data sc fptr t buf log).2.2 = log ++ ext
          ∧ ∀ e ∈ ext, ∃ msg, e = Ev.ShowMessage msg 10) := by
  intro d
  induction d using Nat.strong_induction_on with
  | _ d ih =>
    intro fptr t buf log hd ht0 ht1 hf
    have hstop : ∀ (hne : m.read t ≠ ReadBehaviour.ok ∨ t = sc),
        t ≤ (t, buf, log).1 ∧ (t, buf, log).1 ≤ sc
        ∧ ((t, buf, log).1 = sc ∨ m.read (t, buf, log).1 ≠ ReadBehaviour.ok)
        ∧ (∀ u, t ≤ u → u < (t, buf, log).1 → (u - t) % 256 = 0 → m.read u = ReadBehaviour.ok)
        ∧ ((t, buf, log).1 < sc → ((t, buf, log).1 - t) % 256 = 0)
        ∧ (∀ j, t ≤ j → j < (t, buf, log).1 →
            (t, buf, log).2.1 j = (sampleAt data j.toNat : ℚ) / 32767)
        ∧ (∀ j, (j < t ∨ (t, buf, log).1 ≤ j) → (t, buf, log).2.1 j = buf j)
        ∧ (∃ ext, (t, buf, log).2.2 = log ++ ext ∧ ∀ e ∈ ext, ∃ msg, e = Ev.ShowMessage msg 10) := by
      intro hne
      refine ⟨le_refl _, ht1, ?_, ?_, ?_, ?_, ?_, ⟨[], by simp, by simp⟩⟩
      · rcases hne with h | h
        · exact Or.inr h
        · exact Or.inl h
      · intro u h1 h2; simp only at h2; omega
      · intro _; simp
      · intro j h1 h2; simp only at h2; omega
      · intro j _; rfl
    rw [loadLoop]
    by_cases hlt : t < sc
    · simp only [hlt, if_true]
      split
      · -- f_read returned an error
        rename_i heq
        refine hstop (Or.inl ?_)
        intro hok
        rw [hok] at heq
        simp [f_read] at heq
      · rename_i bytes heq
        by_cases hb : bytes.length = 0
        · -- zero bytes delivered
          rw [dif_pos hb]
          refine hstop (Or.inl ?_)
          intro hok
          rw [hok] at heq
          simp only [f_read, Option.some.injEq] at heq
          rw [← heq, List.length_take, List.length_drop] at hb
          split at hb <;> omega
        · rw [dif_neg hb]
          -- the read succeeded and delivered the whole chunk
          have hok : m.read t = ReadBehaviour.ok := by
            cases hr : m.read t with
            | ok => rfl
            | error => rw [hr] at heq; simp [f_read] at heq
            | zero =>
              rw [hr] at heq
              simp only [f_read, Option.some.injEq] at heq
              rw [← heq] at hb
              simp at hb
          obtain ⟨r, hr0, hr1, hr2⟩ : ∃ r : Nat, 0 < r ∧ (r : Int) ≤ 256
              ∧ (r : Int) = (if sc - t > 256 then 256 else sc - t) := by
            by_cases h256 : sc - t > 256
            · exact ⟨256, by decide, by decide, by simp [h256]⟩
            · refine ⟨(sc - t).toNat, by omega, by omega, ?_⟩
              rw [if_neg h256]; omega
          obtain ⟨c, hc⟩ : ∃ c : Nat, (c : Int) = t := ⟨t.toNat, Int.toNat_of_nonneg ht0⟩
          have hfc : fptr = 2 * c := by omega
          have hbytes : bytes = (data.drop (2 * c)).take (2 * r) := by
            rw [hok] at heq
            simp only [f_read, Option.some.injEq] at heq
            have e : ((r : Int) * 2).toNat = 2 * r := by omega
            rw [← heq, hfc, ← hr2, e]
          have hblen : bytes.length = 2 * r := by
            rw [hbytes, List.length_take, List.length_drop]
            have : (r : Int) ≤ sc - t := by rw [hr2]; split <;> omega
            omega
          have hgot : bytes.length / 2 = r := by omega
          rw [hgot]
          have ih' := ih (sc - (t + r)).toNat (by omega) (fptr + bytes.length) (t + r)
            (storeChunk (sampleAt bytes) t r buf)
            (if Int.tmod (t + r) 1024 = 0 ∨ t + r ≥ near_complete sc then
              log ++ [Ev.ShowMessage
                ("Load: " ++ toString (Int.tdiv ((t + r) * 100) sc) ++ "%") 10]
             else log)
            rfl (by omega) (by rw [hr2]; split <;> omega) (by push_cast; omega)
          obtain ⟨h1, h2, h3, h4, h5, h6, h7, ext, h8, h9⟩ := ih'
          refine ⟨by omega, h2, h3, ?_, ?_, ?_, ?_, ?_⟩
          · intro u hu1 hu2 hu3
            by_cases hut : u = t
            · rw [hut]; exact hok
            · by_cases h256 : sc - t > 256
              · have hr256 : (r : Int) = 256 := by rw [hr2, if_pos h256]
                refine h4 u (by omega) hu2 ?_
                rw [hr256]; omega
              · have : (r : Int) = sc - t := by rw [hr2, if_neg h256]
                omega
          · intro hlt'
            have := h5 hlt'
            by_cases h256 : sc - t > 256
            · have hr256 : (r : Int) = 256 := by rw [hr2, if_pos h256]
              rw [hr256] at this; omega
            · have : (r : Int) = sc - t := by rw [hr2, if_neg h256]
              omega
          · intro j hj1 hj2
            by_cases hjr : t + r ≤ j
            · exact h6 j hjr hj2
            · rw [h7 j (Or.inl (by omega)), storeChunk_apply,
                if_pos ⟨hj1, by omega, by omega⟩, hbytes,
                sampleAt_take_drop _ _ _ _ (by omega)]
              congr 3
              omega
          · intro j hj
            have hj' : j < t ∨ t + r ≤ j := by omega
            rw [h7 j (by omega), storeChunk_apply, if_neg]
            intro h
            have := h.1; have := h.2.1
            omega
          · by_cases hmsg : Int.tmod (t + r) 1024 = 0 ∨ t + r ≥ near_complete sc
            · rw [if_pos hmsg] at h8 ⊢
              refine ⟨Ev.ShowMessage
                ("Load: " ++ toString (Int.tdiv ((t + r) * 100) sc) ++ "%") 10 :: ext,
                by rw [h8]; simp, ?_⟩
              intro e he
              rcases List.mem_cons.mp he with he | he
              · exact ⟨_, he⟩
              · exact h9 e he
            · rw [if_neg hmsg] at h8 ⊢
              exact ⟨ext, h8, h9⟩
    · rw [if_neg hlt]
      exact hstop (Or.inr (by omega))

/-- `LoadBinaryFile` on a file that opens, in terms of its read loop. -/
theorem LoadBinaryFile_opened (m : Medium) (filename : String) (s : Sys) (data : List Nat)
    (hopen : m.open_ok filename = true) (hfile : s.disk filename = some data) :
    LoadBinaryFile m filename s =
      { s with
        lp :=
          if (loadLoop m data (importCount data) 0 0 (ResetBuffer s.lp).buf
              (if ((data.length / 2 : Nat) : Int) > MAX_SIZE
                then s.log ++ [Ev.ShowMessage "Truncated" 800] else s.log)).1 > 0 then
            { ResetBuffer s.lp with
              buf := (loadLoop m data (importCount data) 0 0 (ResetBuffer s.lp).buf
                (if ((data.length / 2 : Nat) : Int) > MAX_SIZE
                  then s.log ++ [Ev.ShowMessage "Truncated" 800] else s.log)).2.1,
              first := false,
              mod := (loadLoop m data (importCount data) 0 0 (ResetBuffer s.lp).buf
                (if ((data.length / 2 : Nat) : Int) > MAX_SIZE
                  then s.log ++ [Ev.ShowMessage "Truncated" 800] else s.log)).1,
              len := 0, play := true }
          else
            { ResetBuffer s.lp with
              buf := (loadLoop m data (importCount data) 0 0 (ResetBuffer s.lp).buf
                (if ((data.length / 2 : Nat) : Int) > MAX_SIZE
                  then s.log ++ [Ev.ShowMessage "Truncated" 800] else s.log)).2.1,
              first := false,
              mod := (loadLoop m data (importCount data) 0 0 (ResetBuffer s.lp).buf
                (if ((data.length / 2 : Nat) : Int) > MAX_SIZE
                  then s.log ++ [Ev.ShowMessage "Truncated" 800] else s.log)).1,
              len := 0 },
        log := (loadLoop m data (importCount data) 0 0 (ResetBuffer s.lp).buf
            (if ((data.length / 2 : Nat) : Int) > MAX_SIZE
              then s.log ++ [Ev.ShowMessage "Truncated" 800] else s.log)).2.2
          ++ [Ev.ShowMessage ("Loaded " ++ toString
            (loadLoop m data (importCount data) 0 0 (ResetBuffer s.lp).buf
              (if ((data.length / 2 : Nat) : Int) > MAX_SIZE
                then s.log ++ [Ev.ShowMessage "Truncated" 800] else s.log)).1 ++ " smp") 1500] } := by
  unfold LoadBinaryFile importCount
  simp only [hopen, hfile, if_true]

theorem importCount_bounds (data : List Nat) :
    0 ≤ importCount data ∧ 2 * importCount data ≤ data.length ∧ importCount data ≤ MAX_SIZE := by
  unfold importCount
  have := MAX_SIZE_pos
  split <;> omega

/-- What `LoadBinaryFile` leaves behind when the file opens, for every
behaviour of the medium during reading. `total` is the number of samples read. -/
theorem LoadBinaryFile_result (m : Medium) (filename : String) (s : Sys) (data : List Nat)
    (hopen : m.open_ok filename = true) (hfile : s.disk filename = some data) :
    ∃ total : Int, 0 ≤ total ∧ total ≤ importCount data
      ∧ (total = importCount data ∨ m.read total ≠ ReadBehaviour.ok)
      ∧ (∀ u, 0 ≤ u → u < total → u % 256 = 0 → m.read u = ReadBehaviour.ok)
      ∧ (LoadBinaryFile m filename s).lp.mod = total
      ∧ (LoadBinaryFile m filename s).lp.first = false
      ∧ (LoadBinaryFile m filename s).lp.rec_ = false
      ∧ (LoadBinaryFile m filename s).lp.pos = 0
      ∧ (LoadBinaryFile m filename s).lp.len = 0
      ∧ ((LoadBinaryFile m filename s).lp.play = true ↔ 0 < total)
      ∧ (∀ i, 0 ≤ i → i < total →
          (LoadBinaryFile m filename s).lp.buf i = (sampleAt data i.toNat : ℚ) / 32767)
      ∧ (∀ i, total ≤ i → i < MAX_SIZE → (LoadBinaryFile m filename s).lp.buf i = 0)
      ∧ (∀ i, (i < 0 ∨ MAX_SIZE ≤ i) → (LoadBinaryFile m filename s).lp.buf i = s.lp.buf i)
      ∧ (∃ ext, (LoadBinaryFile m filename s).log
            = (if ((data.length / 2 : Nat) : Int) > MAX_SIZE
                then s.log ++ [Ev.ShowMessage "Truncated" 800] else s.log) ++ ext
          ∧ ∀ e ∈ ext, ∃ msg d, e = Ev.ShowMessage msg d ∧ d ≠ 800) := by
  obtain ⟨hc0, hc1, hc2⟩ := importCount_bounds data
  obtain ⟨h1, h2, h3, h4, _, h6, h7, ext, h8, h9⟩ :=
    loadLoop_spec m data (importCount data) hc1 hc2 _ 0 0 (ResetBuffer s.lp).buf
      (if ((data.length / 2 : Nat) : Int) > MAX_SIZE
        then s.log ++ [Ev.ShowMessage "Truncated" 800] else s.log)
      rfl (le_refl 0) hc0 (by simp)
  rw [LoadBinaryFile_opened m filename s data hopen hfile]
  generalize (if ((data.length / 2 : Nat) : Int) > MAX_SIZE
    then s.log ++ [Ev.ShowMessage "Truncated" 800] else s.log) = log0 at *
  generalize loadLoop m data (importCount data) 0 0 (ResetBuffer s.lp).buf log0 = r at *
  have hbuf_in : ∀ i, r.1 ≤ i → i < MAX_SIZE → r.2.1 i = 0 := by
    intro i hi0 hi1
    rw [h7 i (Or.inr hi0)]
    have : 0 ≤ i := le_trans h1 hi0
    simp [ResetBuffer, this, hi1]
  have hbuf_out : ∀ i, (i < 0 ∨ MAX_SIZE ≤ i) → r.2.1 i = s.lp.buf i := by
    intro i hi
    have hlt : i < 0 ∨ r.1 ≤ i := by
      rcases hi with h | h
      · exact Or.inl h
      · exact Or.inr (le_trans (le_trans h2 hc2) h)
    rw [h7 i hlt]
    have : ¬ (0 ≤ i ∧ i < MAX_SIZE) := by
      intro hh; rcases hi with h | h <;> omega
    simp [ResetBuffer, this]
  have hlog : ∃ ext', r.2.2 ++ [Ev.ShowMessage ("Loaded " ++ toString r.1 ++ " smp") 1500]
      = log0 ++ ext' ∧ ∀ e ∈ ext', ∃ msg d, e = Ev.ShowMessage msg d ∧ d ≠ 800 := by
    refine ⟨ext ++ [Ev.ShowMessage ("Loaded " ++ toString r.1 ++ " smp") 1500], ?_, ?_⟩
    · rw [h8, List.append_assoc]
    · intro e he
      rcases List.mem_append.mp he with he | he
      · obtain ⟨msg, hmsg⟩ := h9 e he
        exact ⟨msg, 10, hmsg, by decide⟩
      · rw [List.mem_singleton] at he
        exact ⟨_, 1500, he, by decide⟩
  have h4' : ∀ u, 0 ≤ u → u < r.1 → u % 256 = 0 → m.read u = ReadBehaviour.ok := by
    intro u hu0 hu1 hu2
    exact h4 u hu0 hu1 (by simpa using hu2)
  by_cases hpos : r.1 > 0
  · rw [if_pos hpos]
    exact ⟨r.1, h1, h2, h3, h4', rfl, rfl, rfl, rfl, rfl, ⟨fun _ => hpos, fun _ => rfl⟩,
      h6, hbuf_in, hbuf_out, hlog⟩
  · rw [if_neg hpos]
    refine ⟨r.1, h1, h2, h3, h4', rfl, rfl, rfl, rfl, rfl, ⟨?_, fun h => absurd h hpos⟩,
      h6, hbuf_in, hbuf_out, hlog⟩
    intro hp
    simp [ResetBuffer] at hp

/-- When the file does not open, `LoadBinaryFile` leaves the looper globals
alone. -/
theorem LoadBinaryFile_not_opened (m : Medium) (filename : String) (s : Sys)
    (h : m.open_ok filename = false ∨ s.disk filename = none) :
    (LoadBinaryFile m filename s).lp = s.lp := by
  have hnone : (if m.open_ok filename = true then s.disk filename else none) = none := by
    rcases h with h | h
    · simp [h]
    · simp [h]
  unfold LoadBinaryFile
  rw [hnone]

/-- C9 (partial import is accepted as-is): when the file opens, whatever the
medium does at each read (deliver the chunk, fail, or deliver zero bytes),
`LoadBinaryFile` ends with `mod == total`, the number of samples read: `total`
is at most the (capped) sample count of the file, every chunk read before
`total` was delivered, and either the whole count was read or the read issued
at `total` failed or delivered nothing. The engine is looping (`first ==
false`), `rec == false`, `pos == 0`, `len == 0`, `play` is set exactly when
`total > 0`, cell `i < total` holds the file's 16-bit value `i` over 32767 and
the other cells of the buffer are zero (the full reset). When the open fails
the looper globals, buffer included, and the card are unchanged. -/
theorem C9_partial_import (m : Medium) (filename : String) (s : Sys) :
    (∀ data, m.open_ok filename = true → s.disk filename = some data →
      ∃ total : Int, 0 ≤ total ∧ total ≤ importCount data
        ∧ (total = importCount data ∨ m.read total ≠ ReadBehaviour.ok)
        ∧ (∀ u, 0 ≤ u → u < total → u % 256 = 0 → m.read u = ReadBehaviour.ok)
        ∧ (LoadBinaryFile m filename s).lp.mod = total
        ∧ (LoadBinaryFile m filename s).lp.first = false
        ∧ (LoadBinaryFile m filename s).lp.rec_ = false
        ∧ (LoadBinaryFile m filename s).lp.pos = 0
        ∧ (LoadBinaryFile m filename s).lp.len = 0
        ∧ ((LoadBinaryFile m filename s).lp.play = true ↔ 0 < total)
        ∧ (∀ i, 0 ≤ i → i < total →
            (LoadBinaryFile m filename s).lp.buf i = (sampleAt data i.toNat : ℚ) / 32767)
        ∧ (∀ i, total ≤ i → i < MAX_SIZE → (LoadBinaryFile m filename s).lp.buf i = 0))
    ∧ ((m.open_ok filename = false ∨ s.disk filename = none) →
        (LoadBinaryFile m filename s).lp = s.lp
        ∧ (LoadBinaryFile m filename s).disk = s.disk) := by
  constructor
  · intro data hopen hfile
    obtain ⟨total, h1, h2, h3, h4, h5, h6, h7, h8, h9, h10, h11, h12, _, _⟩ :=
      LoadBinaryFile_result m filename s data hopen hfile
    exact ⟨total, h1, h2, h3, h4, h5, h6, h7, h8, h9, h10, h11, h12⟩
  · intro h
    have hnone : (if m.open_ok filename = true then s.disk filename else none) = none := by
      rcases h with h | h
      · simp [h]
      · simp [h]
    unfold LoadBinaryFile
    rw [hnone]
    exact ⟨rfl, rfl⟩

/-- C8 (truncation on import): on a medium that opens the file and delivers
every read, a file of more than `MAX_SIZE` samples makes `LoadBinaryFile` emit
the truncation notice and end with `mod == MAX_SIZE`, having written the
cells `0 .. MAX_SIZE - 1` only; for a file of at most `MAX_SIZE` samples no
truncation notice is emitted and `mod` is the file's sample count. -/
theorem C8_import_truncation (m : Medium) (hread : ∀ k, m.read k = ReadBehaviour.ok)
    (filename : String) (s : Sys) (data : List Nat)
    (hopen : m.open_ok filename = true) (hfile : s.disk filename = some data) :
    (MAX_SIZE < ((data.length / 2 : Nat) : Int) →
      (∃ ext, (LoadBinaryFile m filename s).log = s.log ++ ext ∧ truncationNotice ∈ ext)
      ∧ (LoadBinaryFile m filename s).lp.mod = MAX_SIZE
      ∧ (LoadBinaryFile m filename s).lp.mod ≠ ((data.length / 2 : Nat) : Int)
      ∧ (∀ i, (i < 0 ∨ MAX_SIZE ≤ i) → (LoadBinaryFile m filename s).lp.buf i = s.lp.buf i)
      ∧ (∀ i, 0 ≤ i → i < MAX_SIZE →
          (LoadBinaryFile m filename s).lp.buf i = (sampleAt data i.toNat : ℚ) / 32767))
    ∧ (((data.length / 2 : Nat) : Int) ≤ MAX_SIZE →
      (∃ ext, (LoadBinaryFile m filename s).log = s.log ++ ext ∧ truncationNotice ∉ ext)
      ∧ (LoadBinaryFile m filename s).lp.mod = ((data.length / 2 : Nat) : Int)) := by
  obtain ⟨total, _, _, h3, _, h5, _, _, _, _, _, h11, _, h13, ext, hlog, hext⟩ :=
    LoadBinaryFile_result m filename s data hopen hfile
  have htot : total = importCount data := by
    rcases h3 with h | h
    · exact h
    · exact absurd (hread total) h
  constructor
  · intro hbig
    have hcount : importCount data = MAX_SIZE := by
      unfold importCount; rw [if_pos hbig]
    rw [if_pos hbig] at hlog
    refine ⟨⟨truncationNotice :: ext, ?_, List.mem_cons_self _ _⟩, ?_, ?_, h13, ?_⟩
    · rw [hlog, List.append_assoc]; rfl
    · rw [h5, htot, hcount]
    · rw [h5, htot, hcount]; exact ne_of_lt hbig
    · intro i hi0 hi1
      exact h11 i hi0 (by rw [htot, hcount]; exact hi1)
  · intro hsmall
    have hcount : importCount data = ((data.length / 2 : Nat) : Int) := by
      unfold importCount; rw [if_neg (not_lt.mpr hsmall)]
    rw [if_neg (not_lt.mpr hsmall)] at hlog
    refine ⟨⟨ext, hlog, ?_⟩, by rw [h5, htot, hcount]⟩
    intro hmem
    obtain ⟨msg, d, he, hd⟩ := hext _ hmem
    unfold truncationNotice at he
    injection he with _ h800
    exact hd h800.symm

/-- C9 on a two-sample file whose reads all fail: nothing is read. -/
theorem C9_partial_import_witness :
    ∃ total : Int, 0 ≤ total ∧ total ≤ importCount [1, 0, 2, 0]
      ∧ (total = importCount [1, 0, 2, 0] ∨ failingReads.read total ≠ ReadBehaviour.ok)
      ∧ (∀ u, 0 ≤ u → u < total → u % 256 = 0 → failingReads.read u = ReadBehaviour.ok)
      ∧ (LoadBinaryFile failingReads "A.BIN" twoSampleSys).lp.mod = total
      ∧ (LoadBinaryFile failingReads "A.BIN" twoSampleSys).lp.first = false
      ∧ (LoadBinaryFile failingReads "A.BIN" twoSampleSys).lp.rec_ = false
      ∧ (LoadBinaryFile failingReads "A.BIN" twoSampleSys).lp.pos = 0
      ∧ (LoadBinaryFile failingReads "A.BIN" twoSampleSys).lp.len = 0
      ∧ ((LoadBinaryFile failingReads "A.BIN" twoSampleSys).lp.play = true ↔ 0 < total)
      ∧ (∀ i, 0 ≤ i → i < total →
          (LoadBinaryFile failingReads "A.BIN" twoSampleSys).lp.buf i
            = (sampleAt [1, 0, 2, 0] i.toNat : ℚ) / 32767)
      ∧ (∀ i, total ≤ i → i < MAX_SIZE →
          (LoadBinaryFile failingReads "A.BIN" twoSampleSys).lp.buf i = 0) :=
  (C9_partial_import failingReads "A.BIN" twoSampleSys).1 [1, 0, 2, 0] rfl
    (by simp [twoSampleSys])

/-- C8 on a file of `MAX_SIZE + 1` samples and on a file of two samples. -/
theorem C8_import_truncation_witness :
    ((∃ ext, (LoadBinaryFile faithful "BIG.BIN" bigFileSys).log = bigFileSys.log ++ ext
        ∧ truncationNotice ∈ ext)
      ∧ (LoadBinaryFile faithful "BIG.BIN" bigFileSys).lp.mod = MAX_SIZE)
    ∧ ((∃ ext, (LoadBinaryFile faithful "A.BIN" twoSampleSys).log = twoSampleSys.log ++ ext
        ∧ truncationNotice ∉ ext)
      ∧ (LoadBinaryFile faithful "A.BIN" twoSampleSys).lp.mod = 2) := by
  have hbig := (C8_import_truncation faithful (fun _ => rfl) "BIG.BIN" bigFileSys
    (List.replicate 28800002 0) rfl
    (show (if "BIG.BIN" = "BIG.BIN" then some (List.replicate 28800002 0) else none) = _
      from if_pos rfl)).1
    (by rw [List.length_replicate]; decide)
  have hsmall := (C8_import_truncation faithful (fun _ => rfl) "A.BIN" twoSampleSys
    [1, 0, 2, 0] rfl (by simp [twoSampleSys])).2 (by decide)
  exact ⟨⟨hbig.1, hbig.2.1⟩, hsmall⟩

/-! ### Raw round trip -/

/-- `SaveBufferToBinary` on a medium that creates the file and accepts every
write: the file `LOOP<n>.BIN` holds the quantized samples `0 .. mod - 1` and
only the BIN index of the looper globals changes. -/
theorem SaveBufferToBinary_faithful (m : Medium) (hw : ∀ i, m.write_ok i = true) (s : Sys)
    (hopen : m.open_ok (binName s.lp.file_counterb) = true)
    (hc : s.lp.file_counterb ≤ 10) (hmod : 0 < s.lp.mod) :
    ∃ content, (SaveBufferToBinary m s).disk (binName s.lp.file_counterb) = some content
      ∧ content.length = 2 * s.lp.mod.toNat
      ∧ (∀ k : Nat, k < s.lp.mod.toNat → sampleAt content k = quantize (s.lp.buf k))
      ∧ (SaveBufferToBinary m s).lp = { s.lp with file_counterb := s.lp.file_counterb + 1 } := by
  obtain ⟨h1, h2, h3⟩ := saveBinLoop_faithful m hw s.lp.buf s.lp.mod _ 0 []
    (s.log ++ [Ev.ShowMessage "Creating BIN..." 800] ++ [Ev.f_create (binName s.lp.file_counterb)])
    rfl (le_refl 0) hmod.le rfl (by intro k hk; simp at hk)
  unfold binName at *
  unfold SaveBufferToBinary
  rw [if_neg (not_lt.mpr hc), if_neg (not_le.mpr hmod)]
  rw [if_pos hopen]
  dsimp only
  rw [h1, if_pos rfl]
  exact ⟨_, if_pos rfl, h2, h3, rfl⟩

/-- Quantizing a sample of `[-1, 1]` and scaling back loses at most one step
of the 16-bit grid. -/
theorem quantize_error (v : ℚ) (h0 : -1 ≤ v) (h1 : v ≤ 1) :
    |(quantize v : ℚ) / 32767 - v| ≤ 1 / 32767 := by
  have h := f2i_fl32_error (clamp1 v * 32767) (lt_of_le_of_lt (scaled_abs v) (by norm_num))
  rw [clamp1_of_bounded v h0 h1] at h
  have hq : (quantize v : ℚ) = f2i (fl32 (v * 32767)) := by
    unfold quantize; rw [clamp1_of_bounded v h0 h1]
  rw [hq]
  have e : (f2i (fl32 (v * 32767)) : ℚ) / 32767 - v
      = (f2i (fl32 (v * 32767)) - v * 32767) / 32767 := by
    field_simp
    ring
  rw [e, abs_div, abs_of_pos (by norm_num : (0 : ℚ) < 32767), abs_sub_comm]
  exact div_le_div_of_nonneg_right h.le (by norm_num)

/-- C6 (round trip through the raw format): for a loop of length `L` with
`0 < L <= MAX_SIZE` and samples in `[-1, 1]`, on a medium that opens files,
accepts every write and delivers every read, `SaveBufferToBinary` (with the
BIN index still within its cap of 10, so that the save is carried out) leaves
a file of `2 * L` bytes holding the quantized samples; `LoadBinaryFile` of that
file, run from any state of the looper globals on the card as the save left
it, yields `mod == L`, a finalized loop with the head at 0 that plays, and,
for every `i < L`, the sample `quantize(original i) / 32767` decoded from the
file, which is within `1/32767` of the original sample `i`. -/
theorem C6_raw_round_trip (m : Medium) (hopen : ∀ name, m.open_ok name = true)
    (hw : ∀ i, m.write_ok i = true) (hread : ∀ k, m.read k = ReadBehaviour.ok)
    (s : Sys) (L : Int) (hL0 : 0 < L) (hL1 : L ≤ MAX_SIZE) (hmod : s.lp.mod = L)
    (hb : ∀ i, 0 ≤ i → i < L → -1 ≤ s.lp.buf i ∧ s.lp.buf i ≤ 1)
    (hc : s.lp.file_counterb ≤ 10) (lp2 : Looper) (log2 : List Ev) :
    (∃ content, (SaveBufferToBinary m s).disk (binName s.lp.file_counterb) = some content
      ∧ content.length = 2 * L.toNat
      ∧ ∀ k : Nat, k < L.toNat → sampleAt content k = quantize (s.lp.buf k))
    ∧ (LoadBinaryFile m (binName s.lp.file_counterb)
        { lp := lp2, disk := (SaveBufferToBinary m s).disk, log := log2 }).lp.mod = L
    ∧ ((LoadBinaryFile m (binName s.lp.file_counterb)
        { lp := lp2, disk := (SaveBufferToBinary m s).disk, log := log2 }).lp.first = false
      ∧ (LoadBinaryFile m (binName s.lp.file_counterb)
        { lp := lp2, disk := (SaveBufferToBinary m s).disk, log := log2 }).lp.pos = 0
      ∧ (LoadBinaryFile m (binName s.lp.file_counterb)
        { lp := lp2, disk := (SaveBufferToBinary m s).disk, log := log2 }).lp.play = true)
    ∧ (∀ i, 0 ≤ i → i < L →
        (LoadBinaryFile m (binName s.lp.file_counterb)
          { lp := lp2, disk := (SaveBufferToBinary m s).disk, log := log2 }).lp.buf i
          = (quantize (s.lp.buf i) : ℚ) / 32767)
    ∧ (∀ i, 0 ≤ i → i < L →
        |(LoadBinaryFile m (binName s.lp.file_counterb)
          { lp := lp2, disk := (SaveBufferToBinary m s).disk, log := log2 }).lp.buf i
          - s.lp.buf i| ≤ 1 / 32767) := by
  obtain ⟨content, hdisk, hlen, hsamp, _⟩ :=
    SaveBufferToBinary_faithful m hw s (hopen _) hc (by rw [hmod]; exact hL0)
  rw [hmod] at hlen hsamp
  obtain ⟨total, _, _, h3, _, h5, h6, _, h8, _, h10, h11, _⟩ :=
    LoadBinaryFile_result m (binName s.lp.file_counterb)
      { lp := lp2, disk := (SaveBufferToBinary m s).disk, log := log2 } content
      (hopen _) hdisk
  have hcount : importCount content = L := by
    unfold importCount
    have hhalf : ((content.length / 2 : Nat) : Int) = L := by
      rw [hlen]
      have : 2 * L.toNat / 2 = L.toNat := by omega
      rw [this]
      exact Int.toNat_of_nonneg hL0.le
    rw [hhalf, if_neg (not_lt.mpr hL1)]
  have htot : total = L := by
    rcases h3 with h | h
    · rw [h, hcount]
    · exact absurd (hread total) h
  have hcell : ∀ i, 0 ≤ i → i < L →
      (LoadBinaryFile m (binName s.lp.file_counterb)
        { lp := lp2, disk := (SaveBufferToBinary m s).disk, log := log2 }).lp.buf i
        = (quantize (s.lp.buf i) : ℚ) / 32767 := by
    intro i hi0 hi1
    have hi : ((i.toNat : Nat) : Int) = i := Int.toNat_of_nonneg hi0
    rw [h11 i hi0 (by rw [htot]; exact hi1), hsamp i.toNat (by omega), hi]
  refine ⟨⟨content, hdisk, hlen, hsamp⟩, by rw [h5, htot], ⟨h6, h8, ?_⟩, hcell, ?_⟩
  · exact h10.mpr (by rw [htot]; exact hL0)
  · intro i hi0 hi1
    rw [hcell i hi0 hi1]
    exact quantize_error _ (hb i hi0 hi1).1 (hb i hi0 hi1).2

/-- C6 on a finalized loop of two samples 1/2 saved as `LOOP1.BIN` and loaded
into the looper globals of program start, whose buffer holds zeros. -/
theorem C6_raw_round_trip_witness :
    (LoadBinaryFile faithful (binName halfLoopSys.lp.file_counterb)
        { lp := boot, disk := (SaveBufferToBinary faithful halfLoopSys).disk, log := [] }).lp.mod = 2
    ∧ ∀ i, 0 ≤ i → i < 2 →
        |(LoadBinaryFile faithful (binName halfLoopSys.lp.file_counterb)
            { lp := boot, disk := (SaveBufferToBinary faithful halfLoopSys).disk,
              log := [] }).lp.buf i
          - halfLoopSys.lp.buf i| ≤ 1 / 32767 :=
  have h := C6_raw_round_trip faithful (fun _ => rfl) (fun _ => rfl) (fun _ => rfl) halfLoopSys 2
    (by decide) (by decide) rfl
    (by intro i _ _; simp only [halfLoopSys]; constructor <;> norm_num)
    (by decide) boot []
  ⟨h.2.1, h.2.2.2.2⟩

/-! ### Per-session file cap -/

/-- The sample loop of `SaveBufferToWav` only appends calls that create no
file. -/
theorem saveWavLoop_log (buf : Int → ℚ) (mod : Int) :
    ∀ (d : Nat) (i : Int) (log : List Ev), (mod - i).toNat = d →
      ∃ ext, saveWavLoop buf mod i log = log ++ ext
        ∧ ∀ e ∈ ext, wavCreated e = none ∧ binCreated e = none := by
  intro d
  induction d using Nat.strong_induction_on with
  | _ d ih =>
    intro i log hd
    rw [saveWavLoop]
    by_cases hlt : i < mod
    · rw [if_pos hlt]
      obtain ⟨ext, h1, h2⟩ := ih (mod - (i + 1)).toNat (by omega) (i + 1)
        (if Int.tmod i 4096 = 0 then
          (if Int.tmod i (Int.tdiv WAV_TRANSFER_SIZE 4) = 0 then log ++ [Ev.Write] else log)
            ++ [Ev.Sample (buf i)]
            ++ [Ev.ShowMessage ("Writing: " ++ toString (Int.tdiv (i * 100) mod) ++ "%") 30]
         else (if Int.tmod i (Int.tdiv WAV_TRANSFER_SIZE 4) = 0 then log ++ [Ev.Write] else log)
            ++ [Ev.Sample (buf i)]) rfl
      dsimp only
      rw [h1]
      have hpre : ∃ pre,
          (if Int.tmod i 4096 = 0 then
            (if Int.tmod i (Int.tdiv WAV_TRANSFER_SIZE 4) = 0 then log ++ [Ev.Write] else log)
              ++ [Ev.Sample (buf i)]
              ++ [Ev.ShowMessage ("Writing: " ++ toString (Int.tdiv (i * 100) mod) ++ "%") 30]
           else (if Int.tmod i (Int.tdiv WAV_TRANSFER_SIZE 4) = 0 then log ++ [Ev.Write] else log)
              ++ [Ev.Sample (buf i)]) = log ++ pre
          ∧ ∀ e ∈ pre, wavCreated e = none ∧ binCreated e = none := by
        by_cases ha : Int.tmod i 4096 = 0 <;>
          by_cases hb : Int.tmod i (Int.tdiv WAV_TRANSFER_SIZE 4) = 0
        · exact ⟨[Ev.Write, Ev.Sample (buf i),
            Ev.ShowMessage ("Writing: " ++ toString (Int.tdiv (i * 100) mod) ++ "%") 30],
            by simp [ha, hb], by simp [wavCreated, binCreated]⟩
        · exact ⟨[Ev.Sample (buf i),
            Ev.ShowMessage ("Writing: " ++ toString (Int.tdiv (i * 100) mod) ++ "%") 30],
            by simp [ha, hb], by simp [wavCreated, binCreated]⟩
        · exact ⟨[Ev.Write, Ev.Sample (buf i)], by simp [ha, hb],
            by simp [wavCreated, binCreated]⟩
        · exact ⟨[Ev.Sample (buf i)], by simp [ha, hb], by simp [wavCreated, binCreated]⟩
      obtain ⟨pre, hp1, hp2⟩ := hpre
      rw [hp1]
      refine ⟨pre ++ ext, by rw [List.append_assoc], ?_⟩
      intro e he
      rcases List.mem_append.mp he with he | he
      · exact hp2 e he
      · exact h2 e he
    · rw [if_neg hlt]
      exact ⟨[], by simp, by simp⟩

/-- The chunk loop of `SaveBufferToBinary` only appends calls that create no
file, whatever the medium does. -/
theorem saveBinLoop_log (m : Medium) (buf : Int → ℚ) (mod : Int) :
    ∀ (d : Nat) (i : Int) (content : List Nat) (log : List Ev), (mod - i).toNat = d →
      ∃ ext, (saveBinLoop m buf mod i content log).2.2 = log ++ ext
        ∧ ∀ e ∈ ext, wavCreated e = none ∧ binCreated e = none := by
  intro d
  induction d using Nat.strong_induction_on with
  | _ d ih =>
    intro i content log hd
    rw [saveBinLoop]
    by_cases hlt : i < mod
    · rw [if_pos hlt]
      dsimp only
      by_cases hwr : m.write_ok i = true
      · rw [if_pos hwr]
        obtain ⟨ext, h1, h2⟩ := ih (mod - (i + 1024)).toNat (by omega) (i + 1024)
          (content ++ encodeChunk (fun j => quantize (buf (i + j)))
            (if i + 1024 ≤ mod then 1024 else mod - i).toNat)
          (log ++ [Ev.ShowMessage ("Writing: " ++ toString
            (Int.tdiv ((i + (if i + 1024 ≤ mod then 1024 else mod - i)) * 100) mod) ++ "%") 30])
          rfl
        rw [h1]
        refine ⟨[Ev.ShowMessage ("Writing: " ++ toString
            (Int.tdiv ((i + (if i + 1024 ≤ mod then 1024 else mod - i)) * 100) mod) ++ "%") 30]
            ++ ext, by rw [List.append_assoc], ?_⟩
        intro e he
        rcases List.mem_append.mp he with he | he
        · rw [List.mem_singleton] at he
          subst he
          exact ⟨rfl, rfl⟩
        · exact h2 e he
      · rw [if_neg hwr]
        exact ⟨[Ev.ShowMessage "Write error" 1200], rfl, by simp [wavCreated, binCreated]⟩
    · rw [if_neg hlt]
      exact ⟨[], by simp, by simp⟩

/-- The names `f 1 .. f (k + 1)` are the names `f 1 .. f k` followed by
`f (k + 1)`. -/
theorem names_succ (f : Int → String) (k : Nat) :
    names f (k + 1) = names f k ++ [f ((k : Int) + 1)] := by
  unfold names
  rw [List.range_succ, List.map_append]
  rfl

/-- What one `SaveBufferToWav` does to the log and to the file indices. -/
theorem SaveBufferToWav_step (s : Sys) :
    ∃ ext, (SaveBufferToWav s).log = s.log ++ ext
      ∧ ext.filterMap binCreated = []
      ∧ (SaveBufferToWav s).lp.file_counterb = s.lp.file_counterb
      ∧ ((s.lp.file_counter ≤ 10 ∧ (SaveBufferToWav s).lp.file_counter = s.lp.file_counter + 1
            ∧ ext.filterMap wavCreated = [wavName s.lp.file_counter])
          ∨ ((SaveBufferToWav s).lp.file_counter = s.lp.file_counter
            ∧ ext.filterMap wavCreated = [])) := by
  unfold SaveBufferToWav
  by_cases hc : s.lp.file_counter > 10
  · rw [if_pos hc]
    exact ⟨_, rfl, rfl, rfl, Or.inr ⟨rfl, rfl⟩⟩
  · rw [if_neg hc]
    by_cases hm : s.lp.mod ≤ 0
    · rw [if_pos hm]
      exact ⟨_, rfl, rfl, rfl, Or.inr ⟨rfl, rfl⟩⟩
    · rw [if_neg hm]
      dsimp only
      obtain ⟨ext, h1, h2⟩ := saveWavLoop_log s.lp.buf s.lp.mod _ 0
        (s.log ++ [Ev.ShowMessage "Creating WAV..." 800,
          Ev.OpenFile ("LOOP" ++ toString s.lp.file_counter ++ ".WAV"),
          Ev.ShowMessage "Writing..." 500]) rfl
      rw [h1]
      have hw : ext.filterMap wavCreated = [] :=
        List.filterMap_eq_nil_iff.mpr (fun e he => (h2 e he).1)
      have hb : ext.filterMap binCreated = [] :=
        List.filterMap_eq_nil_iff.mpr (fun e he => (h2 e he).2)
      refine ⟨[Ev.ShowMessage "Creating WAV..." 800,
          Ev.OpenFile ("LOOP" ++ toString s.lp.file_counter ++ ".WAV"),
          Ev.ShowMessage "Writing..." 500] ++ ext
          ++ [Ev.Write, Ev.ShowMessage "Finalizing..." 800, Ev.SaveFile,
              Ev.ShowMessage ("Saved " ++ ("LOOP" ++ toString s.lp.file_counter ++ ".WAV")) 1500],
        by simp only [List.append_assoc], ?_, rfl, Or.inl ⟨not_lt.mp hc, rfl, ?_⟩⟩
      · simp [List.filterMap_append, hb, binCreated]
      · simp [List.filterMap_append, hw, wavCreated, wavName]

/-- What one `SaveBufferToBinary` does to the log and to the file indices. -/
theorem SaveBufferToBinary_step (m : Medium) (s : Sys) :
    ∃ ext, (SaveBufferToBinary m s).log = s.log ++ ext
      ∧ ext.filterMap wavCreated = []
      ∧ (SaveBufferToBinary m s).lp.file_counter = s.lp.file_counter
      ∧ ((s.lp.file_counterb ≤ 10
            ∧ (SaveBufferToBinary m s).lp.file_counterb = s.lp.file_counterb + 1
            ∧ ext.filterMap binCreated = [binName s.lp.file_counterb])
          ∨ (s.lp.file_counterb ≤ 10 ∧ (∃ i, m.write_ok i = false)
            ∧ (SaveBufferToBinary m s).lp.file_counterb = s.lp.file_counterb
            ∧ ext.filterMap binCreated = [binName s.lp.file_counterb])
          ∨ ((SaveBufferToBinary m s).lp.file_counterb = s.lp.file_counterb
            ∧ ext.filterMap binCreated = [])) := by
  unfold SaveBufferToBinary
  by_cases hc : s.lp.file_counterb > 10
  · rw [if_pos hc]
    exact ⟨_, rfl, rfl, rfl, Or.inr (Or.inr ⟨rfl, rfl⟩)⟩
  · rw [if_neg hc]
    by_cases hm : s.lp.mod ≤ 0
    · rw [if_pos hm]
      exact ⟨_, rfl, rfl, rfl, Or.inr (Or.inr ⟨rfl, rfl⟩)⟩
    · rw [if_neg hm]
      dsimp only
      by_cases ho : m.open_ok ("LOOP" ++ toString s.lp.file_counterb ++ ".BIN") = true
      · rw [if_pos ho]
        obtain ⟨ext, h1, h2⟩ := saveBinLoop_log m s.lp.buf s.lp.mod _ 0 []
          (s.log ++ [Ev.ShowMessage "Creating BIN..." 800]
            ++ [Ev.f_create ("LOOP" ++ toString s.lp.file_counterb ++ ".BIN")]) rfl
        have hw : ext.filterMap wavCreated = [] :=
          List.filterMap_eq_nil_iff.mpr (fun e he => (h2 e he).1)
        have hb : ext.filterMap binCreated = [] :=
          List.filterMap_eq_nil_iff.mpr (fun e he => (h2 e he).2)
        by_cases hok : (saveBinLoop m s.lp.buf s.lp.mod 0 []
            (s.log ++ [Ev.ShowMessage "Creating BIN..." 800]
              ++ [Ev.f_create ("LOOP" ++ toString s.lp.file_counterb ++ ".BIN")])).1 = true
        · rw [if_pos hok]
          dsimp only
          rw [h1]
          refine ⟨[Ev.ShowMessage "Creating BIN..." 800,
              Ev.f_create ("LOOP" ++ toString s.lp.file_counterb ++ ".BIN")] ++ ext
              ++ [Ev.ShowMessage
                ("Saved " ++ ("LOOP" ++ toString s.lp.file_counterb ++ ".BIN")) 1500],
            by simp only [List.append_assoc, List.singleton_append, List.cons_append,
              List.nil_append], ?_, rfl, Or.inl ⟨not_lt.mp hc, rfl, ?_⟩⟩
          · simp [List.filterMap_append, hw, wavCreated]
          · simp [List.filterMap_append, hb, binCreated, binName]
        · rw [if_neg hok]
          dsimp only
          rw [h1]
          have hbad : ∃ i, m.write_ok i = false := by
            by_contra hall
            have hall' : ∀ i, m.write_ok i = true := by
              intro i
              by_contra hi
              exact hall ⟨i, by simpa using hi⟩
            exact hok (saveBinLoop_faithful m hall' s.lp.buf s.lp.mod _ 0 [] _ rfl (le_refl 0)
              (not_le.mp hm).le rfl (by intro k hk; simp at hk)).1
          refine ⟨[Ev.ShowMessage "Creating BIN..." 800,
              Ev.f_create ("LOOP" ++ toString s.lp.file_counterb ++ ".BIN")] ++ ext,
            by simp only [List.append_assoc, List.singleton_append, List.cons_append,
              List.nil_append], ?_, rfl, Or.inr (Or.inl ⟨not_lt.mp hc, hbad, rfl, ?_⟩)⟩
          · simp [List.filterMap_append, hw, wavCreated]
          · simp [List.filterMap_append, hb, binCreated, binName]
      · rw [if_neg ho]
        exact ⟨[Ev.ShowMessage "Creating BIN..." 800, Ev.ShowMessage "Create failed" 1200],
          by simp, rfl, rfl, Or.inr (Or.inr ⟨rfl, rfl⟩)⟩

/-- One save request keeps the bookkeeping of the file indices. -/
theorem saveRequest_capInv (r : SaveRequest) (s : Sys) (h : capInv s) :
    capInv (saveRequest r s) := by
  obtain ⟨h1, h2, h3, h4, h5, h6⟩ := h
  unfold saveRequest
  dsimp only
  cases hw : r.wav
  · -- BIN
    rw [if_neg (by simp)]
    obtain ⟨ext, e1, e2, e3, e4⟩ := SaveBufferToBinary_step r.medium
      { s with lp := { r.engine with file_counter := s.lp.file_counter,
                                     file_counterb := s.lp.file_counterb } }
    dsimp only at e1 e2 e3 e4
    refine ⟨by rw [e3]; exact h1, by rw [e3]; exact h2, ?_, ?_, ?_, ?_⟩
    · rw [e1, e3, List.filterMap_append, e2, List.append_nil]; exact h3
    · rcases e4 with ⟨_, e5, _⟩ | ⟨_, _, e5, _⟩ | ⟨e5, _⟩ <;> rw [e5] <;> omega
    · rcases e4 with ⟨hc, e5, _⟩ | ⟨_, _, e5, _⟩ | ⟨e5, _⟩ <;> rw [e5] <;> omega
    · intro name hn
      rw [e1, List.filterMap_append, List.mem_append] at hn
      rcases hn with hn | hn
      · exact h6 name hn
      · rcases e4 with ⟨hc, _, e6⟩ | ⟨hc, _, _, e6⟩ | ⟨_, e6⟩
        · rw [e6, List.mem_singleton] at hn
          exact ⟨s.lp.file_counterb, h4, hc, hn⟩
        · rw [e6, List.mem_singleton] at hn
          exact ⟨s.lp.file_counterb, h4, hc, hn⟩
        · rw [e6] at hn
          simp at hn
  · -- WAV
    rw [if_pos rfl]
    obtain ⟨ext, e1, e2, e3, e4⟩ := SaveBufferToWav_step
      { s with lp := { r.engine with file_counter := s.lp.file_counter,
                                     file_counterb := s.lp.file_counterb } }
    dsimp only at e1 e2 e3 e4
    refine ⟨?_, ?_, ?_, by rw [e3]; exact h4, by rw [e3]; exact h5, ?_⟩
    · rcases e4 with ⟨_, e5, _⟩ | ⟨e5, _⟩ <;> rw [e5] <;> omega
    · rcases e4 with ⟨_, e5, _⟩ | ⟨e5, _⟩ <;> rw [e5] <;> omega
    · rcases e4 with ⟨hc, e5, e6⟩ | ⟨e5, e6⟩
      · rw [e1, e5, List.filterMap_append, e6, h3]
        have hk : (s.lp.file_counter + 1 - 1).toNat = (s.lp.file_counter - 1).toNat + 1 := by
          omega
        rw [hk, names_succ]
        congr 3
        omega
      · rw [e1, e5, List.filterMap_append, e6, List.append_nil]; exact h3
    · intro name hn
      rw [e1, List.filterMap_append, e2, List.append_nil] at hn
      exact h6 name hn

/-- Every sequence of save requests keeps the bookkeeping of the file
indices. -/
theorem saveRequests_capInv (rs : List SaveRequest) :
    ∀ s : Sys, capInv s → capInv (saveRequests rs s) := by
  induction rs with
  | nil => intro s h; exact h
  | cons r rs ih =>
    intro s h
    exact ih _ (saveRequest_capInv r s h)

/-- While no write fails, the BIN files created are exactly `LOOP1.BIN ..
LOOP<file_counterb - 1>.BIN`, in this order. -/
theorem saveRequests_bin_exact (rs : List SaveRequest) :
    ∀ s : Sys, 1 ≤ s.lp.file_counterb →
      s.log.filterMap binCreated = names binName (s.lp.file_counterb - 1).toNat →
      (∀ q ∈ rs, ∀ i, q.medium.write_ok i = true) →
      (saveRequests rs s).log.filterMap binCreated
        = names binName ((saveRequests rs s).lp.file_counterb - 1).toNat := by
  induction rs with
  | nil => intro s _ h _; exact h
  | cons r rs ih =>
    intro s h4 h hq
    have hr := hq r (List.mem_cons_self _ _)
    have hstep : 1 ≤ (saveRequest r s).lp.file_counterb
        ∧ (saveRequest r s).log.filterMap binCreated
          = names binName ((saveRequest r s).lp.file_counterb - 1).toNat := by
      unfold saveRequest
      dsimp only
      cases hw : r.wav
      · rw [if_neg (by simp)]
        obtain ⟨ext, e1, _, _, e4⟩ := SaveBufferToBinary_step r.medium
          { s with lp := { r.engine with file_counter := s.lp.file_counter,
                                         file_counterb := s.lp.file_counterb } }
        dsimp only at e1 e4
        rcases e4 with ⟨hc, e5, e6⟩ | ⟨_, ⟨i, hi⟩, _, _⟩ | ⟨e5, e6⟩
        · refine ⟨by rw [e5]; omega, ?_⟩
          rw [e1, e5, List.filterMap_append, e6, h]
          have hk : (s.lp.file_counterb + 1 - 1).toNat
              = (s.lp.file_counterb - 1).toNat + 1 := by omega
          rw [hk, names_succ]
          congr 3
          omega
        · rw [hr i] at hi
          cases hi
        · refine ⟨by rw [e5]; exact h4, ?_⟩
          rw [e1, e5, List.filterMap_append, e6, List.append_nil]; exact h
      · rw [if_pos rfl]
        obtain ⟨ext, e1, e2, e3, _⟩ := SaveBufferToWav_step
          { s with lp := { r.engine with file_counter := s.lp.file_counter,
                                         file_counterb := s.lp.file_counterb } }
        dsimp only at e1 e2 e3
        refine ⟨by rw [e3]; exact h4, ?_⟩
        rw [e1, e3, List.filterMap_append, e2, List.append_nil]; exact h
    exact ih _ hstep.1 hstep.2 (fun q hq' => hq q (List.mem_cons_of_mem _ hq'))

theorem session_capInv (disk : String → Option (List Nat)) : capInv (session disk) := by
  have h1 : (session disk).lp.file_counter = 1 := rfl
  have h2 : (session disk).lp.file_counterb = 1 := rfl
  have h3 : (session disk).log = [] := rfl
  unfold capInv
  rw [h1, h2, h3]
  refine ⟨by decide, by decide, rfl, by decide, by decide, ?_⟩
  intro name hn
  simp at hn

/-- C10 (per-session file cap). Over every sequence of save requests of a
session, whatever the loop engine and the medium do in between: both file
indices stay between 1 and 11; the WAV files created are `LOOP1.WAV,
LOOP2.WAV, ...` in this order, one per completed save, up to `LOOP10.WAV`;
every BIN file created is a `LOOP<n>.BIN` with `1 <= n <= 10`, and they are
`LOOP1.BIN, LOOP2.BIN, ...` in this order when no write fails. A save with the
index of its format above 10 only shows "Max files (10)": no file is created
or written and the looper globals, both indices included, are unchanged. A
save with `mod == 0` is rejected in the same way, with the notice "No data"
(or "Max files (10)" when the index is above 10 as well, that test coming
first). -/
theorem C10_file_cap :
    (∀ (disk : String → Option (List Nat)) (rs : List SaveRequest),
      1 ≤ (saveRequests rs (session disk)).lp.file_counter
      ∧ (saveRequests rs (session disk)).lp.file_counter ≤ 11
      ∧ (saveRequests rs (session disk)).log.filterMap wavCreated
          = names wavName ((saveRequests rs (session disk)).lp.file_counter - 1).toNat
      ∧ 1 ≤ (saveRequests rs (session disk)).lp.file_counterb
      ∧ (saveRequests rs (session disk)).lp.file_counterb ≤ 11
      ∧ (∀ name ∈ (saveRequests rs (session disk)).log.filterMap binCreated,
          ∃ n : Int, 1 ≤ n ∧ n ≤ 10 ∧ name = binName n)
      ∧ ((∀ q ∈ rs, ∀ i, q.medium.write_ok i = true) →
          (saveRequests rs (session disk)).log.filterMap binCreated
            = names binName ((saveRequests rs (session disk)).lp.file_counterb - 1).toNat))
    ∧ (∀ s : Sys, 10 < s.lp.file_counter →
        SaveBufferToWav s = { s with log := s.log ++ [maxFilesNotice] })
    ∧ (∀ (m : Medium) (s : Sys), 10 < s.lp.file_counterb →
        SaveBufferToBinary m s = { s with log := s.log ++ [maxFilesNotice] })
    ∧ (∀ s : Sys, s.lp.mod = 0 →
        SaveBufferToWav s = { s with log := s.log ++
          [if 10 < s.lp.file_counter then maxFilesNotice else noDataNotice] })
    ∧ (∀ (m : Medium) (s : Sys), s.lp.mod = 0 →
        SaveBufferToBinary m s = { s with log := s.log ++
          [if 10 < s.lp.file_counterb then maxFilesNotice else noDataNotice] }) := by
  refine ⟨?_, ?_, ?_, ?_, ?_⟩
  · intro disk rs
    obtain ⟨h1, h2, h3, h4, h5, h6⟩ := saveRequests_capInv rs _ (session_capInv disk)
    refine ⟨h1, h2, h3, h4, h5, h6, ?_⟩
    intro hq
    exact saveRequests_bin_exact rs (session disk) (session_capInv disk).2.2.2.1 rfl hq
  · intro s hc
    unfold SaveBufferToWav maxFilesNotice
    rw [if_pos hc]
  · intro m s hc
    unfold SaveBufferToBinary maxFilesNotice
    rw [if_pos hc]
  · intro s hm
    unfold SaveBufferToWav maxFilesNotice noDataNotice
    by_cases hc : 10 < s.lp.file_counter
    · rw [if_pos hc, if_pos hc]
    · rw [if_neg hc, if_neg hc, if_pos (by rw [hm])]
  · intro m s hm
    unfold SaveBufferToBinary maxFilesNotice noDataNotice
    by_cases hc : 10 < s.lp.file_counterb
    · rw [if_pos hc, if_pos hc]
    · rw [if_neg hc, if_neg hc, if_pos (by rw [hm])]

/-- C10 at a session whose WAV index is 11: the save only shows the notice. -/
theorem C10_file_cap_witness :
    SaveBufferToWav cappedSys = { cappedSys with log := cappedSys.log ++ [maxFilesNotice] } :=
  C10_file_cap.2.1 cappedSys (by decide)

/-! ### The provisional length of a finalized loop -/

/-- The save functions change nothing of the looper globals but their own
index. -/
theorem save_transport (m : Medium) (s : Sys) :
    ((SaveBufferToWav s).lp.first = s.lp.first ∧ (SaveBufferToWav s).lp.len = s.lp.len)
    ∧ ((SaveBufferToBinary m s).lp.first = s.lp.first
      ∧ (SaveBufferToBinary m s).lp.len = s.lp.len) := by
  constructor
  · unfold SaveBufferToWav
    split
    · exact ⟨rfl, rfl⟩
    · split <;> exact ⟨rfl, rfl⟩
  · unfold SaveBufferToBinary
    split
    · exact ⟨rfl, rfl⟩
    · split
      · exact ⟨rfl, rfl⟩
      · dsimp only
        split
        · split <;> exact ⟨rfl, rfl⟩
        · exact ⟨rfl, rfl⟩

/-- In every reachable state a finalized loop has provisional length 0. -/
theorem Reachable_finalized_len (s : Looper) (h : Reachable s) : s.first = false → s.len = 0 := by
  induction h with
  | start => intro hf; simp [ResetBuffer] at hf
  | buttons b s _ ih =>
    intro hf
    unfold UpdateButtons at hf ⊢
    dsimp only at hf ⊢
    split_ifs at hf ⊢ <;> simp_all [ResetBuffer]
  | reset s _ _ => intro hf; simp [ResetBuffer] at hf
  | tick s s1 x out _ hstep ih =>
    intro hf
    unfold NextSamples at hstep
    cases hr : s.rec_ <;> cases hp : s.play <;> cases hfirst : s.first <;>
      by_cases hl : MAX_SIZE ≤ s.len <;> by_cases hl1 : MAX_SIZE ≤ s.len + 1 <;>
      by_cases hm : s.mod = 0 <;>
      simp [WriteBuffer, hr, hp, hfirst, hl, hl1, hm, ne_of_gt MAX_SIZE_pos] at hstep <;>
      (try obtain ⟨hs1, _⟩ := hstep) <;>
      (try subst hs1) <;>
      simp_all
  | load m filename disk log s _ ih =>
    intro hf
    cases ho : m.open_ok filename
    · have := (LoadBinaryFile_not_opened m filename { lp := s, disk := disk, log := log } (Or.inl ho))
      rw [this] at hf ⊢
      exact ih hf
    · cases hd : disk filename with
      | none =>
        have := (LoadBinaryFile_not_opened m filename { lp := s, disk := disk, log := log } (Or.inr hd))
        rw [this] at hf ⊢
        exact ih hf
      | some data =>
        obtain ⟨_, _, _, _, _, _, _, _, _, h9, _⟩ :=
          LoadBinaryFile_result m filename { lp := s, disk := disk, log := log } data ho hd
        exact h9
  | saveWav disk log s _ ih =>
    intro hf
    obtain ⟨⟨h1, h2⟩, _⟩ := save_transport faithful { lp := s, disk := disk, log := log }
    rw [h1] at hf
    rw [h2]
    exact ih hf
  | saveBin m disk log s _ ih =>
    intro hf
    obtain ⟨_, ⟨h1, h2⟩⟩ := save_transport m { lp := s, disk := disk, log := log }
    rw [h1] at hf
    rw [h2]
    exact ih hf

/-! ### Button presses -/

/-- C11 (record-button rising edge): for every state and every button reading
with a rising edge on button 2 alone (button 2 was just pressed, so it has not
been held for a second), `UpdateButtons` sets `play`, flips `rec`, and leaves
`pos` and the buffer alone; when the engine was capturing and recording
(`first && rec`) it finalizes the first take (`first = false`, `mod = len`,
`len = 0`), and in every other state `first`, `mod` and `len` are unchanged. -/
theorem C11_record_press (b : Buttons) (s : Looper) (h2 : b.b2_rising = true)
    (h1 : b.b1_rising = false) (hheld : b.b2_held_ms < 1000) :
    (UpdateButtons b s).play = true
    ∧ (UpdateButtons b s).rec_ = !s.rec_
    ∧ (UpdateButtons b s).pos = s.pos
    ∧ (UpdateButtons b s).buf = s.buf
    ∧ (s.first = true ∧ s.rec_ = true →
        (UpdateButtons b s).first = false ∧ (UpdateButtons b s).mod = s.len
        ∧ (UpdateButtons b s).len = 0)
    ∧ (¬ (s.first = true ∧ s.rec_ = true) →
        (UpdateButtons b s).first = s.first ∧ (UpdateButtons b s).mod = s.mod
        ∧ (UpdateButtons b s).len = s.len)
    ∧ ((UpdateButtons b s).first ≠ s.first → s.first = true ∧ s.rec_ = true) := by
  have hno : ¬ (1000 ≤ b.b1_held_ms ∧ 1000 ≤ b.b2_held_ms) := by
    intro h; omega
  unfold UpdateButtons
  cases hf : s.first <;> cases hr : s.rec_ <;> simp [h1, h2, hno, hf, hr]

/-- C11 on a running first take of three samples: the press finalizes it. -/
theorem C11_record_press_witness :
    (UpdateButtons recordPress runningTake).first = false
    ∧ (UpdateButtons recordPress runningTake).mod = runningTake.len
    ∧ (UpdateButtons recordPress runningTake).len = 0 :=
  (C11_record_press recordPress runningTake rfl rfl (by decide)).2.2.2.2.1 ⟨rfl, rfl⟩

/-- C12 fails as stated: on a first take of three samples (`len = 3 > 0`) that
is not recording, the play press changes nothing; `play` is not flipped. Such a
state is reached by `ResetBuffer`, a record press, three ticks and a play
press. -/
theorem C12_paused_take_ignores_play :
    pausedTake.first = true ∧ 0 < pausedTake.len ∧ pausedTake.rec_ = false
    ∧ (UpdateButtons playPress pausedTake).play = pausedTake.play
    ∧ (UpdateButtons playPress pausedTake).play ≠ !pausedTake.play
    ∧ ∃ s, Reachable s ∧ s.first = true ∧ s.len = 3 ∧ s.rec_ = false
        ∧ UpdateButtons playPress s = s := by
  refine ⟨rfl, by decide, rfl, ?_, ?_, ?_⟩
  · simp [UpdateButtons, playPress, pausedTake, boot]
  · simp [UpdateButtons, playPress, pausedTake, boot]
  · obtain ⟨hf, hr, hp, hm, hpos, hl⟩ := recordPress_after_reset boot
    obtain ⟨s3, hs3, hf3, hr3, hp3, _, _, hl3⟩ :=
      ticks_first_take (fun _ => 0) 3 0 _ hf hr hp hm (by rw [hpos, hl]) (by rw [hl])
        (by rw [hl]; decide)
    rw [hl] at hl3
    have hreach : Reachable (UpdateButtons playPress s3) :=
      Reachable.buttons _ _ (ticks_reachable _ 3 0 _ s3
        (Reachable.buttons _ _ Reachable.start) hs3)
    refine ⟨UpdateButtons playPress s3, hreach, ?_, ?_, ?_, ?_⟩
    · simp [UpdateButtons, playPress, hf3, hr3]
    · simp [UpdateButtons, playPress, hf3, hr3, hl3]
    · simp [UpdateButtons, playPress, hf3, hr3]
    · simp [UpdateButtons, playPress, hf3, hr3]

/-- C12 as amended (play-button rising edge): for every state and every
button reading with a rising edge on button 1 alone and no hold-reset gesture,
`UpdateButtons` changes nothing exactly when the first take is not finalized
and the engine is not recording (`first && !rec`, whatever the provisional
length); in every other state it flips `play`, clears `rec` and leaves `first`,
`mod`, `len`, `pos` and the buffer unchanged. -/
theorem C12_play_press (b : Buttons) (s : Looper) (h1 : b.b1_rising = true)
    (h2 : b.b2_rising = false)
    (hheld : ¬ (b.b1_held_ms ≥ 1000 ∧ b.b2_held_ms ≥ 1000 ∧ s.play = true)) :
    (s.first = true ∧ s.rec_ = false → UpdateButtons b s = s)
    ∧ (¬ (s.first = true ∧ s.rec_ = false) →
        (UpdateButtons b s).play = !s.play
        ∧ (UpdateButtons b s).rec_ = false
        ∧ (UpdateButtons b s).first = s.first
        ∧ (UpdateButtons b s).mod = s.mod
        ∧ (UpdateButtons b s).len = s.len
        ∧ (UpdateButtons b s).pos = s.pos
        ∧ (UpdateButtons b s).buf = s.buf)
    ∧ (UpdateButtons b s = s → s.first = true ∧ s.rec_ = false) := by
  unfold UpdateButtons
  simp only [h2, Bool.false_eq_true, if_false, hheld]
  cases hf : s.first <;> cases hr : s.rec_ <;> simp [h1, hf, hr]
  all_goals
    intro h
    have := congrArg Looper.play h
    cases hp : s.play <;> simp [hp] at this

/-- C12 as amended, on a finalized paused loop: the press starts playback. -/
theorem C12_play_press_witness :
    (UpdateButtons playPress { boot with first := false, mod := 4 }).play = true
    ∧ (UpdateButtons playPress { boot with first := false, mod := 4 }).rec_ = false :=
  ⟨((C12_play_press playPress { boot with first := false, mod := 4 } rfl rfl
      (by simp [playPress])).2.1 (by simp)).1,
   ((C12_play_press playPress { boot with first := false, mod := 4 } rfl rfl
      (by simp [playPress])).2.1 (by simp)).2.1⟩

/-! ### Menu: cyclic selection -/

theorem wrap32_eq (x : Int) (h0 : -2147483648 ≤ x) (h1 : x < 2147483648) : wrap32 x = x := by
  unfold wrap32
  omega

/-- While `index + inc + count` is not negative and nothing overflows, the
index update is the mathematical `(index + inc) mod count`. -/
theorem rotate_eq_emod (index inc count : Int) (hc : 0 < count) (hc1 : count ≤ 2147483647)
    (h0 : 0 ≤ index + inc + count) (h1 : index + inc + count < 2147483648) :
    rotate index inc count = (index + inc) % count := by
  unfold rotate
  rw [wrap32_eq (index + inc) (by omega) (by omega), wrap32_eq _ (by omega) h1,
    Int.tmod_eq_emod h0 hc.le, Int.add_emod_self]

/-- The main-menu index after a poll. -/
theorem HandleMenu_main_index (env : MenuEnv) (inc : Int) (pressed : Bool) (a : App)
    (h : a.ui.in_submenu = false) :
    (HandleMenu env inc pressed a).ui.current_menu_index
      = afterDelta a.ui.current_menu_index inc menu_count := by
  unfold HandleMenu afterDelta
  simp only [h, Bool.not_false, if_true]
  cases pressed <;> by_cases hi : inc = 0 <;> simp [hi, logDrawMenu] <;> split <;> rfl

/-- The sub-menu index after a poll. -/
theorem HandleMenu_sub_index (env : MenuEnv) (inc : Int) (pressed : Bool) (a : App)
    (h : a.ui.in_submenu = true) (hf : a.ui.in_file_selection = false) :
    (HandleMenu env inc pressed a).ui.current_submenu_index
      = afterDelta a.ui.current_submenu_index inc sub_menu_count := by
  unfold HandleMenu afterDelta
  simp only [h, hf, Bool.not_true, Bool.not_false, Bool.false_eq_true, if_true, if_false]
  cases pressed <;> by_cases hi : inc = 0 <;>
    simp [hi, logDrawMenu, ShowMessage, ListBinaryFiles] <;>
    (repeat' split) <;> rfl

/-- The selected file index after a poll. -/
theorem HandleMenu_file_index (env : MenuEnv) (inc : Int) (pressed : Bool) (a : App)
    (h : a.ui.in_submenu = true) (hf : a.ui.in_file_selection = true)
    (hc : 0 < a.ui.file_count) :
    (HandleMenu env inc pressed a).ui.selected_file_index
      = afterDelta a.ui.selected_file_index inc a.ui.file_count := by
  unfold HandleMenu afterDelta
  simp only [h, hf, Bool.not_true, Bool.false_eq_true, if_false]
  rw [if_pos (by simpa using hc)]
  cases pressed <;> by_cases hi : inc = 0 <;> simp [hi, logDrawMenu, ShowMessage]

/-- C13 (cyclic selection at the edges): in the main menu and in the sub-menu
(3 entries each) and in the file selection (`file_count` entries, at least 1
and at most `max_files`), a poll with delta -1 from index 0 leaves the index at
`N - 1`, and a poll with delta +1 from index `N - 1` leaves it at 0, whether or
not the encoder is pressed in the same poll. -/
theorem C13_cyclic_edges (env : MenuEnv) (pressed : Bool) (a : App) :
    (a.ui.in_submenu = false →
      (a.ui.current_menu_index = 0 →
        (HandleMenu env (-1) pressed a).ui.current_menu_index = menu_count - 1)
      ∧ (a.ui.current_menu_index = menu_count - 1 →
        (HandleMenu env 1 pressed a).ui.current_menu_index = 0))
    ∧ (a.ui.in_submenu = true → a.ui.in_file_selection = false →
      (a.ui.current_submenu_index = 0 →
        (HandleMenu env (-1) pressed a).ui.current_submenu_index = sub_menu_count - 1)
      ∧ (a.ui.current_submenu_index = sub_menu_count - 1 →
        (HandleMenu env 1 pressed a).ui.current_submenu_index = 0))
    ∧ (a.ui.in_submenu = true → a.ui.in_file_selection = true →
      1 ≤ a.ui.file_count → a.ui.file_count ≤ max_files →
      (a.ui.selected_file_index = 0 →
        (HandleMenu env (-1) pressed a).ui.selected_file_index = a.ui.file_count - 1)
      ∧ (a.ui.selected_file_index = a.ui.file_count - 1 →
        (HandleMenu env 1 pressed a).ui.selected_file_index = 0)) := by
  refine ⟨?_, ?_, ?_⟩
  · intro h
    constructor
    · intro hi
      rw [HandleMenu_main_index env _ pressed a h, hi]
      decide
    · intro hi
      rw [HandleMenu_main_index env _ pressed a h, hi]
      decide
  · intro h hf
    constructor
    · intro hi
      rw [HandleMenu_sub_index env _ pressed a h hf, hi]
      decide
    · intro hi
      rw [HandleMenu_sub_index env _ pressed a h hf, hi]
      decide
  · intro h hf h1 h10
    have hmax : max_files = 10 := rfl
    constructor
    · intro hi
      rw [HandleMenu_file_index env _ pressed a h hf (by omega), hi]
      unfold afterDelta
      rw [if_pos (by decide), rotate_eq_emod _ _ _ (by omega) (by omega) (by omega) (by omega)]
      have : (0 + -1 : Int) = (a.ui.file_count - 1) + (-1) * a.ui.file_count := by ring
      rw [this, Int.add_mul_emod_self, Int.emod_eq_of_lt (by omega) (by omega)]
    · intro hi
      rw [HandleMenu_file_index env _ pressed a h hf (by omega), hi]
      unfold afterDelta
      rw [if_pos (by decide), rotate_eq_emod _ _ _ (by omega) (by omega) (by omega) (by omega)]
      have : a.ui.file_count - 1 + 1 = a.ui.file_count := by ring
      rw [this, Int.emod_self]

/-- C13 on the menu as constructed: delta -1 from the first main entry selects
the last one. -/
theorem C13_cyclic_edges_witness :
    (HandleMenu noDirEnv (-1) false appInit).ui.current_menu_index = menu_count - 1 :=
  (C13_cyclic_edges noDirEnv false appInit).1 rfl |>.1 rfl

/-- C14 fails as stated: in the main menu (3 entries), delta -4 from index 0
leaves the index at -1, outside `0 .. 2`, where `(0 + -4) mod 3` is 2. -/
theorem C14_large_negative_delta :
    (HandleMenu noDirEnv (-4) false appInit).ui.current_menu_index = -1
    ∧ ((0 : Int) + -4) % menu_count = 2
    ∧ ¬ (0 ≤ (HandleMenu noDirEnv (-4) false appInit).ui.current_menu_index) := by
  have h : (HandleMenu noDirEnv (-4) false appInit).ui.current_menu_index = -1 := by
    rw [HandleMenu_main_index noDirEnv _ false appInit rfl]
    decide
  refine ⟨h, by decide, ?_⟩
  rw [h]
  decide

/-- C14 as amended: in every menu level with `N` entries (3 in the main menu
and in the sub-menu, `file_count` with `1 <= file_count <= max_files` in the
file selection), for every index `i` with `0 <= i < N` and every delta with
`0 <= i + delta + N` and `i + delta + N < 2^31` (which includes the deltas
-1, 0 and +1), a poll leaves the selected index of the level at the
mathematical `(i + delta) mod N`, inside `0 .. N - 1`. -/
theorem C14_index_wraps (env : MenuEnv) (inc : Int) (pressed : Bool) (a : App) :
    (a.ui.in_submenu = false →
      0 ≤ a.ui.current_menu_index → a.ui.current_menu_index < menu_count →
      0 ≤ a.ui.current_menu_index + inc + menu_count →
      a.ui.current_menu_index + inc + menu_count < 2147483648 →
      (HandleMenu env inc pressed a).ui.current_menu_index
          = (a.ui.current_menu_index + inc) % menu_count
      ∧ 0 ≤ (HandleMenu env inc pressed a).ui.current_menu_index
      ∧ (HandleMenu env inc pressed a).ui.current_menu_index < menu_count)
    ∧ (a.ui.in_submenu = true → a.ui.in_file_selection = false →
      0 ≤ a.ui.current_submenu_index → a.ui.current_submenu_index < sub_menu_count →
      0 ≤ a.ui.current_submenu_index + inc + sub_menu_count →
      a.ui.current_submenu_index + inc + sub_menu_count < 2147483648 →
      (HandleMenu env inc pressed a).ui.current_submenu_index
          = (a.ui.current_submenu_index + inc) % sub_menu_count
      ∧ 0 ≤ (HandleMenu env inc pressed a).ui.current_submenu_index
      ∧ (HandleMenu env inc pressed a).ui.current_submenu_index < sub_menu_count)
    ∧ (a.ui.in_submenu = true → a.ui.in_file_selection = true →
      1 ≤ a.ui.file_count → a.ui.file_count ≤ max_files →
      0 ≤ a.ui.selected_file_index → a.ui.selected_file_index < a.ui.file_count →
      0 ≤ a.ui.selected_file_index + inc + a.ui.file_count →
      a.ui.selected_file_index + inc + a.ui.file_count < 2147483648 →
      (HandleMenu env inc pressed a).ui.selected_file_index
          = (a.ui.selected_file_index + inc) % a.ui.file_count
      ∧ 0 ≤ (HandleMenu env inc pressed a).ui.selected_file_index
      ∧ (HandleMenu env inc pressed a).ui.selected_file_index < a.ui.file_count) := by
  have key : ∀ i N : Int, 0 < N → N ≤ 2147483647 → 0 ≤ i → i < N → 0 ≤ i + inc + N →
      i + inc + N < 2147483648 →
      afterDelta i inc N = (i + inc) % N ∧ 0 ≤ afterDelta i inc N ∧ afterDelta i inc N < N := by
    intro i N hN hN1 hi0 hi1 h0 h1
    have he : afterDelta i inc N = (i + inc) % N := by
      unfold afterDelta
      by_cases hz : inc = 0
      · rw [if_neg (by simpa using hz), hz, add_zero, Int.emod_eq_of_lt hi0 hi1]
      · rw [if_pos hz, rotate_eq_emod i inc N hN hN1 h0 h1]
    rw [he]
    exact ⟨rfl, Int.emod_nonneg _ (ne_of_gt hN), Int.emod_lt_of_pos _ hN⟩
  refine ⟨?_, ?_, ?_⟩
  · intro h hi0 hi1 h0 h1
    rw [HandleMenu_main_index env inc pressed a h]
    exact key _ _ (by decide) (by decide) hi0 hi1 h0 h1
  · intro h hf hi0 hi1 h0 h1
    rw [HandleMenu_sub_index env inc pressed a h hf]
    exact key _ _ (by decide) (by decide) hi0 hi1 h0 h1
  · intro h hf hc1 hc10 hi0 hi1 h0 h1
    have hmax : max_files = 10 := rfl
    rw [HandleMenu_file_index env inc pressed a h hf (by omega)]
    exact key _ _ (by omega) (by omega) hi0 hi1 h0 h1

/-- C14 as amended, on the menu as constructed with delta -1: the index is
`(0 - 1) mod 3`. -/
theorem C14_index_wraps_witness :
    (HandleMenu noDirEnv (-1) false appInit).ui.current_menu_index
        = (appInit.ui.current_menu_index + -1) % menu_count
    ∧ 0 ≤ (HandleMenu noDirEnv (-1) false appInit).ui.current_menu_index
    ∧ (HandleMenu noDirEnv (-1) false appInit).ui.current_menu_index < menu_count :=
  (C14_index_wraps noDirEnv (-1) false appInit).1 rfl (by decide) (by decide) (by decide)
    (by decide)

/-! ### Menu: recall and file selection -/

/-- A name of at most 63 characters is copied whole. -/
theorem strncpy63_short (fname : String) (h : fname.toList.length ≤ 63) :
    strncpy63 fname = fname := by
  unfold strncpy63
  rw [List.take_of_length_le h]
  cases fname
  rfl

/-- `ListBinaryFiles` touches the name cells and the count only. -/
theorem ListBinaryFiles_eq (dir : Option (List String)) (m : OledManager) :
    ListBinaryFiles dir m
      = { m with file_list := (scanResult dir m.file_list).1,
                 file_count := (scanResult dir m.file_list).2 } := by
  unfold ListBinaryFiles scanResult
  cases dir <;> rfl

/-- C15 (recall and file-selection transitions). In the sub-menu, a press
with "Recall" selected (index 1 after the delta of the same poll) rescans the
catalog; when the new catalog is not empty the menu moves to the file
selection with file index 0, and otherwise it shows "No Binary Files Found"
and returns to the main menu. In the file selection (catalog not empty), a
press shows "Loading...", runs `LoadBinaryFile` once on the catalog entry at
the selected index, taken after the delta of the same poll (cut to 63
characters, which leaves an entry of at most 63 characters as it is), shows
"Loaded!" and returns to the main menu with `in_file_selection` and
`in_submenu` both cleared, whatever the medium does during the load. -/
theorem C15_recall_and_select (env : MenuEnv) (inc : Int) (a : App) :
    (a.ui.in_submenu = true → a.ui.in_file_selection = false →
      afterDelta a.ui.current_submenu_index inc sub_menu_count = 1 →
      (HandleMenu env inc true a).ui.file_list
          = (ListBinaryFiles env.dir a.ui).file_list
      ∧ (HandleMenu env inc true a).ui.file_count
          = (ListBinaryFiles env.dir a.ui).file_count
      ∧ (0 < (ListBinaryFiles env.dir a.ui).file_count →
          (HandleMenu env inc true a).ui.in_submenu = true
          ∧ (HandleMenu env inc true a).ui.in_file_selection = true
          ∧ (HandleMenu env inc true a).ui.selected_file_index = 0
          ∧ (HandleMenu env inc true a).sys.log
              = logAfterDelta inc a.sys.log ++ [Ev.DrawMenu])
      ∧ (¬ 0 < (ListBinaryFiles env.dir a.ui).file_count →
          (HandleMenu env inc true a).ui.in_submenu = false
          ∧ (HandleMenu env inc true a).ui.in_file_selection = false
          ∧ (HandleMenu env inc true a).sys.log
              = logAfterDelta inc a.sys.log
                ++ [Ev.ShowMessage "No Binary Files Found" 1500, Ev.DrawMenu])
      ∧ (HandleMenu env inc true a).sys.lp = a.sys.lp
      ∧ (HandleMenu env inc true a).sys.disk = a.sys.disk)
    ∧ (a.ui.in_submenu = true → a.ui.in_file_selection = true → 0 < a.ui.file_count →
      (HandleMenu env inc true a).ui.in_file_selection = false
      ∧ (HandleMenu env inc true a).ui.in_submenu = false
      ∧ (HandleMenu env inc true a).ui.selected_file_index
          = afterDelta a.ui.selected_file_index inc a.ui.file_count
      ∧ (HandleMenu env inc true a).sys
          = { LoadBinaryFile env.medium
                (strncpy63 (a.ui.file_list
                  (afterDelta a.ui.selected_file_index inc a.ui.file_count)))
                { a.sys with log := logAfterDelta inc a.sys.log
                    ++ [Ev.ShowMessage "Loading..." 1000] } with
              log := (LoadBinaryFile env.medium
                (strncpy63 (a.ui.file_list
                  (afterDelta a.ui.selected_file_index inc a.ui.file_count)))
                { a.sys with log := logAfterDelta inc a.sys.log
                    ++ [Ev.ShowMessage "Loading..." 1000] }).log
                ++ [Ev.ShowMessage "Loaded!" 1000, Ev.DrawMenu] }
      ∧ ((a.ui.file_list
            (afterDelta a.ui.selected_file_index inc a.ui.file_count)).toList.length ≤ 63 →
          strncpy63 (a.ui.file_list
            (afterDelta a.ui.selected_file_index inc a.ui.file_count))
          = a.ui.file_list (afterDelta a.ui.selected_file_index inc a.ui.file_count))) := by
  constructor
  · intro h hf h1
    unfold HandleMenu afterDelta logAfterDelta at *
    simp only [h, hf, Bool.not_true, Bool.not_false, Bool.false_eq_true, if_true, if_false,
      ListBinaryFiles_eq]
    have h10 : ¬ ((1 : Int) = 0) := by decide
    by_cases hi : inc = 0
    · simp only [hi, ne_eq, not_true_eq_false, if_false] at h1 ⊢
      by_cases hc : 0 < (scanResult env.dir a.ui.file_list).2
      · simp [h, hf, h1, h10, hc, logDrawMenu, ShowMessage]
      · simp [h, hf, h1, h10, hc, logDrawMenu, ShowMessage]
    · simp only [hi, ne_eq, not_false_eq_true, if_true] at h1 ⊢
      by_cases hc : 0 < (scanResult env.dir a.ui.file_list).2
      · simp [h, hf, h1, h10, hc, logDrawMenu, ShowMessage]
      · simp [h, hf, h1, h10, hc, logDrawMenu, ShowMessage]
  · intro h hf hc
    refine ⟨?_, ?_, HandleMenu_file_index env inc true a h hf hc, ?_, strncpy63_short _⟩
    · unfold HandleMenu
      simp only [h, hf, Bool.not_true, Bool.false_eq_true, if_false]
      rw [if_pos (by simpa using hc)]
      by_cases hi : inc = 0 <;> simp [hi, logDrawMenu, ShowMessage]
    · unfold HandleMenu
      simp only [h, hf, Bool.not_true, Bool.false_eq_true, if_false]
      rw [if_pos (by simpa using hc)]
      by_cases hi : inc = 0 <;> simp [hi, logDrawMenu, ShowMessage]
    · unfold HandleMenu afterDelta logAfterDelta
      simp only [h, hf, Bool.not_true, Bool.false_eq_true, if_false]
      rw [if_pos (by simpa using hc)]
      by_cases hi : inc = 0 <;> simp [hi, logDrawMenu, ShowMessage]

/-- C15 on a file selection over two names with the second one selected: the
press leaves the file selection and the sub-menu. -/
theorem C15_recall_and_select_witness :
    (HandleMenu noDirEnv 0 true fileSelectApp).ui.in_file_selection = false
    ∧ (HandleMenu noDirEnv 0 true fileSelectApp).ui.in_submenu = false :=
  ⟨((C15_recall_and_select noDirEnv 0 fileSelectApp).2 rfl rfl (by decide)).1,
   ((C15_recall_and_select noDirEnv 0 fileSelectApp).2 rfl rfl (by decide)).2.1⟩

/-! ### Menu: rendering -/

theorem drawCount_append (l1 l2 : List Ev) :
    drawCount (l1 ++ l2) = drawCount l1 + drawCount l2 := by
  unfold drawCount
  exact List.count_append _ _ _

/-- The sample loop of `SaveBufferToWav` does not render the menu. -/
theorem saveWavLoop_drawCount (buf : Int → ℚ) (mod : Int) :
    ∀ (d : Nat) (i : Int) (log : List Ev), (mod - i).toNat = d →
      drawCount (saveWavLoop buf mod i log) = drawCount log := by
  intro d
  induction d using Nat.strong_induction_on with
  | _ d ih =>
    intro i log hd
    rw [saveWavLoop]
    by_cases hlt : i < mod
    · rw [if_pos hlt]
      dsimp only
      rw [ih (mod - (i + 1)).toNat (by omega) (i + 1) _ rfl]
      by_cases ha : Int.tmod i 4096 = 0 <;>
        by_cases hb : Int.tmod i (Int.tdiv WAV_TRANSFER_SIZE 4) = 0 <;>
        simp [ha, hb, drawCount]
    · rw [if_neg hlt]

/-- The chunk loop of `SaveBufferToBinary` does not render the menu. -/
theorem saveBinLoop_drawCount (m : Medium) (buf : Int → ℚ) (mod : Int) :
    ∀ (d : Nat) (i : Int) (content : List Nat) (log : List Ev), (mod - i).toNat = d →
      drawCount (saveBinLoop m buf mod i content log).2.2 = drawCount log := by
  intro d
  induction d using Nat.strong_induction_on with
  | _ d ih =>
    intro i content log hd
    rw [saveBinLoop]
    by_cases hlt : i < mod
    · rw [if_pos hlt]
      dsimp only
      by_cases hwr : m.write_ok i = true
      · rw [if_pos hwr, ih (mod - (i + 1024)).toNat (by omega) (i + 1024) _ _ rfl]
        simp [drawCount]
      · rw [if_neg hwr]
        simp [drawCount]
    · rw [if_neg hlt]

/-- `SaveBufferToWav` does not render the menu. -/
theorem SaveBufferToWav_drawCount (s : Sys) :
    drawCount (SaveBufferToWav s).log = drawCount s.log := by
  unfold SaveBufferToWav
  split
  · simp [drawCount]
  · split
    · simp [drawCount]
    · dsimp only
      rw [drawCount_append, saveWavLoop_drawCount _ _ _ 0 _ rfl]
      simp [drawCount]

/-- `SaveBufferToBinary` does not render the menu. -/
theorem SaveBufferToBinary_drawCount (m : Medium) (s : Sys) :
    drawCount (SaveBufferToBinary m s).log = drawCount s.log := by
  unfold SaveBufferToBinary
  split
  · simp [drawCount]
  · split
    · simp [drawCount]
    · dsimp only
      split
      · split
        · dsimp only
          rw [drawCount_append, saveBinLoop_drawCount _ _ _ _ 0 _ _ rfl]
          simp [drawCount]
        · dsimp only
          rw [saveBinLoop_drawCount _ _ _ _ 0 _ _ rfl]
          simp [drawCount]
      · simp [drawCount]

/-- `LoadBinaryFile` does not render the menu. -/
theorem LoadBinaryFile_drawCount (m : Medium) (filename : String) (s : Sys) :
    drawCount (LoadBinaryFile m filename s).log = drawCount s.log := by
  by_cases ho : m.open_ok filename = true
  · cases hd : s.disk filename with
    | none =>
      unfold LoadBinaryFile
      simp [ho, hd, drawCount]
    | some data =>
      obtain ⟨_, _, _, _, _, _, _, _, _, _, _, _, _, _, ext, hlog, hext⟩ :=
        LoadBinaryFile_result m filename s data ho hd
      rw [hlog, drawCount_append]
      have hz : drawCount ext = 0 := by
        unfold drawCount
        rw [List.count_eq_zero]
        intro hmem
        obtain ⟨msg, d, he, _⟩ := hext _ hmem
        cases he
      rw [hz]
      split <;> simp [drawCount]
  · unfold LoadBinaryFile
    simp [ho, drawCount]

theorem drawCount_nil : drawCount [] = 0 := rfl

theorem drawCount_draw (l : List Ev) : drawCount (Ev.DrawMenu :: l) = drawCount l + 1 := by
  simp [drawCount]

theorem drawCount_msg (message : String) (duration_ms : Nat) (l : List Ev) :
    drawCount (Ev.ShowMessage message duration_ms :: l) = drawCount l := by
  simp [drawCount]

/-- C16 fails as stated: in the main menu with the second entry selected, a
poll that delivers delta -1 together with a press moves to the first entry,
renders, enters the sub-menu and renders again: two `DrawMenu()` calls in one
call of `HandleMenu`. -/
theorem C16_two_renders_in_one_poll :
    (HandleMenu noDirEnv (-1) true secondEntryApp).sys.log = [Ev.DrawMenu, Ev.DrawMenu]
    ∧ drawCount (HandleMenu noDirEnv (-1) true secondEntryApp).sys.log
        = drawCount secondEntryApp.sys.log + 2
    ∧ (HandleMenu noDirEnv (-1) true secondEntryApp).ui.current_menu_index = 0
    ∧ (HandleMenu noDirEnv (-1) true secondEntryApp).ui.in_submenu = true := by
  have hrot : rotate 1 (-1) menu_count = 0 := by decide
  have hlog : (HandleMenu noDirEnv (-1) true secondEntryApp).sys.log
      = [Ev.DrawMenu, Ev.DrawMenu] := by
    simp [HandleMenu, secondEntryApp, menuInit, logDrawMenu, hrot, session]
  refine ⟨hlog, ?_, ?_, ?_⟩
  · rw [hlog]; rfl
  · simp [HandleMenu, secondEntryApp, menuInit, logDrawMenu, hrot]
  · simp [HandleMenu, secondEntryApp, menuInit, logDrawMenu, hrot]

/-- The number of renders of one poll. -/
theorem HandleMenu_drawCount (env : MenuEnv) (inc : Int) (pressed : Bool) (a : App) :
    drawCount (HandleMenu env inc pressed a).sys.log
      = drawCount a.sys.log + expectedDraws inc pressed a := by
  unfold HandleMenu expectedDraws deltaDraws afterDelta
  cases hs : a.ui.in_submenu
  · simp only [Bool.not_false, if_true]
    by_cases hi : inc = 0 <;> cases pressed
    · simp [hi]
    · by_cases h0 : a.ui.current_menu_index = 0 <;>
        simp [hi, h0, logDrawMenu, drawCount_append, drawCount_draw, drawCount_nil]
    · simp [hi, logDrawMenu, drawCount_append, drawCount_draw, drawCount_nil]
    · by_cases h0 : rotate a.ui.current_menu_index inc menu_count = 0 <;>
        simp [hi, h0, logDrawMenu, drawCount_append, drawCount_draw, drawCount_nil]
  · simp only [Bool.not_true, Bool.false_eq_true, if_false]
    cases hf : a.ui.in_file_selection
    · simp only [Bool.not_false, if_true]
      by_cases hi : inc = 0 <;> cases pressed
      · simp [hi]
      · simp only [hi, ne_eq, not_true_eq_false, if_false, if_true]
        split_ifs <;>
          simp [logDrawMenu, ShowMessage, drawCount_append, drawCount_draw, drawCount_msg, drawCount_nil,
            SaveBufferToWav_drawCount, SaveBufferToBinary_drawCount]
      · simp [hi, logDrawMenu, drawCount_append, drawCount_draw, drawCount_nil]
      · simp only [hi, ne_eq, not_false_eq_true, if_true]
        split_ifs <;>
          simp [logDrawMenu, ShowMessage, drawCount_append, drawCount_draw, drawCount_msg, drawCount_nil,
            SaveBufferToWav_drawCount, SaveBufferToBinary_drawCount]
    · simp only [Bool.not_true, Bool.false_eq_true, if_false]
      by_cases hc : a.ui.file_count > 0
      · simp only [hc, if_true]
        by_cases hi : inc = 0 <;> cases pressed <;>
          simp [hi, logDrawMenu, ShowMessage, drawCount_append, drawCount_draw, drawCount_msg, drawCount_nil,
            LoadBinaryFile_drawCount]
      · simp [hc]

/-- A poll that is due no render changes nothing. -/
theorem HandleMenu_no_draw (env : MenuEnv) (inc : Int) (pressed : Bool) (a : App)
    (h : expectedDraws inc pressed a = 0) : HandleMenu env inc pressed a = a := by
  unfold expectedDraws deltaDraws afterDelta at h
  unfold HandleMenu
  cases hs : a.ui.in_submenu
  · simp only [hs, Bool.not_false, if_true] at h ⊢
    by_cases hi : inc = 0
    · cases pressed
      · simp [hi]
      · by_cases h0 : a.ui.current_menu_index = 0
        · simp [hi, h0] at h
        · simp [hi, h0]
    · simp [hi] at h
  · simp only [hs, Bool.not_true, Bool.false_eq_true, if_false] at h ⊢
    cases hf : a.ui.in_file_selection
    · simp only [hf, Bool.not_false, if_true] at h ⊢
      by_cases hi : inc = 0
      · cases pressed
        · simp [hi]
        · simp [hi] at h
      · simp [hi] at h
    · simp only [hf, Bool.not_true, Bool.false_eq_true, if_false] at h ⊢
      by_cases hc : a.ui.file_count > 0
      · simp only [hc, if_true] at h ⊢
        by_cases hi : inc = 0
        · cases pressed
          · simp [hi]
          · simp [hi] at h
        · simp [hi] at h
      · simp [hc]

/-- A poll that is due a render ends with it. -/
theorem HandleMenu_last_draw (env : MenuEnv) (inc : Int) (pressed : Bool) (a : App)
    (h : 0 < expectedDraws inc pressed a) :
    (HandleMenu env inc pressed a).sys.log.getLast? = some Ev.DrawMenu := by
  unfold expectedDraws deltaDraws afterDelta at h
  unfold HandleMenu
  cases hs : a.ui.in_submenu
  · simp only [hs, Bool.not_false, if_true] at h ⊢
    by_cases hi : inc = 0
    · cases pressed
      · simp [hi] at h
      · by_cases h0 : a.ui.current_menu_index = 0
        · simp [hi, h0, logDrawMenu]
        · simp [hi, h0] at h
    · cases pressed
      · simp [hi, logDrawMenu]
      · by_cases h0 : rotate a.ui.current_menu_index inc menu_count = 0 <;>
          simp [hi, h0, logDrawMenu]
  · simp only [hs, Bool.not_true, Bool.false_eq_true, if_false] at h ⊢
    cases hf : a.ui.in_file_selection
    · simp only [hf, Bool.not_false, if_true] at h ⊢
      cases pressed
      · by_cases hi : inc = 0
        · simp [hi] at h
        · simp [hi, logDrawMenu]
      · simp [logDrawMenu]
    · simp only [hf, Bool.not_true, Bool.false_eq_true, if_false] at h ⊢
      by_cases hc : a.ui.file_count > 0
      · simp only [hc, if_true] at h ⊢
        cases pressed
        · by_cases hi : inc = 0
          · simp [hi] at h
          · simp [hi, logDrawMenu]
        · simp [logDrawMenu]
      · simp [hc] at h

/-- C16 as amended (rendering): for every menu state and every poll input, a
call of `HandleMenu` makes one `DrawMenu()` call for a non-zero delta that the
level processes plus one for a press that the level acts on, so at most two:
one when only the delta or only the press takes effect, two when both do in
the same poll. A call that makes no `DrawMenu()` call changes nothing (neither
the level, nor an index, nor the display), and a call that makes one ends with
a `DrawMenu()` call, after every status message. -/
theorem C16_render_count (env : MenuEnv) (inc : Int) (pressed : Bool) (a : App) :
    drawCount (HandleMenu env inc pressed a).sys.log
        = drawCount a.sys.log + expectedDraws inc pressed a
    ∧ expectedDraws inc pressed a ≤ 2
    ∧ (expectedDraws inc pressed a = 0 → HandleMenu env inc pressed a = a)
    ∧ (0 < expectedDraws inc pressed a →
        (HandleMenu env inc pressed a).sys.log.getLast? = some Ev.DrawMenu)
    ∧ (inc = 0 ∨ pressed = false → expectedDraws inc pressed a ≤ 1) := by
  refine ⟨HandleMenu_drawCount env inc pressed a, ?_, HandleMenu_no_draw env inc pressed a,
    HandleMenu_last_draw env inc pressed a, ?_⟩
  · unfold expectedDraws deltaDraws
    split_ifs <;> omega
  · intro h
    unfold expectedDraws deltaDraws
    rcases h with h | h
    · subst h
      split_ifs <;> simp_all
    · subst h
      split_ifs <;> simp_all

/-- C16 as amended, on the menu as constructed: a poll with neither delta nor
press changes nothing. -/
theorem C16_render_count_witness : HandleMenu noDirEnv 0 false appInit = appInit :=
  (C16_render_count noDirEnv 0 false appInit).2.2.1 (by decide)

/-! ### Menu: scroll window of the file selection -/

/-- C17 (scroll window of the file selection): for every `file_count` and
every selected index `s` with `0 <= s < file_count`, the window start computed
by `DrawMenu` is `clamp(s - W/2, 0, max(file_count - W, 0))` with `W = 3`, it
is 0 when `file_count < 3`, every file index drawn lies in
`0 .. file_count - 1`, the selected index is among the drawn ones, at most 3
rows are drawn, and the rows of the file selection screen are those of the
drawn indices; with 2 files the start is 0 and both files are drawn. -/
theorem C17_scroll_window (m : OledManager) (h0 : 0 ≤ m.selected_file_index)
    (h1 : m.selected_file_index < m.file_count) :
    scroll_start m.selected_file_index m.file_count
        = windowStartSpec m.selected_file_index m.file_count
    ∧ (m.file_count < 3 → scroll_start m.selected_file_index m.file_count = 0)
    ∧ (∀ k ∈ drawnFiles m.selected_file_index m.file_count, 0 ≤ k ∧ k < m.file_count)
    ∧ m.selected_file_index ∈ drawnFiles m.selected_file_index m.file_count
    ∧ (drawnFiles m.selected_file_index m.file_count).length ≤ 3
    ∧ (m.in_submenu = true → m.in_file_selection = true →
        (DrawMenu m).map Row.text
          = (drawnFiles m.selected_file_index m.file_count).map m.file_list)
    ∧ (m.file_count = 2 → scroll_start m.selected_file_index m.file_count = 0
        ∧ drawnFiles m.selected_file_index m.file_count = [0, 1]) := by
  have hW : max_visible_files = 3 := rfl
  have hdiv : Int.tdiv 3 2 = 1 := by decide
  have hstart : scroll_start m.selected_file_index m.file_count
      = windowStartSpec m.selected_file_index m.file_count := by
    unfold scroll_start windowStartSpec
    have h32 : (3 : Int) / 2 = 1 := by decide
    simp only [hW, hdiv, h32, max_def, min_def]
    split_ifs <;> omega
  have hval : 0 ≤ scroll_start m.selected_file_index m.file_count
      ∧ scroll_start m.selected_file_index m.file_count ≤ m.selected_file_index
      ∧ m.selected_file_index ≤ scroll_start m.selected_file_index m.file_count + 2 := by
    unfold scroll_start
    simp only [hW, hdiv]
    split_ifs <;> omega
  have hdrawn : ∀ st : Int, 0 ≤ st → st ≤ m.selected_file_index →
      m.selected_file_index ≤ st + 2 →
      (∀ k ∈ fileRowLoop st m.file_count 3 0, 0 ≤ k ∧ k < m.file_count)
      ∧ m.selected_file_index ∈ fileRowLoop st m.file_count 3 0
      ∧ (fileRowLoop st m.file_count 3 0).length ≤ 3 := by
    intro st hs0 hs1 hs2
    simp only [fileRowLoop]
    split_ifs <;> simp <;> omega
  have h3 : max_visible_files.toNat = 3 := rfl
  obtain ⟨hd1, hd2, hd3⟩ := hdrawn _ hval.1 hval.2.1 hval.2.2
  refine ⟨hstart, ?_, ?_, ?_, ?_, ?_, ?_⟩
  · intro hlt
    unfold scroll_start
    simp only [hW]
    rw [if_pos hlt]
  · unfold drawnFiles; rw [h3]; exact hd1
  · unfold drawnFiles; rw [h3]; exact hd2
  · unfold drawnFiles; rw [h3]; exact hd3
  · intro hs hf
    unfold DrawMenu
    simp [hs, hf, Function.comp_def]
  · intro h2
    have hst : scroll_start m.selected_file_index m.file_count = 0 := by
      unfold scroll_start
      simp only [hW]
      rw [if_pos (by omega)]
    refine ⟨hst, ?_⟩
    unfold drawnFiles
    rw [hst, h3, h2]
    decide

/-- C17 on a catalog of two names with the second one selected: the window
starts at 0. -/
theorem C17_scroll_window_witness :
    scroll_start fileSelectApp.ui.selected_file_index fileSelectApp.ui.file_count = 0
    ∧ drawnFiles fileSelectApp.ui.selected_file_index fileSelectApp.ui.file_count = [0, 1] :=
  (C17_scroll_window fileSelectApp.ui (by decide) (by decide)).2.2.2.2.2.2 rfl

/-! ### File catalog -/

/-- `strstr` finds the needle exactly when it is a contiguous part of the
string. -/
theorem strstr_iff_infix (needle : List Char) :
    ∀ hay : List Char, strstr hay needle = true ↔ needle <:+: hay := by
  intro hay
  induction hay with
  | nil => simp [strstr, List.isEmpty_iff]
  | cons c rest ih =>
    simp only [strstr, Bool.or_eq_true, List.isPrefixOf_iff_prefix, ih]
    exact List.infix_cons_iff.symm

/-- The scan loop, started with `c <= 10` names in the catalog: it ends with
`min 10 (c + number of matches)` names, keeps the cells below `c` and stores
the matches, cut to 63 characters, in scan order from cell `c` on. -/
theorem scanDir_spec (entries : List String) :
    ∀ (file_list : Int → String) (c : Nat), c ≤ 10 →
      (scanDir entries file_list c).2
          = ((min 10 (c + ((listing entries).filter isBinName).length) : Nat) : Int)
      ∧ (∀ k : Nat, k < c → (scanDir entries file_list c).1 k = file_list k)
      ∧ (∀ j : Nat, c + j < min 10 (c + ((listing entries).filter isBinName).length) →
          (scanDir entries file_list c).1 ((c + j : Nat) : Int)
            = strncpy63 (((listing entries).filter isBinName).getD j "")) := by
  induction entries with
  | nil =>
    intro fl c hc
    have hl : listing [] = [] := rfl
    rw [hl]
    refine ⟨?_, fun _ _ => rfl, ?_⟩
    · simp [scanDir, hc]
    · intro j hj
      have hj' := lt_min_iff.mp hj
      simp at hj'
  | cons fname rest ih =>
    intro fl c hc
    have hmax : max_files = 10 := rfl
    by_cases hne : fname.toList ≠ []
    · have hne' : ¬ fname.data = [] := hne
      have hlist : listing (fname :: rest) = fname :: listing rest := by
        simp [listing, List.takeWhile_cons, hne']
      by_cases hlt : (c : Int) < max_files
      · have hc9 : c < 10 := by omega
        by_cases hb : isBinName fname = true
        · have hms : (listing (fname :: rest)).filter isBinName
              = fname :: (listing rest).filter isBinName := by
            rw [hlist, List.filter_cons_of_pos hb]
          obtain ⟨i1, i2, i3⟩ := ih (Function.update fl (c : Int) (strncpy63 fname)) (c + 1)
            (by omega)
          have hstep : scanDir (fname :: rest) fl c
              = scanDir rest (Function.update fl (c : Int) (strncpy63 fname)) ((c + 1 : Nat) : Int)
              := by
            simp only [scanDir, hne, hlt, hb, and_self, if_true, ne_eq, not_false_eq_true]
            push_cast
            rfl
          rw [hstep, hms]
          simp only [List.length_cons]
          refine ⟨?_, ?_, ?_⟩
          · rw [i1]; congr 2; omega
          · intro k hk
            rw [i2 k (by omega), Function.update_noteq (by omega)]
          · intro j hj
            have hj' := lt_min_iff.mp hj
            by_cases hj0 : j = 0
            · subst hj0
              have e : ((c + 0 : Nat) : Int) = (c : Int) := by simp
              rw [e, i2 c (by omega)]
              simp
            · obtain ⟨j1, rfl⟩ := Nat.exists_eq_succ_of_ne_zero hj0
              have := i3 j1 (lt_min_iff.mpr ⟨by omega, by omega⟩)
              have e : ((c + j1.succ : Nat) : Int) = ((c + 1 + j1 : Nat) : Int) := by
                push_cast; ring
              rw [e, this]
              rfl
        · have hms : (listing (fname :: rest)).filter isBinName
              = (listing rest).filter isBinName := by
            rw [hlist, List.filter_cons_of_neg hb]
          have hstep : scanDir (fname :: rest) fl c = scanDir rest fl c := by
            simp only [scanDir, hne, hlt, hb, and_self, if_true, if_false, ne_eq,
              not_false_eq_true, Bool.false_eq_true]
          rw [hstep, hms]
          exact ih fl c hc
      · have hc10 : c = 10 := by omega
        have hstep : scanDir (fname :: rest) fl c = (fl, (c : Int)) := by
          simp only [scanDir, hlt, and_false, if_false]
        rw [hstep]
        refine ⟨by simp [hc10], fun _ _ => rfl, ?_⟩
        intro j hj
        have hj' := lt_min_iff.mp hj
        omega
    · have hne' : ¬ ¬ fname.data = [] := hne
      have hlist : listing (fname :: rest) = [] := by
        simp [listing, List.takeWhile_cons, not_not.mp hne']
      have hstep : scanDir (fname :: rest) fl c = (fl, (c : Int)) := by
        simp only [scanDir, hne, false_and, if_false]
      rw [hstep, hlist]
      refine ⟨by simp [hc], fun _ _ => rfl, ?_⟩
      intro j hj
      have hj' := lt_min_iff.mp hj
      simp at hj'

/-- C18 (catalog rescan): for every directory scan and every prior content of
the menu object, `ListBinaryFiles` leaves `file_count = min(10, number of
matching names)`, hence at most `max_files`, and a catalog that consists of
the first `file_count` matching names of the listing, in scan order, each cut
to its first 63 characters; nothing of the prior catalog is kept. When the
directory cannot be opened the catalog is empty. -/
theorem C18_rescan (entries : List String) (m : OledManager) :
    catalog (ListBinaryFiles (some entries) m)
        = (((listing entries).filter isBinName).take 10).map strncpy63
    ∧ (ListBinaryFiles (some entries) m).file_count
        = ((min 10 ((listing entries).filter isBinName).length : Nat) : Int)
    ∧ 0 ≤ (ListBinaryFiles (some entries) m).file_count
    ∧ (ListBinaryFiles (some entries) m).file_count ≤ max_files
    ∧ (∀ name ∈ catalog (ListBinaryFiles (some entries) m), name.toList.length ≤ 63)
    ∧ (ListBinaryFiles none m).file_count = 0
    ∧ catalog (ListBinaryFiles none m) = [] := by
  obtain ⟨h1, _, h3⟩ := scanDir_spec entries m.file_list 0 (by decide)
  simp only [Nat.zero_add, Nat.cast_zero] at h1 h3
  have hcount : (ListBinaryFiles (some entries) m).file_count
      = ((min 10 ((listing entries).filter isBinName).length : Nat) : Int) := h1
  have hcat : catalog (ListBinaryFiles (some entries) m)
      = (((listing entries).filter isBinName).take 10).map strncpy63 := by
    unfold catalog
    rw [hcount, Int.toNat_ofNat]
    apply List.ext_getElem
    · simp [List.length_take]
    · intro k hk1 hk2
      simp only [List.length_map, List.length_range] at hk1
      have hk3 : k < ((listing entries).filter isBinName).length :=
        lt_of_lt_of_le hk1 (min_le_right _ _)
      rw [List.getElem_map, List.getElem_range, List.getElem_map, List.getElem_take]
      have := h3 k hk1
      rw [List.getD_eq_getElem _ _ hk3] at this
      exact this
  refine ⟨hcat, hcount, ?_, ?_, ?_, rfl, ?_⟩
  · rw [hcount]; exact Int.natCast_nonneg _
  · rw [hcount]
    have : min 10 ((listing entries).filter isBinName).length ≤ 10 := min_le_left _ _
    have hmax : max_files = 10 := rfl
    omega
  · intro name hn
    rw [hcat, List.mem_map] at hn
    obtain ⟨x, _, hx⟩ := hn
    rw [← hx]
    unfold strncpy63
    simp [List.length_take]
  · unfold catalog
    have : (ListBinaryFiles none m).file_count = 0 := rfl
    rw [this]
    rfl

/-- C19 fails as stated: `LOOP1.Bin` ends with ".bin" up to case but is not
accepted, and `a.bin.txt` does not end with ".bin" but is accepted. -/
theorem C19_not_a_suffix_test :
    endsWithBinSpec "LOOP1.Bin" = true ∧ isBinName "LOOP1.Bin" = false
    ∧ endsWithBinSpec "a.bin.txt" = false ∧ isBinName "a.bin.txt" = true
    ∧ (ListBinaryFiles (some ["LOOP1.Bin"]) menuInit).file_count = 0
    ∧ (ListBinaryFiles (some ["a.bin.txt"]) menuInit).file_count = 1 := by
  refine ⟨by decide, by decide, by decide, by decide, ?_, ?_⟩
  · have h : isBinName "LOOP1.Bin" = false := by decide
    simp [ListBinaryFiles, scanDir, h]
  · have h : isBinName "a.bin.txt" = true := by decide
    simp [ListBinaryFiles, scanDir, h, max_files]

/-- C19 as amended: a directory entry name is accepted by `ListBinaryFiles`
if and only if ".bin" or ".BIN" occurs in it, in exactly one of these two
spellings and anywhere in the name; so every name that ends with ".bin" or
with ".BIN" is accepted. A directory holding one such non-empty name gives a
catalog of one entry, and a directory holding one other name an empty
catalog. -/
theorem C19_substring_test (fname : String) :
    (isBinName fname = true
      ↔ (".bin".toList <:+: fname.toList ∨ ".BIN".toList <:+: fname.toList))
    ∧ ((".bin".toList <:+ fname.toList ∨ ".BIN".toList <:+ fname.toList) →
        isBinName fname = true)
    ∧ (∀ m : OledManager, fname.toList ≠ [] →
        (ListBinaryFiles (some [fname]) m).file_count = if isBinName fname then 1 else 0) := by
  have hiff : isBinName fname = true
      ↔ (".bin".toList <:+: fname.toList ∨ ".BIN".toList <:+: fname.toList) := by
    unfold isBinName
    rw [Bool.or_eq_true, strstr_iff_infix, strstr_iff_infix]
  refine ⟨hiff, ?_, ?_⟩
  · intro h
    rw [hiff]
    rcases h with h | h
    · exact Or.inl h.isInfix
    · exact Or.inr h.isInfix
  · intro m hne
    have hne' : ¬ fname.data = [] := hne
    have hmax : (0 : Int) < max_files := by decide
    cases hb : isBinName fname <;> simp [ListBinaryFiles, scanDir, hb, hne', hmax]

/-- C19 as amended, on the name `LOOP1.BIN`, which ends with ".BIN". -/
theorem C19_substring_test_witness : isBinName "LOOP1.BIN" = true :=
  (C19_substring_test "LOOP1.BIN").2.1 (Or.inr (by decide))

/-- C18 on a directory with two raw files around a text file. -/
theorem C18_rescan_witness :
    ∀ name ∈ catalog (ListBinaryFiles (some ["LOOP1.BIN", "NOTES.TXT", "LOOP2.BIN"]) menuInit),
      name.toList.length ≤ 63 :=
  (C18_rescan ["LOOP1.BIN", "NOTES.TXT", "LOOP2.BIN"] menuInit).2.2.2.2.1

/-! ### Output of a tick and the dry/wet control -/

/-- `UpdateButtons` does not write `drywet`. -/
theorem UpdateButtons_drywet (b : Buttons) (s : Looper) :
    (UpdateButtons b s).drywet = s.drywet := by
  unfold UpdateButtons
  dsimp only
  split_ifs <;> simp [ResetBuffer]

/-- After `Controls` the mix is `enc_accum / 100` with `enc_accum` in
`0 .. 100`. -/
theorem Controls_drywet (increment : Int) (b : Buttons) (c : Panel) :
    0 ≤ (Controls increment b c).enc_accum ∧ (Controls increment b c).enc_accum ≤ 100
    ∧ (Controls increment b c).lp.drywet = ((Controls increment b c).enc_accum : ℚ) / 100 := by
  unfold Controls
  dsimp only
  rw [UpdateButtons_drywet]
  refine ⟨?_, ?_, rfl⟩ <;> split_ifs <;> omega

/-- The value a tick assigns to `output`. -/
theorem NextSamples_output (s s1 : Looper) (x out : ℚ)
    (h : NextSamples s x = some (s1, out)) :
    out = clamp1 (x + loopSignalSpec s x) ∧ s1.drywet = s.drywet := by
  unfold NextSamples at h
  unfold loopSignalSpec wetGain
  cases hr : s.rec_ <;> cases hp : s.play <;>
    simp only [hr, hp, if_true, if_false, Bool.false_eq_true, WriteBuffer] at h ⊢ <;>
    split_ifs at h <;> simp at h <;> obtain ⟨h1, h2⟩ := h <;> subst h1 <;>
    refine ⟨?_, rfl⟩ <;> rw [← h2] <;> simp

/-- A tick completes whenever it does not have to divide by a zero loop
length. -/
theorem NextSamples_defined (s : Looper) (x : ℚ) (h : s.play = true → s.mod ≠ 0) :
    ∃ r, NextSamples s x = some r := by
  have hM : MAX_SIZE ≠ 0 := ne_of_gt MAX_SIZE_pos
  unfold NextSamples
  cases hp : s.play
  · cases hr : s.rec_ <;> simp [WriteBuffer, hp] <;> split_ifs <;> simp_all
  · have hm := h hp
    cases hr : s.rec_ <;> simp [WriteBuffer, hp] <;> split_ifs <;> simp_all

/-- Any run of `Controls` from the start leaves the mix coefficient in
`[0, 3/2]`. -/
theorem runControls_wetGain (steps : List (Int × Buttons)) :
    ∀ c : Panel, 0 ≤ wetGain c.lp ∧ wetGain c.lp ≤ 3 / 2 →
      0 ≤ wetGain (runControls steps c).lp ∧ wetGain (runControls steps c).lp ≤ 3 / 2 := by
  induction steps with
  | nil => intro c h; exact h
  | cons st rest ih =>
    intro c _
    obtain ⟨increment, b⟩ := st
    apply ih
    obtain ⟨h0, h1, h2⟩ := Controls_drywet increment b c
    unfold wetGain
    rw [h2]
    have h0' : (0 : ℚ) ≤ ((Controls increment b c).enc_accum : ℚ) := by exact_mod_cast h0
    have h1' : ((Controls increment b c).enc_accum : ℚ) ≤ 100 := by exact_mod_cast h1
    constructor
    · positivity
    · linarith

/-- The value assigned to `output` is the clamped sum of the input and the
loop signal. -/
theorem outputSample_eq (s : Looper) (x : ℚ) :
    outputSample s x = clampSpec (x + loopSignalSpec s x) (-1) 1 := by
  unfold outputSample loopSignalSpec wetGain
  rw [← clamp1_eq_clampSpec]
  cases hr : s.rec_ <;> cases hp : s.play <;> simp [WriteBuffer, hp]

/-- C20 (per-tick output): for every state and input sample `x`, the value
that `NextSamples` assigns to `output` is `clamp(x + loopSignal, -1, 1)`,
where `loopSignal` is `samples[pos] * wetGain` while `play` is set and 0
otherwise, `samples[pos]` being read after the overdub write of this tick at
the head position of before the tick; it lies in `[-1, 1]`. A tick that
completes returns this value and leaves `drywet` alone, and every tick
completes unless `play` is set with a loop length `mod` of 0.
`wetGain == drywet * 1.5` lies in `[0, 1.5]` after every sequence of encoder
increments and button readings processed by `Controls`, and after each single
`Controls` call from any state. -/
theorem C20_tick_output (s : Looper) (x : ℚ) :
    outputSample s x = clampSpec (x + loopSignalSpec s x) (-1) 1
    ∧ -1 ≤ outputSample s x ∧ outputSample s x ≤ 1
    ∧ (∀ s1 out, NextSamples s x = some (s1, out) →
        out = outputSample s x ∧ s1.drywet = s.drywet)
    ∧ ((s.play = true → s.mod ≠ 0) → ∃ s1, NextSamples s x = some (s1, outputSample s x))
    ∧ (∀ steps : List (Int × Buttons),
        0 ≤ wetGain (runControls steps panelInit).lp
        ∧ wetGain (runControls steps panelInit).lp ≤ 3 / 2)
    ∧ (∀ (increment : Int) (b : Buttons) (c : Panel),
        0 ≤ wetGain (Controls increment b c).lp ∧ wetGain (Controls increment b c).lp ≤ 3 / 2)
    := by
  have hout : ∀ s1 out, NextSamples s x = some (s1, out) →
      out = outputSample s x ∧ s1.drywet = s.drywet := by
    intro s1 out h
    obtain ⟨h1, h2⟩ := NextSamples_output s s1 x out h
    exact ⟨by rw [h1, outputSample_eq, clamp1_eq_clampSpec], h2⟩
  have hb : -1 ≤ outputSample s x ∧ outputSample s x ≤ 1 := by
    unfold outputSample
    exact clamp1_bounds _
  refine ⟨outputSample_eq s x, hb.1, hb.2, hout, ?_, ?_, ?_⟩
  · intro h
    obtain ⟨⟨s1, out⟩, hr⟩ := NextSamples_defined s x h
    refine ⟨s1, ?_⟩
    rw [hr, (hout s1 out hr).1]
  · intro steps
    apply runControls_wetGain steps panelInit
    have : wetGain panelInit.lp = 0 := by
      simp [wetGain, panelInit, ResetBuffer, boot]
    rw [this]
    constructor <;> norm_num
  · intro increment b c
    obtain ⟨h0, h1, h2⟩ := Controls_drywet increment b c
    unfold wetGain
    rw [h2]
    have h0' : (0 : ℚ) ≤ ((Controls increment b c).enc_accum : ℚ) := by exact_mod_cast h0
    have h1' : ((Controls increment b c).enc_accum : ℚ) ≤ 100 := by exact_mod_cast h1
    constructor
    · positivity
    · linarith

/-- C20 on a paused finalized loop: the tick completes with the clamped dry
input as output. -/
theorem C20_tick_output_witness :
    ∃ s1, NextSamples wetLoop (1 / 4) = some (s1, outputSample wetLoop (1 / 4)) :=
  (C20_tick_output wetLoop (1 / 4)).2.2.2.2.1 (by intro h; simp [wetLoop, boot] at h)

/-! ### Reset and the hold-reset gesture -/

/-- C21 (reset returns to Empty): from every state `ResetBuffer` leaves
`play == false`, `rec == false`, `first == true`, `pos == 0`, `len == 0`,
`mod == MAX_SIZE` and every cell of the buffer, hence every sample of the
previous loop region `0 .. mod - 1`, equal to 0. A poll of the buttons without
a rising edge is `ResetBuffer` when both buttons have been held for at least
1000 ms and `play` is set, and changes nothing otherwise; in any poll, hold
times below 1000 ms on either button, or `play` unset with no record press,
leave the poll as it is without the gesture. -/
theorem C21_reset (s : Looper) (b : Buttons) :
    ((ResetBuffer s).play = false ∧ (ResetBuffer s).rec_ = false ∧ (ResetBuffer s).first = true
      ∧ (ResetBuffer s).pos = 0 ∧ (ResetBuffer s).len = 0 ∧ (ResetBuffer s).mod = MAX_SIZE
      ∧ (∀ i, 0 ≤ i → i < MAX_SIZE → (ResetBuffer s).buf i = 0)
      ∧ (∀ i, 0 ≤ i → i < s.mod → i < MAX_SIZE → (ResetBuffer s).buf i = 0))
    ∧ (b.b1_rising = false → b.b2_rising = false →
        UpdateButtons b s
          = if 1000 ≤ b.b1_held_ms ∧ 1000 ≤ b.b2_held_ms ∧ s.play = true then ResetBuffer s
            else s)
    ∧ (¬ (1000 ≤ b.b1_held_ms ∧ 1000 ≤ b.b2_held_ms) →
        UpdateButtons b s = UpdateButtons (withoutHold b) s)
    ∧ (s.play = false → b.b2_rising = false →
        UpdateButtons b s = UpdateButtons (withoutHold b) s) := by
  refine ⟨⟨rfl, rfl, rfl, rfl, rfl, rfl, ?_, ?_⟩, ?_, ?_, ?_⟩
  · intro i h0 h1
    simp [ResetBuffer, h0, h1]
  · intro i h0 _ h1
    simp [ResetBuffer, h0, h1]
  · intro h1 h2
    unfold UpdateButtons
    simp [h1, h2]
  · intro hh
    unfold UpdateButtons withoutHold
    have hh1 : ¬ (1000 ≤ b.b1_held_ms ∧ 1000 ≤ b.b2_held_ms ∧
        (if b.b2_rising = true then
          (let t := if (s.first && s.rec_) = true then
              { s with first := false, mod := s.len, len := 0 } else s
           { t with play := true, rec_ := !t.rec_ })
          else s).play = true) := fun h => hh ⟨h.1, h.2.1⟩
    simp only [ge_iff_le, hh1, if_false]
    simp
  · intro hp h2
    unfold UpdateButtons withoutHold
    simp [h2, hp]

theorem C21_reset_witness :
    UpdateButtons (holdBoth 1000 1000) runningTake
      = if 1000 ≤ (holdBoth 1000 1000).b1_held_ms ∧ 1000 ≤ (holdBoth 1000 1000).b2_held_ms
          ∧ runningTake.play = true then ResetBuffer runningTake else runningTake :=
  (C21_reset runningTake (holdBoth 1000 1000)).2.1 rfl rfl

/-! ### The transport bookkeeping is kept by every operation -/

theorem engineInv_ResetBuffer (s : Looper) : engineInv (ResetBuffer s) := by
  have hM := MAX_SIZE_pos
  unfold engineInv ResetBuffer
  simp
  omega

theorem engineInv_recordToggle (b : Buttons) (s : Looper) (h : engineInv s) :
    engineInv (if b.b2_rising then
      { (if s.first && s.rec_ then { s with first := false, mod := s.len, len := 0 } else s) with
        play := true,
        rec_ := !(if s.first && s.rec_ then
          { s with first := false, mod := s.len, len := 0 } else s).rec_ }
      else s) := by
  obtain ⟨h0, h1, h2, h3, h4, h5, h6⟩ := h
  unfold engineInv
  generalize MAX_SIZE = M at *
  cases hb2 : b.b2_rising <;> cases hf : s.first <;> cases hr : s.rec_ <;> cases hp : s.play <;>
    simp_all

theorem engineInv_holdReset (b : Buttons) (s : Looper) (h : engineInv s) :
    engineInv (if b.b1_held_ms ≥ 1000 ∧ b.b2_held_ms ≥ 1000 ∧ s.play = true then ResetBuffer s
      else s) := by
  split
  · exact engineInv_ResetBuffer s
  · exact h

theorem engineInv_playToggle (b : Buttons) (s : Looper) (h : engineInv s) :
    engineInv (if b.b1_rising && !(s.first && !s.rec_) then
      { s with play := !s.play, rec_ := false } else s) := by
  obtain ⟨h0, h1, h2, h3, h4, h5, h6⟩ := h
  unfold engineInv
  generalize MAX_SIZE = M at *
  cases hb1 : b.b1_rising <;> cases hf : s.first <;> cases hr : s.rec_ <;> cases hp : s.play <;>
    simp_all

theorem engineInv_UpdateButtons (b : Buttons) (s : Looper) (h : engineInv s) :
    engineInv (UpdateButtons b s) := by
  unfold UpdateButtons
  exact engineInv_playToggle b _ (engineInv_holdReset b _ (engineInv_recordToggle b s h))

theorem engineInv_NextSamples (s s1 : Looper) (x out : ℚ) (h : engineInv s)
    (hstep : NextSamples s x = some (s1, out)) : engineInv s1 := by
  have hM := MAX_SIZE_pos
  obtain ⟨h0, h1, h2, h3, h4, h5, h6⟩ := h
  have ta : 0 ≤ Int.tmod (s.pos + 1) s.mod := Int.tmod_nonneg _ (by omega)
  have tb : s.mod ≠ 0 → Int.tmod (s.pos + 1) s.mod < s.mod :=
    fun hm => Int.tmod_lt_of_pos _ (by omega)
  have tc : s.pos + 1 < s.mod → Int.tmod (s.pos + 1) s.mod = s.pos + 1 :=
    fun hl => Int.tmod_eq_of_lt (by omega) hl
  have td : 0 ≤ Int.tmod (s.pos + 1) MAX_SIZE := Int.tmod_nonneg _ (by omega)
  have te : Int.tmod (s.pos + 1) MAX_SIZE < MAX_SIZE := Int.tmod_lt_of_pos _ hM
  unfold NextSamples at hstep
  unfold engineInv
  generalize MAX_SIZE = M at *
  have hM0 : M ≠ 0 := ne_of_gt hM
  cases hr : s.rec_ <;> cases hp : s.play <;> cases hfirst : s.first <;>
    by_cases hl : M ≤ s.len <;> by_cases hl1 : M ≤ s.len + 1 <;>
    by_cases hm : s.mod = 0 <;>
    simp [WriteBuffer, hr, hp, hfirst, hl, hl1, hm, hM0] at hstep <;>
    (try obtain ⟨hs1, _⟩ := hstep) <;>
    (try subst hs1) <;>
    simp_all <;> omega

theorem engineInv_LoadBinaryFile (m : Medium) (filename : String) (s : Sys)
    (h : engineInv s.lp) : engineInv (LoadBinaryFile m filename s).lp := by
  cases ho : m.open_ok filename
  · rw [LoadBinaryFile_not_opened m filename s (Or.inl ho)]
    exact h
  · cases hd : s.disk filename with
    | none =>
      rw [LoadBinaryFile_not_opened m filename s (Or.inr hd)]
      exact h
    | some data =>
      obtain ⟨total, t0, t1, _, _, e1, e2, e3, e4, e5, _⟩ :=
        LoadBinaryFile_result m filename s data ho hd
      have hb := importCount_bounds data
      have hM := MAX_SIZE_pos
      unfold engineInv
      rw [e1, e2, e3, e4, e5]
      simp
      omega

theorem engineInv_SaveBufferToWav (s : Sys) (h : engineInv s.lp) :
    engineInv (SaveBufferToWav s).lp := by
  unfold SaveBufferToWav
  split
  · exact h
  · split <;> exact h

theorem engineInv_SaveBufferToBinary (m : Medium) (s : Sys) (h : engineInv s.lp) :
    engineInv (SaveBufferToBinary m s).lp := by
  unfold SaveBufferToBinary
  split
  · exact h
  · split
    · exact h
    · dsimp only
      split
      · split <;> exact h
      · exact h

/-- Every reachable state of the looper keeps the transport bookkeeping. -/
theorem Reachable_engineInv (s : Looper) (h : Reachable s) : engineInv s := by
  induction h with
  | start => exact engineInv_ResetBuffer boot
  | buttons b s _ ih => exact engineInv_UpdateButtons b s ih
  | reset s _ _ => exact engineInv_ResetBuffer s
  | tick s s1 x out _ hstep ih => exact engineInv_NextSamples s s1 x out ih hstep
  | load m filename disk log s _ ih =>
    exact engineInv_LoadBinaryFile m filename { lp := s, disk := disk, log := log } ih
  | saveWav disk log s _ ih =>
    exact engineInv_SaveBufferToWav { lp := s, disk := disk, log := log } ih
  | saveBin m disk log s _ ih =>
    exact engineInv_SaveBufferToBinary m { lp := s, disk := disk, log := log } ih

theorem engineInv_Controls (increment : Int) (b : Buttons) (c : Panel) (h : engineInv c.lp) :
    engineInv (Controls increment b c).lp := by
  unfold Controls
  exact engineInv_UpdateButtons b _ h

theorem engineInv_runControls (steps : List (Int × Buttons)) :
    ∀ c : Panel, engineInv c.lp → engineInv (runControls steps c).lp := by
  induction steps with
  | nil => intro c h; exact h
  | cons st rest ih =>
    intro c h
    obtain ⟨increment, b⟩ := st
    exact ih _ (engineInv_Controls increment b c h)

/-- What a tick leaves in the buffer, the two transport flags and the take
bookkeeping. -/
theorem NextSamples_state (s s1 : Looper) (x out : ℚ)
    (hstep : NextSamples s x = some (s1, out)) :
    s1.buf = (if s.rec_ then Function.update s.buf s.pos (clamp1 (s.buf s.pos + x)) else s.buf)
    ∧ s1.rec_ = s.rec_ ∧ s1.play = s.play
    ∧ (MAX_SIZE ≤ (if s.rec_ && s.first then s.len + 1 else s.len) →
        s1.first = false ∧ s1.mod = MAX_SIZE ∧ s1.len = 0)
    ∧ (¬ MAX_SIZE ≤ (if s.rec_ && s.first then s.len + 1 else s.len) →
        s1.first = s.first ∧ s1.mod = s.mod
        ∧ s1.len = (if s.rec_ && s.first then s.len + 1 else s.len)) := by
  have hM := MAX_SIZE_pos
  unfold NextSamples at hstep
  generalize MAX_SIZE = M at *
  have hM0 : M ≠ 0 := ne_of_gt hM
  cases hr : s.rec_ <;> cases hp : s.play <;> cases hfirst : s.first <;>
    by_cases hl : M ≤ s.len <;> by_cases hl1 : M ≤ s.len + 1 <;>
    by_cases hm : s.mod = 0 <;>
    simp [WriteBuffer, hr, hp, hfirst, hl, hl1, hm, hM0] at hstep <;>
    (try obtain ⟨hs1, _⟩ := hstep) <;>
    (try subst hs1) <;>
    simp_all

/-! ### Reachable states of the transport -/

/-- C22 (buffer indexing is in bounds): in every state that the program can
reach from the `ResetBuffer` of `main` by button polls (record presses, play
presses, hold-resets), raw imports, saves and audio ticks that do not divide
by zero, the head satisfies `0 <= pos < MAX_SIZE`; a tick from such a state
leaves the head in bounds again and changes no cell outside
`0 .. MAX_SIZE - 1`; right after a record press finalizes a first take the head
is at the finalized length, which is below `MAX_SIZE`, so the tick that
follows works on a cell of the buffer; and the same bounds hold after any run
of `Controls` from the start, whatever the encoder increments. -/
theorem C22_head_in_bounds :
    (∀ s, Reachable s → 0 ≤ s.pos ∧ s.pos < MAX_SIZE)
    ∧ (∀ s s1 x out, Reachable s → NextSamples s x = some (s1, out) →
        (0 ≤ s1.pos ∧ s1.pos < MAX_SIZE)
        ∧ (∀ i, i ≠ s.pos → s1.buf i = s.buf i)
        ∧ (∀ i, (i < 0 ∨ MAX_SIZE ≤ i) → s1.buf i = s.buf i))
    ∧ (∀ s, Reachable s → s.first = true → s.rec_ = true →
        (UpdateButtons recordPress s).first = false
        ∧ (UpdateButtons recordPress s).pos = (UpdateButtons recordPress s).mod
        ∧ 0 ≤ (UpdateButtons recordPress s).pos
        ∧ (UpdateButtons recordPress s).pos < MAX_SIZE)
    ∧ (∀ steps : List (Int × Buttons),
        0 ≤ (runControls steps panelInit).lp.pos
        ∧ (runControls steps panelInit).lp.pos < MAX_SIZE) := by
  refine ⟨?_, ?_, ?_, ?_⟩
  · intro s h
    have hi := Reachable_engineInv s h
    exact ⟨hi.1, hi.2.1⟩
  · intro s s1 x out h hstep
    have hi := Reachable_engineInv s h
    have hi1 := engineInv_NextSamples s s1 x out hi hstep
    have hb := (NextSamples_state s s1 x out hstep).1
    have hcell : ∀ i, i ≠ s.pos → s1.buf i = s.buf i := by
      intro i hne
      rw [hb]
      split
      · exact Function.update_noteq hne _ _
      · rfl
    refine ⟨⟨hi1.1, hi1.2.1⟩, hcell, ?_⟩
    intro i hout
    apply hcell
    have h0 := hi.1
    have h1 := hi.2.1
    omega
  · intro s h hf hr
    have hi := Reachable_engineInv (UpdateButtons recordPress s) (Reachable.buttons _ s h)
    have hs := Reachable_engineInv s h
    obtain ⟨_, _, _, _, _, _, h6⟩ := hs
    obtain ⟨_, hpos, _, _⟩ := h6 hf
    refine ⟨?_, ?_, hi.1, hi.2.1⟩
    · simp [UpdateButtons, recordPress, hf, hr]
    · simp [UpdateButtons, recordPress, hf, hr, hpos]
  · intro steps
    have hi := engineInv_runControls steps panelInit (engineInv_ResetBuffer boot)
    exact ⟨hi.1, hi.2.1⟩

theorem C22_head_in_bounds_witness :
    0 ≤ (UpdateButtons recordPress (ResetBuffer boot)).pos
      ∧ (UpdateButtons recordPress (ResetBuffer boot)).pos < MAX_SIZE :=
  C22_head_in_bounds.1 _ (Reachable.buttons recordPress _ Reachable.start)

/-- C23 (first-take bookkeeping): in every state that the program can reach
from the `ResetBuffer` of `main` by button polls, raw imports, saves and audio
ticks, recording implies playing, and while the first take is not finalized
`play == rec`, `pos == len` and `0 <= len < MAX_SIZE`. During the first take a
tick with recording on completes, stores the clamped sum in cell `len` and
adds one to `len` (or, when that fills the buffer, finalizes with length
`MAX_SIZE`); a tick with recording off changes nothing; and a record press
while recording finalizes with `mod` equal to `len`, leaving the buffer as it
is. So after a reset, a record press and `n < MAX_SIZE` ticks the record press
that follows fixes the length `n`. -/
theorem C23_first_take (s : Looper) (h : Reachable s) :
    (s.rec_ = true → s.play = true)
    ∧ (s.first = true → s.play = s.rec_ ∧ s.pos = s.len ∧ 0 ≤ s.len ∧ s.len < MAX_SIZE)
    ∧ (s.first = true → s.rec_ = true → ∀ x, ∃ s1 out, NextSamples s x = some (s1, out)
        ∧ s1.buf = Function.update s.buf s.len (clamp1 (s.buf s.len + x))
        ∧ (s.len + 1 < MAX_SIZE → s1.first = true ∧ s1.rec_ = true ∧ s1.len = s.len + 1)
        ∧ (s.len + 1 = MAX_SIZE → s1.first = false ∧ s1.mod = s.len + 1 ∧ s1.len = 0))
    ∧ (s.first = true → s.rec_ = false → ∀ x, NextSamples s x = some (s, clamp1 x))
    ∧ (s.first = true → s.rec_ = true →
        (UpdateButtons recordPress s).first = false
        ∧ (UpdateButtons recordPress s).mod = s.len
        ∧ (UpdateButtons recordPress s).buf = s.buf)
    ∧ (∀ (inp : Nat → ℚ) (n : Nat), (n : Int) < MAX_SIZE →
        ∃ s1, ticks inp 0 n (UpdateButtons recordPress (ResetBuffer s)) = some s1
          ∧ s1.first = true ∧ s1.len = n
          ∧ (UpdateButtons recordPress s1).first = false
          ∧ (UpdateButtons recordPress s1).mod = n) := by
  have hM := MAX_SIZE_pos
  have hi := Reachable_engineInv s h
  obtain ⟨h0, h1, h2, h3, h4, h5, h6⟩ := hi
  refine ⟨h4, ?_, ?_, ?_, ?_, ?_⟩
  · intro hf
    obtain ⟨a, b, c, _⟩ := h6 hf
    exact ⟨a, b, by omega, c⟩
  · intro hf hr x
    obtain ⟨hpr, hpos, hlen, hmod⟩ := h6 hf
    have hp : s.play = true := h4 hr
    obtain ⟨r, hstep⟩ := NextSamples_defined s x (fun _ => by rw [hmod]; exact ne_of_gt hM)
    obtain ⟨s1, out⟩ := r
    obtain ⟨e1, e2, _, e4, e5⟩ := NextSamples_state s s1 x out hstep
    simp only [hr, hf, Bool.and_self, if_true] at e1 e4 e5
    refine ⟨s1, out, hstep, ?_, ?_, ?_⟩
    · rw [e1, hpos]
    · intro hlt
      obtain ⟨a, _, c⟩ := e5 (by omega)
      exact ⟨a, by rw [e2, hr], c⟩
    · intro heq
      obtain ⟨a, b, c⟩ := e4 (by omega)
      exact ⟨a, by rw [b, heq], c⟩
  · intro hf hr x
    obtain ⟨hpr, hpos, hlen, hmod⟩ := h6 hf
    have hp : s.play = false := by rw [hpr, hr]
    have hl : ¬ MAX_SIZE ≤ s.len := not_le.mpr hlen
    simp [NextSamples, hr, hp, hl]
  · intro hf hr
    simp [UpdateButtons, recordPress, hf, hr]
  · intro inp n hn
    obtain ⟨hf, hr, hp, hm, hpos, hl⟩ := recordPress_after_reset s
    obtain ⟨s1, hs1, hf1, hr1, _, _, _, hl1⟩ :=
      ticks_first_take inp n 0 _ hf hr hp hm (by rw [hpos, hl]) (by rw [hl])
        (by rw [hl]; omega)
    have hlen1 : s1.len = n := by rw [hl1, hl]; simp
    refine ⟨s1, hs1, hf1, hlen1, ?_, ?_⟩
    · simp [UpdateButtons, recordPress, hf1, hr1]
    · simp [UpdateButtons, recordPress, hf1, hr1, hlen1]

theorem C23_first_take_witness :
    (UpdateButtons recordPress (ResetBuffer boot)).rec_ = true
      ∧ (UpdateButtons recordPress (ResetBuffer boot)).play = true :=
  ⟨(recordPress_after_reset boot).2.1,
    (C23_first_take _ (Reachable.buttons recordPress _ Reachable.start)).1
      (recordPress_after_reset boot).2.1⟩

/-! ### Reachable states of the menu -/

/-- With a delta of -1, 0 or +1 the cyclic index update stays inside the
entries of its level. -/
theorem rotate_bounds (index inc count : Int) (hc : 0 < count) (hc1 : count ≤ 10)
    (hi0 : 0 ≤ index) (hi1 : index < count) (h0 : -1 ≤ inc) (h1 : inc ≤ 1) :
    0 ≤ rotate index inc count ∧ rotate index inc count < count := by
  rw [rotate_eq_emod index inc count hc (by omega) (by omega) (by omega)]
  exact ⟨Int.emod_nonneg _ (ne_of_gt hc), Int.emod_lt_of_pos _ hc⟩

/-- A rescan leaves between 0 and `max_files` names in the catalog. -/
theorem scanResult_count_bounds (dir : Option (List String)) (file_list : Int → String) :
    0 ≤ (scanResult dir file_list).2 ∧ (scanResult dir file_list).2 ≤ max_files := by
  cases dir with
  | none => simp [scanResult, max_files]
  | some entries =>
    have h := (scanDir_spec entries file_list 0 (by omega)).1
    simp only [Nat.cast_zero] at h
    simp only [scanResult, max_files]
    rw [h]
    have hle : min 10 (0 + ((listing entries).filter isBinName).length) ≤ 10 :=
      Nat.min_le_left _ _
    exact ⟨Int.natCast_nonneg _, by exact_mod_cast hle⟩

theorem menuInv_HandleMenu (env : MenuEnv) (inc : Int) (pressed : Bool) (a : App)
    (h : menuInv a.ui) (h0 : -1 ≤ inc) (h1 : inc ≤ 1) :
    menuInv (HandleMenu env inc pressed a).ui := by
  obtain ⟨m0, m1, s0, s1, c0, c1, hfs⟩ := h
  have hr1 := rotate_bounds a.ui.current_menu_index inc menu_count (by decide) (by decide)
    m0 m1 h0 h1
  have hr2 := rotate_bounds a.ui.current_submenu_index inc sub_menu_count (by decide)
    (by decide) s0 s1 h0 h1
  have hsc := scanResult_count_bounds env.dir a.ui.file_list
  unfold HandleMenu menuInv
  simp only [menu_count, sub_menu_count, max_files] at *
  cases hsub : a.ui.in_submenu
  · have hfsel : a.ui.in_file_selection = false := by
      cases hx : a.ui.in_file_selection
      · rfl
      · exact absurd (hfs hx).1 (by simp [hsub])
    cases pressed <;> by_cases hi : inc = 0 <;>
      simp [hi, logDrawMenu, hsub, hfsel] <;> (try split_ifs) <;> simp_all
  · cases hfsel : a.ui.in_file_selection
    · cases pressed <;> by_cases hi : inc = 0 <;>
        simp [hi, logDrawMenu, ShowMessage, ListBinaryFiles_eq, hsub, hfsel] <;>
        (try split_ifs) <;> simp_all
    · obtain ⟨_, f0, f1, f2⟩ := hfs hfsel
      have hr3 := rotate_bounds a.ui.selected_file_index inc a.ui.file_count f0 c1 f1 f2 h0 h1
      cases pressed <;> by_cases hi : inc = 0 <;>
        simp [hi, logDrawMenu, ShowMessage, hsub, hfsel, f0] <;> simp_all

theorem menuInv_menuInit : menuInv menuInit := by
  unfold menuInv menuInit
  simp [menu_count, sub_menu_count, max_files]

/-- Every reachable menu state keeps the menu bookkeeping. -/
theorem MenuReachable_menuInv (a : App) (h : MenuReachable a) : menuInv a.ui := by
  induction h with
  | init sys => exact menuInv_menuInit
  | poll env inc pressed a _ h0 h1 ih => exact menuInv_HandleMenu env inc pressed a ih h0 h1
  | other a sys _ ih => exact ih

/-- C24 (menu level invariant): in every menu state that the program can
reach from the menu as constructed by polls of `HandleMenu` with a delta of
-1, 0 or +1 and any press value (whatever the card does and whatever happens
to the rest of the system between polls), `in_file_selection` implies
`in_submenu`, `file_count > 0` and `0 <= selected_file_index < file_count`;
`0 <= current_menu_index < 3`, `0 <= current_submenu_index < 3` and
`0 <= file_count <= max_files`. Hence the two flags show exactly one of the
main menu, the sub-menu and the file selection, and from the file selection a
poll with a press, with any delta, returns to the main menu. -/
theorem C24_menu_levels (a : App) (h : MenuReachable a) :
    (a.ui.in_file_selection = true →
      a.ui.in_submenu = true ∧ 0 < a.ui.file_count
      ∧ 0 ≤ a.ui.selected_file_index ∧ a.ui.selected_file_index < a.ui.file_count)
    ∧ (0 ≤ a.ui.current_menu_index ∧ a.ui.current_menu_index < 3)
    ∧ (0 ≤ a.ui.current_submenu_index ∧ a.ui.current_submenu_index < 3)
    ∧ (0 ≤ a.ui.file_count ∧ a.ui.file_count ≤ max_files)
    ∧ ((isMain a.ui ∨ isSubmenu a.ui ∨ isFileSelect a.ui)
      ∧ ¬ (isMain a.ui ∧ isSubmenu a.ui) ∧ ¬ (isMain a.ui ∧ isFileSelect a.ui)
      ∧ ¬ (isSubmenu a.ui ∧ isFileSelect a.ui))
    ∧ (isFileSelect a.ui → ∀ (env : MenuEnv) (inc : Int),
        isMain (HandleMenu env inc true a).ui) := by
  obtain ⟨m0, m1, s0, s1, c0, c1, hfs⟩ := MenuReachable_menuInv a h
  refine ⟨hfs, ⟨m0, m1⟩, ⟨s0, s1⟩, ⟨c0, c1⟩, ⟨?_, ?_, ?_, ?_⟩, ?_⟩
  · unfold isMain isSubmenu isFileSelect
    cases hsub : a.ui.in_submenu <;> cases hfsel : a.ui.in_file_selection <;> simp
    have := (hfs hfsel).1
    simp [hsub] at this
  · unfold isMain isSubmenu
    intro hx
    simp [hx.1.1] at hx
  · unfold isMain isFileSelect
    intro hx
    simp [hx.1.1] at hx
  · unfold isSubmenu isFileSelect
    intro hx
    simp [hx.1.2] at hx
  · intro hlevel env inc
    obtain ⟨hsub, hfsel⟩ := hlevel
    obtain ⟨_, f0, _, _⟩ := hfs hfsel
    unfold HandleMenu isMain
    by_cases hi : inc = 0 <;> simp [hi, logDrawMenu, ShowMessage, hsub, hfsel, f0]

theorem C24_menu_levels_witness :
    0 ≤ (HandleMenu noDirEnv 1 true appInit).ui.current_menu_index
      ∧ (HandleMenu noDirEnv 1 true appInit).ui.current_menu_index < 3 :=
  (C24_menu_levels _ (MenuReachable.poll noDirEnv 1 true appInit (MenuReachable.init _)
    (by decide) (by decide))).2.1

end GuitarLooper
